import Mathlib

/-!
# Cardinal object memory: a shallow embedding of `cardinal.c` and `car_defaults.c`

Memory is an explicit state `Mem`: the `CarVM` block, the heap of `CarObj` blocks
(the address of an object is its index in `heap`) and the state of the host allocator
reached through `realloc_fn`.  Pointers are tagged addresses (`Ptr`), so that the
assignments of the source that store the address of a link slot into a `CarObj*`
field can be written down as they stand.  Undefined behaviour (a store through NULL,
an access through a pointer that does not address storage of the accessed kind, a read
outside a buffer) is the result `none`.

Indeterminate storage: a field that the source reads before it writes it (the
`active_color` of a fresh `CarVM` block, the local `new_pool` of `car_recolor_obj`) is a
parameter of the model; storage that is written before it is read starts as `none`.

Sizes are those of the LP64 ABI; `size_t` arithmetic is reduced modulo `2 ^ 64` and
`rc_t` arithmetic modulo `2 ^ 32`.
-/

namespace Cardinal

/-! ## Constants and scalar types -/

def MAX_CLASS_NAME : Nat := 64

def RC_MAX : Nat := 0xFFFFFFFF

/-- One past the largest `size_t` -/
def SIZE_MOD : Nat := 2 ^ 64

/-- One past the largest `rc_t` -/
def RC_MOD : Nat := 2 ^ 32

/-- A `uint8_t` -/
abbrev Byte := Fin 256

def sizeof_CarObj : Nat := 40

def sizeof_CarString : Nat := 56

def sizeof_CarClass : Nat := 64

def sizeof_CarVM : Nat := 152

inductive CarGcColor where
  | CAR_GOLD
  | CAR_SILVER
  | CAR_RED
  | CAR_BLUE
  deriving DecidableEq, Repr

inductive CarObjType where
  | CAR_CLASS
  | CAR_STRING
  | CAR_MODULE
  | CAR_CODE
  deriving DecidableEq, Repr

open CarGcColor CarObjType

/-- The value of a pointer-typed storage location.  `CarObj*`, `CarClass*`, `CarString*`
and `CarObj**` values all live here, since the source stores the one into the other, and
so do the `char*` and `char**` values of a symbol table, which pass through the `void*`
parameter of the allocator callback. -/
inductive Ptr where
  /-- NULL -/
  | null
  /-- the address of the heap object with index `a` -/
  | obj (a : Nat)
  /-- the address of the `next` field of object `a`, i.e. `&a->next` -/
  | next_of (a : Nat)
  /-- the address of a pool head of the VM, e.g. `&vm->gold_pool` -/
  | pool_of (c : CarGcColor)
  /-- the address of the `CarVM` block -/
  | vm
  /-- the address of an automatic variable of `car_recolor_obj` (`&new_pool`) -/
  | stack
  /-- the address of the heap block with index `a` that holds no object: the characters
  of a symbol, or the array of a symbol table -/
  | block (a : Nat)
  deriving DecidableEq, Repr

/-- A function pointer of the type of `realloc_fn`: NULL or a host allocator -/
inductive FnPtr where
  | null
  | host
  deriving DecidableEq, Repr

/-! ## Data model -/

/-- A heap block holding a `CarObj` header followed by the fields of `CarString` or of
`CarClass`.  Fields after the header are `none` (for `bytes`: absent) until written. -/
structure CarObj where
  refcount : Nat
  color : CarGcColor
  obj_type : CarObjType
  class_ : Ptr
  next : Ptr
  prev_next : Ptr
  byte_count : Option Nat
  hash : Option Nat
  bytes : List Byte
  name : Option Ptr
  superclass : Option Ptr
  num_fields : Option Int
  deriving DecidableEq, Repr

structure CarVM where
  realloc_fn : FnPtr
  userdata : Nat
  string_class : Ptr
  obj_class : Ptr
  class_class : Ptr
  bool_class : Ptr
  fn_class : Ptr
  list_class : Ptr
  map_class : Ptr
  null_class : Ptr
  num_class : Ptr
  range_class : Ptr
  sequence_class : Ptr
  system_class : Ptr
  red_pool : Ptr
  blue_pool : Ptr
  gold_pool : Ptr
  silver_pool : Ptr
  active_color : CarGcColor
  deriving DecidableEq, Repr

structure CarConfig where
  realloc_fn : FnPtr
  userdata : Nat
  deriving DecidableEq, Repr

/-- State of the host allocator: the number of requests for storage it will still
grant, and the log of the calls `(ptr, size)` it has received. -/
structure Host where
  avail : Nat
  calls : List (Ptr × Nat)
  deriving DecidableEq, Repr

structure Mem where
  vm : CarVM
  heap : List CarObj
  host : Host
  deriving DecidableEq, Repr

/-! ## Memory access -/

/-- Sequencing of two steps, the first of which may be undefined.  (Kept out of line, so
that long sequences of steps compile in linear time.) -/
@[noinline] def obind {α β : Type} (x : Option α) (f : α → Option β) : Option β :=
  match x with
  | none => none
  | some a => f a

/-- Load through a `CarObj*` -/
def get_obj (m : Mem) : Ptr → Option CarObj
  | .obj a => m.heap[a]?
  | _ => none

/-- Store through a `CarObj*`: `f` is the field assignment -/
def set_obj (m : Mem) (p : Ptr) (f : CarObj → CarObj) : Option Mem :=
  match p with
  | .obj a =>
    match m.heap[a]? with
    | some o => some { m with heap := m.heap.set a (f o) }
    | none => none
  | _ => none

/-- The pool head of the VM for a color -/
def pool (vm : CarVM) : CarGcColor → Ptr
  | CAR_GOLD => vm.gold_pool
  | CAR_SILVER => vm.silver_pool
  | CAR_RED => vm.red_pool
  | CAR_BLUE => vm.blue_pool

def set_pool (vm : CarVM) (c : CarGcColor) (v : Ptr) : CarVM :=
  match c with
  | CAR_GOLD => { vm with gold_pool := v }
  | CAR_SILVER => { vm with silver_pool := v }
  | CAR_RED => { vm with red_pool := v }
  | CAR_BLUE => { vm with blue_pool := v }

/-- Load through a `CarObj**`: `*p` -/
def load_slot (m : Mem) : Ptr → Option Ptr
  | .pool_of c => some (pool m.vm c)
  | .next_of a => (m.heap[a]?).map (fun o => o.next)
  | _ => none

/-- Store through a `CarObj**`: `*p = v` -/
def store_slot (m : Mem) (p : Ptr) (v : Ptr) : Option Mem :=
  match p with
  | .pool_of c => some { m with vm := set_pool m.vm c v }
  | .next_of a => set_obj m (.obj a) (fun o => { o with next := v })
  | _ => none

/-! ## `car_defaults.c` -/

/-- Model of `car_default_realloc(ptr, size, userdata)` over the state of the C library
allocator.  `fresh` is the address `malloc` returns when it grants the request. -/
def car_default_realloc (h : Host) (fresh : Ptr) (ptr : Ptr) (size : Nat) : Host × Ptr :=
  let h := { h with calls := h.calls ++ [(ptr, size)] }
  if ptr ≠ .null then
    if size ≠ 0 then
      -- realloc(ptr, size)
      if h.avail = 0 then (h, .null) else ({ h with avail := h.avail - 1 }, ptr)
    else
      -- free(ptr)
      (h, .null)
  else
    if size ≠ 0 then
      -- malloc(size)
      if h.avail = 0 then (h, .null) else ({ h with avail := h.avail - 1 }, fresh)
    else
      (h, .null)

/-- A call through a `realloc_fn` pointer; a call through NULL is undefined -/
def call_realloc (fn : FnPtr) (h : Host) (fresh : Ptr) (ptr : Ptr) (size : Nat) :
    Option (Host × Ptr) :=
  match fn with
  | .null => none
  | .host => some (car_default_realloc h fresh ptr size)

/-! ## `cardinal.c` -/

/-- The loop of `car_hash_bytes`: `remaining` iterations from index `i` -/
def car_hash_bytes_loop (bytes : List Byte) : Nat → Nat → Nat → Option Nat
  | 0, _, result => some result
  | remaining + 1, i, result =>
    match bytes[i]? with
    | none => none
    | some b => car_hash_bytes_loop bytes remaining (i + 1) (result ^^^ b.val)

def car_hash_bytes (bytes : List Byte) (count : Nat) : Option Nat :=
  car_hash_bytes_loop bytes count 0 0x00

def car_vm_alloc (m : Mem) (size : Nat) : Option (Mem × Ptr) :=
  obind (call_realloc m.vm.realloc_fn m.host (.obj m.heap.length) .null size) fun r =>
  some ({ m with host := r.1 }, r.2)

def car_inc_rc (m : Mem) (obj : Ptr) : Option Mem :=
  obind (get_obj m obj) fun o =>
  if o.refcount < RC_MAX then
    set_obj m obj (fun o => { o with refcount := (o.refcount + 1) % RC_MOD })
  else some m

/-- The first stores through the pointer to a fresh block of `size` bytes: the six header
assignments of `car_setup_obj_without_class`.  They make the block part of `heap`; a
store through NULL is undefined, and so is a store past the end of a block of fewer than
`sizeof(CarObj)` bytes. -/
def init_obj (m : Mem) (p : Ptr) (size : Nat) (o : CarObj) : Option Mem :=
  match p with
  | .obj a =>
    if size < sizeof_CarObj then none
    else if a = m.heap.length then some { m with heap := m.heap ++ [o] } else none
  | _ => none

/-- The address of the `next` field of the object at a pointer: `&obj->next` -/
def addr_next : Ptr → Option Ptr
  | .obj a => some (.next_of a)
  | _ => none

def car_setup_obj_without_class (m : Mem) (obj_type : CarObjType) (size : Nat) :
    Option (Mem × Ptr) :=
  obind (car_vm_alloc m size) fun r =>
  let m := r.1
  let obj := r.2
  obind (init_obj m obj size
    { refcount := 1
      color := CAR_GOLD
      obj_type := obj_type
      class_ := .null
      next := m.vm.gold_pool
      prev_next := .pool_of CAR_GOLD
      byte_count := none, hash := none, bytes := []
      name := none, superclass := none, num_fields := none }) fun m =>
  let m := { m with vm := { m.vm with gold_pool := obj } }
  -- if (obj->next) obj->next->prev_next = &obj->next;
  obind (get_obj m obj) fun o =>
  obind (if o.next ≠ .null then
      obind (addr_next obj) fun slot =>
      set_obj m o.next (fun n => { n with prev_next := slot })
    else some m) fun m =>
  some (m, obj)

def car_setup_obj (m : Mem) (obj_type : CarObjType) (size : Nat) (class_ : Ptr) :
    Option (Mem × Ptr) :=
  obind (car_setup_obj_without_class m obj_type size) fun r =>
  let m := r.1
  let obj := r.2
  obind (set_obj m obj (fun o => { o with class_ := class_ })) fun m =>
  -- car_inc_rc(vm, (CarObj*)(obj->class)) is commented out in the source
  some (m, obj)

/-- Model of `memcpy(dst, src, n)`, on the initialised prefix `dst` of the destination;
reading past the end of `src` is undefined. -/
def memcpy (dst src : List Byte) (n : Nat) : Option (List Byte) :=
  if n ≤ src.length then some (src.take n ++ dst.drop n) else none

/-- Model of `dst[i] = b` on the initialised prefix `dst` of a byte array -/
def store_byte (dst : List Byte) (i : Nat) (b : Byte) : List Byte :=
  dst.take i ++ b :: dst.drop (i + 1)

def car_new_string (m : Mem) (bytes : List Byte) (count : Nat) : Option (Mem × Ptr) :=
  obind (car_setup_obj m CAR_STRING
    ((sizeof_CarString + count + 1) % SIZE_MOD) m.vm.string_class) fun r =>
  let m := r.1
  let string := r.2
  -- memcpy(string->bytes, bytes, count);
  obind (get_obj m string) fun o =>
  obind (memcpy o.bytes bytes count) fun copied =>
  obind (set_obj m string (fun o => { o with bytes := copied })) fun m =>
  -- string->bytes[count] = 0;
  obind (set_obj m string (fun o => { o with bytes := store_byte o.bytes count 0 })) fun m =>
  -- string->byte_count = count;
  obind (set_obj m string (fun o => { o with byte_count := some count })) fun m =>
  -- string->hash = car_hash_bytes(string->bytes, string->byte_count);
  obind (get_obj m string) fun o =>
  obind o.byte_count fun n =>
  obind (car_hash_bytes o.bytes n) fun h =>
  obind (set_obj m string (fun o => { o with hash := some h })) fun m =>
  some (m, string)

/-- Model of `strlen`: the index of the first NUL of the bytes at the pointer; running
off the end of the storage is undefined. -/
def strlen (s : List Byte) : Option Nat :=
  if s.findIdx (fun b => b = 0) < s.length then some (s.findIdx (fun b => b = 0)) else none

def car_new_string_from_cstring (m : Mem) (string : List Byte) : Option (Mem × Ptr) :=
  obind (strlen string) fun n =>
  car_new_string m string n

/-- Model of `strncpy(dst, src, n)` on the initialised prefix `dst` of the destination:
the characters of `src` before its terminator, at most `n` of them, then NULs up to `n`
bytes in all.  Reading `src` past its end (no terminator among the bytes read) is
undefined. -/
def strncpy (dst src : List Byte) (n : Nat) : Option (List Byte) :=
  let k := (src.take n).findIdx (fun b => b = 0)
  if k < (src.take n).length ∨ n ≤ src.length then
    some (src.take k ++ List.replicate (n - k) 0 ++ dst.drop n)
  else none

/-- Model of `strcat(dst, src)` on the initialised prefix `dst` of an array of `cap`
bytes: the characters of `src` and a terminator are stored from the first NUL of `dst`
on; a store past the array is undefined. -/
def strcat (cap : Nat) (dst src : List Byte) : Option (List Byte) :=
  obind (strlen dst) fun k =>
  obind (strlen src) fun n =>
  if k + n + 1 ≤ cap then
    some (dst.take k ++ src.take n ++ 0 :: dst.drop (k + n + 1))
  else none

/-- The bytes of a string literal, terminator included -/
def cstr (s : String) : List Byte :=
  s.toList.map (fun c => Fin.ofNat c.toNat) ++ [0]

def car_recolor_obj (m : Mem) (obj : Ptr) (new_color : CarGcColor) (new_pool : Ptr) :
    Option Mem :=
  obind (get_obj m obj) fun o =>
  if new_color = o.color then some m else
  -- switch (new_color) { CAR_RED: ... CAR_GOLD: ... }: the body holds plain labels,
  -- no case label and no default, so none of its statements runs and new_pool
  -- keeps its indeterminate value, the parameter new_pool.
  obind (addr_next obj) fun obj_next =>
  obind (if o.next ≠ .null then
      -- *obj->prev_next = &obj->next;
      obind (store_slot m o.prev_next obj_next) fun m =>
      -- obj->next->prev_next = obj->prev_next;
      obind (get_obj m obj) fun o =>
      set_obj m o.next (fun n => { n with prev_next := o.prev_next })
    else
      -- *obj->prev_next = NULL;
      store_slot m o.prev_next .null) fun m =>
  -- if (*new_pool) { new_pool->prev_next = &obj->next; }
  -- (the member access through the CarObj** is read as (*new_pool)->prev_next)
  obind (load_slot m new_pool) fun head =>
  obind (if head ≠ .null then
      set_obj m head (fun n => { n with prev_next := obj_next })
    else some m) fun m =>
  -- obj->next = new_pool;
  obind (set_obj m obj (fun o => { o with next := new_pool })) fun m =>
  -- *new_pool = obj;
  obind (store_slot m new_pool obj) fun m =>
  -- obj->prev_next = &new_pool;
  set_obj m obj (fun o => { o with prev_next := .stack })

/-- Model of `car_new_class(vm, name, superclass)`; `new_pool j` is the indeterminate
value of the local `new_pool` in its `j`-th call of `car_recolor_obj`. -/
def car_new_class (m : Mem) (name : List Byte) (superclass : Ptr) (new_pool : Nat → Ptr) :
    Option (Mem × Ptr) :=
  -- char metaclass_name[MAX_CLASS_NAME + 11];
  obind (strncpy [] name MAX_CLASS_NAME) fun metaclass_name =>
  let metaclass_name := store_byte metaclass_name MAX_CLASS_NAME 0
  obind (strcat (MAX_CLASS_NAME + 11) metaclass_name (cstr " metaclass")) fun metaclass_name =>
  obind (car_new_string_from_cstring m name) fun r =>
  let m := r.1
  let name_obj := r.2
  obind (car_new_string_from_cstring m metaclass_name) fun r =>
  let m := r.1
  let meta_name_obj := r.2
  obind (car_setup_obj m CAR_CLASS sizeof_CarClass m.vm.class_class) fun r =>
  let m := r.1
  let metaclass := r.2
  obind (car_setup_obj m CAR_CLASS sizeof_CarClass metaclass) fun r =>
  let m := r.1
  let class_ := r.2
  obind (set_obj m metaclass (fun o => { o with name := some meta_name_obj })) fun m =>
  obind (set_obj m metaclass (fun o => { o with superclass := some m.vm.class_class })) fun m =>
  obind (set_obj m metaclass (fun o => { o with num_fields := some 0 })) fun m =>
  obind (set_obj m class_ (fun o => { o with name := some name_obj })) fun m =>
  obind (set_obj m class_ (fun o => { o with superclass := some superclass })) fun m =>
  obind (set_obj m class_ (fun o => { o with num_fields := some 0 })) fun m =>
  obind (car_recolor_obj m metaclass m.vm.active_color (new_pool 0)) fun m =>
  obind (car_recolor_obj m meta_name_obj m.vm.active_color (new_pool 1)) fun m =>
  obind (car_recolor_obj m name_obj m.vm.active_color (new_pool 2)) fun m =>
  some (m, class_)

/-- The loop `for (int i=0; i < n; i++) car_inc_rc(vm, obj);` -/
def car_inc_rc_times (m : Mem) (obj : Ptr) : Nat → Option Mem
  | 0 => some m
  | n + 1 => obind (car_inc_rc m obj) fun m => car_inc_rc_times m obj n

/-- The statement `vm->f = car_new_class(vm, name, superclass);` of `car_new_vm`, where
`store` is the assignment to the field `f`. -/
def car_new_vm_class (m : Mem) (name : List Byte) (superclass : Ptr) (new_pool : Nat → Ptr)
    (store : CarVM → Ptr → CarVM) : Option Mem :=
  obind (car_new_class m name superclass new_pool) fun r =>
  some { r.1 with vm := store r.1.vm r.2 }

/-- The statement `c->name = car_new_string_from_cstring(vm, name);` of `car_new_vm` -/
def car_new_vm_name (m : Mem) (c : Ptr) (name : List Byte) : Option Mem :=
  obind (car_new_string_from_cstring m name) fun r =>
  set_obj r.1 c (fun o => { o with name := some r.2 })

/-- Model of `car_new_vm(config)`.  `host` is the state of the allocator behind
`config->realloc_fn`, `block` the indeterminate contents of the `CarVM` block it
returns, and `junk i j` the indeterminate value of the local `new_pool` in the `j`-th
`car_recolor_obj` call of the `i`-th `car_new_class` call. -/
def car_new_vm (config : CarConfig) (host : Host) (block : CarVM) (junk : Nat → Nat → Ptr) :
    Option Mem :=
  obind (call_realloc config.realloc_fn host .vm .null sizeof_CarVM) fun r =>
  -- the stores through vm are undefined when the allocator returned NULL
  if r.2 ≠ .vm then none else
  let m : Mem :=
    { vm := { block with
        userdata := config.userdata
        realloc_fn := config.realloc_fn
        red_pool := .null
        blue_pool := .null
        gold_pool := .null
        silver_pool := .null }
      heap := []
      host := r.1 }
  obind (car_setup_obj_without_class m CAR_CLASS sizeof_CarClass) fun r =>
  let m := r.1
  let obj_class := r.2
  obind (car_setup_obj_without_class m CAR_CLASS sizeof_CarClass) fun r =>
  let m := r.1
  let obj_metaclass := r.2
  obind (car_setup_obj_without_class m CAR_CLASS sizeof_CarClass) fun r =>
  let m := r.1
  let class_class := r.2
  obind (car_setup_obj_without_class m CAR_CLASS sizeof_CarClass) fun r =>
  let m := r.1
  let string_class := r.2
  obind (car_setup_obj_without_class m CAR_CLASS sizeof_CarClass) fun r =>
  let m := r.1
  let string_metaclass := r.2
  obind (set_obj m obj_class (fun o => { o with class_ := obj_metaclass })) fun m =>
  obind (set_obj m obj_metaclass (fun o => { o with class_ := class_class })) fun m =>
  obind (set_obj m class_class (fun o => { o with class_ := class_class })) fun m =>
  obind (set_obj m string_class (fun o => { o with class_ := string_metaclass })) fun m =>
  obind (set_obj m string_metaclass (fun o => { o with class_ := class_class })) fun m =>
  obind (set_obj m obj_class (fun o => { o with superclass := some .null })) fun m =>
  obind (set_obj m obj_metaclass (fun o => { o with superclass := some class_class })) fun m =>
  obind (set_obj m class_class (fun o => { o with superclass := some obj_class })) fun m =>
  obind (set_obj m string_class (fun o => { o with superclass := some obj_class })) fun m =>
  obind (set_obj m string_metaclass (fun o => { o with superclass := some class_class })) fun m =>
  let m := { m with vm := { m.vm with class_class := class_class } }
  let m := { m with vm := { m.vm with obj_class := obj_class } }
  let m := { m with vm := { m.vm with string_class := string_class } }
  obind (car_inc_rc_times m obj_class 2) fun m =>
  obind (car_inc_rc_times m obj_metaclass 1) fun m =>
  obind (car_inc_rc_times m class_class 5) fun m =>
  obind (car_inc_rc_times m string_class 0) fun m =>
  obind (car_inc_rc_times m string_metaclass 1) fun m =>
  obind (car_new_vm_name m obj_class (cstr "Obj")) fun m =>
  obind (car_new_vm_name m obj_metaclass (cstr "Obj metaclass")) fun m =>
  obind (car_new_vm_name m class_class (cstr "Class")) fun m =>
  obind (car_new_vm_name m string_class (cstr "String")) fun m =>
  obind (car_new_vm_name m string_metaclass (cstr "String metaclass")) fun m =>
  obind (car_new_vm_class m (cstr "Sequence") m.vm.obj_class (junk 0)
    (fun vm c => { vm with sequence_class := c })) fun m =>
  obind (car_new_vm_class m (cstr "Bool") m.vm.obj_class (junk 1)
    (fun vm c => { vm with bool_class := c })) fun m =>
  obind (car_new_vm_class m (cstr "Fn") m.vm.obj_class (junk 2)
    (fun vm c => { vm with fn_class := c })) fun m =>
  obind (car_new_vm_class m (cstr "List") m.vm.sequence_class (junk 3)
    (fun vm c => { vm with list_class := c })) fun m =>
  obind (car_new_vm_class m (cstr "Map") m.vm.sequence_class (junk 4)
    (fun vm c => { vm with map_class := c })) fun m =>
  obind (car_new_vm_class m (cstr "Null") m.vm.obj_class (junk 5)
    (fun vm c => { vm with null_class := c })) fun m =>
  obind (car_new_vm_class m (cstr "Num") m.vm.obj_class (junk 6)
    (fun vm c => { vm with num_class := c })) fun m =>
  obind (car_new_vm_class m (cstr "Range") m.vm.sequence_class (junk 7)
    (fun vm c => { vm with range_class := c })) fun m =>
  obind (car_new_vm_class m (cstr "System") m.vm.obj_class (junk 8)
    (fun vm c => { vm with system_class := c })) fun m =>
  some m

/-- Model of `car_free_vm(vm)`: the one call of the allocator, for the VM block; the
result is the state of the host allocator afterwards. -/
def car_free_vm (m : Mem) : Option Host :=
  obind (call_realloc m.vm.realloc_fn m.host .null .vm 0) fun r =>
  some r.1

/-- The fold that `car_hash_bytes` computes -/
def xor_fold (bytes : List Byte) (init : Nat) : Nat :=
  bytes.foldl (fun result b => result ^^^ b.val) init

/-- The header that `car_setup_obj_without_class` writes into a fresh block -/
def fresh_obj (obj_type : CarObjType) (next : Ptr) : CarObj :=
  { refcount := 1, color := CAR_GOLD, obj_type := obj_type, class_ := .null,
    next := next, prev_next := .pool_of CAR_GOLD,
    byte_count := none, hash := none, bytes := [],
    name := none, superclass := none, num_fields := none }

/-- The object that `car_new_string` builds for the bytes `b`: class `cls`, pool link
`next`, the bytes followed by a terminator, their count and their hash -/
def string_obj (cls next : Ptr) (b : List Byte) : CarObj :=
  { fresh_obj CAR_STRING next with
    class_ := cls
    bytes := b ++ [0]
    byte_count := some b.length
    hash := some (xor_fold b 0) }

/-- The heap after the back link of the previous head `old` of a pool has been pointed
at the `next` field of object `n` -/
def relink_head (heap : List CarObj) (old : Ptr) (n : Nat) : List CarObj :=
  match old with
  | .obj b =>
    match heap[b]? with
    | some o => heap.set b { o with prev_next := .next_of n }
    | none => heap
  | _ => heap

/-- The host allocator after it has granted a `malloc` request of `size` bytes -/
def granted (h : Host) (size : Nat) : Host :=
  { avail := h.avail - 1, calls := h.calls ++ [(.null, size)] }

/-- A pool head or link that is NULL or addresses an object of the heap -/
def valid_link (m : Mem) (p : Ptr) : Prop :=
  p = .null ∨ ∃ b, p = .obj b ∧ b < m.heap.length

/-- A `CarVM` block whose pools are empty and whose class pointers are NULL -/
def vm_empty : CarVM :=
  { realloc_fn := .host, userdata := 0
    string_class := .null, obj_class := .null, class_class := .null
    bool_class := .null, fn_class := .null, list_class := .null, map_class := .null
    null_class := .null, num_class := .null, range_class := .null
    sequence_class := .null, system_class := .null
    red_pool := .null, blue_pool := .null, gold_pool := .null, silver_pool := .null
    active_color := CAR_GOLD }

/-- A memory without objects, whose allocator grants `avail` requests -/
def mem_empty (avail : Nat) : Mem :=
  { vm := vm_empty, heap := [], host := { avail := avail, calls := [] } }

/-- A memory whose gold pool holds the one object 0 -/
def mem_one (avail : Nat) : Mem :=
  { vm := { vm_empty with gold_pool := .obj 0 }
    heap := [fresh_obj CAR_STRING .null]
    host := { avail := avail, calls := [] } }

/-- An object with its two pool links erased -/
def core (o : CarObj) : CarObj :=
  { o with next := .null, prev_next := .null }

/-- A `CarVM` block with its four pool heads erased -/
def vm_core (vm : CarVM) : CarVM :=
  { vm with red_pool := .null, blue_pool := .null, gold_pool := .null, silver_pool := .null }

/-- The list with its entry `a`, when it has one, replaced by its image under `g` -/
def upd (l : List CarObj) (a : Nat) (g : CarObj → CarObj) : List CarObj :=
  match l[a]? with
  | some c => l.set a (g c)
  | none => l

/-- The contents of the buffer `metaclass_name` of `car_new_class` after its `strncpy`,
its store of a terminator and its `strcat` -/
def metaclass_name (name : List Byte) : Option (List Byte) :=
  obind (strncpy [] name MAX_CLASS_NAME) fun b =>
  strcat (MAX_CLASS_NAME + 11) (store_byte b MAX_CLASS_NAME 0) (cstr " metaclass")

/-- The string object that `car_new_string_from_cstring` builds for the bytes at
`string`, links apart: the characters before the first NUL -/
def cstring_obj (cls : Ptr) (string : List Byte) : CarObj :=
  string_obj cls .null (string.take ((strlen string).getD 0))

/-- The effect of `car_inc_rc` on an object -/
def rc_inc (o : CarObj) : CarObj :=
  { o with refcount := if o.refcount < RC_MAX then (o.refcount + 1) % RC_MOD else o.refcount }

/-- A class object as `car_new_class` leaves it, links apart -/
def class_obj (cls name superclass : Ptr) : CarObj :=
  { fresh_obj CAR_CLASS .null with
    class_ := cls
    name := some name
    superclass := some superclass
    num_fields := some 0 }

/-- The four objects that `car_new_class` appends to a heap of `n` objects, links apart:
the name string, the metaclass name string, the metaclass and the class -/
def new_class_objs (vm : CarVM) (n : Nat) (name : List Byte) (superclass : Ptr) :
    List CarObj :=
  [core (cstring_obj vm.string_class name),
   core (cstring_obj vm.string_class ((metaclass_name name).getD [])),
   core (class_obj vm.class_class (.obj (n + 1)) vm.class_class),
   core (class_obj (.obj (n + 2)) (.obj n) superclass)]

/-- Walk a pool front to back, from the link `p` stored in the slot with address `slot`,
and return the addresses of its members.  The walk fails (`none`) at a link that is
neither NULL nor the address of an object, at a member whose `prev_next` is not the
address of the slot that points to it, and after `fuel` members (a cycle). -/
def walk_pool (m : Mem) : Nat → Ptr → Ptr → Option (List Nat)
  | _, _, .null => some []
  | fuel + 1, slot, .obj a =>
    match m.heap[a]? with
    | none => none
    | some o =>
      if o.prev_next = slot then
        (walk_pool m fuel (.next_of a) o.next).map (fun l => a :: l)
      else none
  | _, _, _ => none

/-- The members of the pool of a color, front to back, when its links are consistent -/
def pool_members (m : Mem) (c : CarGcColor) : Option (List Nat) :=
  walk_pool m m.heap.length (.pool_of c) (pool m.vm c)

/-- Every object of the heap is a member of exactly one of the four pools, and the links
of each pool are consistent. -/
def pools_ok (m : Mem) : Prop :=
  ∃ g s r b, pool_members m CAR_GOLD = some g ∧ pool_members m CAR_SILVER = some s ∧
    pool_members m CAR_RED = some r ∧ pool_members m CAR_BLUE = some b ∧
    (g ++ s ++ r ++ b).Perm (List.range m.heap.length)

/-- The color tag of every member of a pool names that pool -/
def colors_ok (m : Mem) : Prop :=
  ∀ c l, pool_members m c = some l → ∀ a ∈ l, ∃ o, m.heap[a]? = some o ∧ o.color = c

/-- Every object is in the gold pool, newest first (object `a` is followed by object
`a - 1`), with consistent back links and the color tag `CAR_GOLD`; the other pools are
empty. -/
def gold_stack (m : Mem) : Prop :=
  m.vm.red_pool = .null ∧ m.vm.blue_pool = .null ∧ m.vm.silver_pool = .null ∧
  m.vm.gold_pool = (if m.heap.length = 0 then .null else .obj (m.heap.length - 1)) ∧
  ∀ a o, m.heap[a]? = some o →
    o.color = CAR_GOLD ∧ o.next = (if a = 0 then .null else .obj (a - 1)) ∧
    o.prev_next = (if a + 1 = m.heap.length then .pool_of CAR_GOLD else .next_of (a + 1))

/-- A state in which the next `k` allocations are granted and every `car_recolor_obj`
call of `car_new_class` returns early: the callback is a host allocator with `k`
requests left, all objects are on the gold stack, and `active_color` reads as
`CAR_GOLD`. -/
def ready (m : Mem) (k : Nat) : Prop :=
  m.vm.realloc_fn = .host ∧ m.vm.active_color = CAR_GOLD ∧ k ≤ m.host.avail ∧ gold_stack m

/-- A C string whose terminator is within the storage and whose `CarString` has a size
that `size_t` can hold -/
def cstring_fits (s : List Byte) : Prop :=
  ∃ n, strlen s = some n ∧ sizeof_CarString + n + 1 < SIZE_MOD

/-- A class name for which `car_new_class` can build both name strings -/
def name_fits (name : List Byte) : Prop :=
  cstring_fits name ∧ ∃ buf, metaclass_name name = some buf ∧ cstring_fits buf

/-- A function on objects that leaves the color tag and the pool links alone -/
def keeps_links (f : CarObj → CarObj) : Prop :=
  ∀ o, (f o).color = o.color ∧ (f o).next = o.next ∧ (f o).prev_next = o.prev_next

/-- A run of `car_new_vm` for reference: a host allocator that grants the 47 requests, a
`CarVM` block whose `active_color` happens to be `CAR_GOLD` -/
def reference_vm : Option Mem :=
  car_new_vm { realloc_fn := .host, userdata := 0 } { avail := 47, calls := [] } vm_empty
    (fun _ _ => .null)

/-- The objects that the reference run of `car_new_vm` leaves, links apart -/
def bootstrap_cores : List CarObj :=
  match reference_vm with
  | some m => m.heap.map core
  | none => []

/-- The `CarVM` block that `car_new_vm` leaves, pool heads apart: the callback and
user data of the configuration, the twelve class pointers, and the `active_color` that the
block came with -/
def bootstrap_vm (config : CarConfig) (block : CarVM) : CarVM :=
  { vm_core block with
    realloc_fn := config.realloc_fn
    userdata := config.userdata
    obj_class := .obj 0
    class_class := .obj 2
    string_class := .obj 3
    sequence_class := .obj 13
    bool_class := .obj 17
    fn_class := .obj 21
    list_class := .obj 25
    map_class := .obj 29
    null_class := .obj 33
    num_class := .obj 37
    range_class := .obj 41
    system_class := .obj 45 }

/-- The built-in classes stored in the VM -/
def builtin_classes (vm : CarVM) : List Ptr :=
  [vm.obj_class, vm.class_class, vm.string_class, vm.bool_class, vm.fn_class,
   vm.list_class, vm.map_class, vm.null_class, vm.num_class, vm.range_class,
   vm.sequence_class, vm.system_class]

/-- The class pointers of the objects of the reference run, by address -/
def bootstrap_class_table : List Ptr :=
  [.obj 1, .obj 2, .obj 2, .obj 4, .obj 2,
   .obj 3, .obj 3, .obj 3, .obj 3, .obj 3,
   .obj 3, .obj 3, .obj 2, .obj 12,
   .obj 3, .obj 3, .obj 2, .obj 16,
   .obj 3, .obj 3, .obj 2, .obj 20,
   .obj 3, .obj 3, .obj 2, .obj 24,
   .obj 3, .obj 3, .obj 2, .obj 28,
   .obj 3, .obj 3, .obj 2, .obj 32,
   .obj 3, .obj 3, .obj 2, .obj 36,
   .obj 3, .obj 3, .obj 2, .obj 40,
   .obj 3, .obj 3, .obj 2, .obj 44]

/-- The class pointer of the object at `p`; NULL when `p` does not address an object -/
def class_of (m : Mem) (p : Ptr) : Ptr :=
  match get_obj m p with
  | some o => o.class_
  | none => .null

/-- The five classes that `car_new_vm` builds by hand: `vm->obj_class`, its metaclass,
`vm->class_class`, `vm->string_class` and its metaclass -/
def bootstrap_classes (m : Mem) : List Ptr :=
  [m.vm.obj_class, class_of m m.vm.obj_class, m.vm.class_class, m.vm.string_class,
   class_of m m.vm.string_class]

/-- The number of pointers to `p` among the `class` and `superclass` fields of the
object at `holder` -/
def points_to (m : Mem) (holder p : Ptr) : Nat :=
  match get_obj m holder with
  | some o => (if o.class_ = p then 1 else 0) + (if o.superclass = some p then 1 else 0)
  | none => 0

/-- The number of pointers to `p` among the `class` and `superclass` fields of the
objects at `holders` -/
def back_refs (m : Mem) (holders : List Ptr) (p : Ptr) : Nat :=
  (holders.map (fun h => points_to m h p)).sum

/-- Follow the `superclass` pointers from `p`, at most `fuel` of them, and return the
addresses of the objects passed, the last one being the object whose superclass is
NULL.  The walk fails (`none`) at a pointer that is neither NULL nor the address of an
object, at an object whose `superclass` field was never written, and after `fuel`
objects (a cycle). -/
def superclass_chain (heap : List CarObj) : Nat → Ptr → Option (List Ptr)
  | _, .null => some []
  | fuel + 1, .obj a =>
    match heap[a]? with
    | some o =>
      match o.superclass with
      | some s => (superclass_chain heap fuel s).map (fun l => .obj a :: l)
      | none => none
    | none => none
  | _, _ => none

/-- The host allocator `h'` is `h` after `n` more requests, all of them `malloc`
requests that were granted: `h` had `n` requests left, and the log grew by `n` calls
with a NULL pointer argument. -/
def spent (h h' : Host) (n : Nat) : Prop :=
  n ≤ h.avail ∧ h'.avail = h.avail - n ∧
    ∃ sizes : List Nat, sizes.length = n ∧
      h'.calls = h.calls ++ sizes.map (fun s => (Ptr.null, s))

/-! ## Basic lemmas -/

@[simp] theorem obind_some {α β : Type} (a : α) (f : α → Option β) :
    obind (some a) f = f a := rfl

@[simp] theorem obind_none {α β : Type} (f : α → Option β) :
    obind none f = none := rfl

theorem obind_eq_some {α β : Type} {x : Option α} {f : α → Option β} {b : β} :
    obind x f = some b ↔ ∃ a, x = some a ∧ f a = some b := by
  cases x <;> simp

/-! ## The hash -/

theorem car_hash_bytes_loop_eq (bytes : List Byte) :
    ∀ (remaining i result : Nat), i + remaining ≤ bytes.length →
      car_hash_bytes_loop bytes remaining i result
        = some (xor_fold ((bytes.drop i).take remaining) result) := by
  intro remaining
  induction remaining with
  | zero => intro i result _; simp [car_hash_bytes_loop, xor_fold]
  | succ k ih =>
    intro i result h
    have hi : i < bytes.length := by omega
    rw [car_hash_bytes_loop, List.getElem?_eq_getElem hi]
    simp only
    rw [ih (i + 1) _ (by omega)]
    rw [List.drop_eq_getElem_cons hi]
    simp only [xor_fold, List.take_succ_cons, List.foldl_cons]

theorem car_hash_bytes_take (bytes : List Byte) (count : Nat) (h : count ≤ bytes.length) :
    car_hash_bytes bytes count = some (xor_fold (bytes.take count) 0) := by
  unfold car_hash_bytes
  rw [car_hash_bytes_loop_eq bytes count 0 0 (by omega)]
  simp

theorem car_hash_bytes_eq_fold (bytes : List Byte) :
    car_hash_bytes bytes bytes.length = some (xor_fold bytes 0) := by
  rw [car_hash_bytes_take bytes bytes.length (le_refl _)]
  simp

theorem xor_fold_perm {a b : List Byte} (h : a.Perm b) (init : Nat) :
    xor_fold a init = xor_fold b init := by
  unfold xor_fold
  apply List.Perm.foldl_eq' h
  intro x _ y _ z
  rw [Nat.xor_assoc, Nat.xor_comm x.val y.val, ← Nat.xor_assoc]

theorem car_hash_bytes_perm {a b : List Byte} (h : a.Perm b) :
    car_hash_bytes a a.length = car_hash_bytes b b.length := by
  rw [car_hash_bytes_eq_fold, car_hash_bytes_eq_fold, xor_fold_perm h]

/-- C10 (as amended): `car_hash_bytes` over a byte sequence is the XOR-fold of its bytes
starting from 0, and the order of the bytes does not matter: byte sequences that are
permutations of one another have the same hash. -/
theorem car_hash_bytes_xor_fold_order_insensitive (a b : List Byte) (h : a.Perm b) :
    car_hash_bytes a a.length = some (a.foldl (fun result x => result ^^^ x.val) 0) ∧
      car_hash_bytes b b.length = car_hash_bytes a a.length :=
  ⟨car_hash_bytes_eq_fold a, (car_hash_bytes_perm h).symm⟩

/-- Witness for C10 (as amended): the bytes of "abc" and of "cab" -/
theorem car_hash_bytes_xor_fold_order_insensitive_witness :
    car_hash_bytes [97, 98, 99] 3 = some 96 ∧
      car_hash_bytes [99, 97, 98] 3 = car_hash_bytes [97, 98, 99] 3 :=
  car_hash_bytes_xor_fold_order_insensitive [97, 98, 99] [99, 97, 98]
    (by decide)

/-- C10 refuted as stated: no two byte sequences that are permutations of one another
have different hashes; in particular "ab" and "ba" both hash to 3. -/
theorem car_hash_bytes_not_order_sensitive :
    car_hash_bytes [97, 98] 2 = some 3 ∧ car_hash_bytes [98, 97] 2 = some 3 ∧
      ¬ ∃ a b : List Byte, a.Perm b ∧
        car_hash_bytes a a.length ≠ car_hash_bytes b b.length := by
  refine ⟨by decide, by decide, ?_⟩
  rintro ⟨a, b, hp, hne⟩
  exact hne (car_hash_bytes_perm hp)

/-! ## Loads and stores -/

theorem get_obj_eq_some {m : Mem} {p : Ptr} {o : CarObj} :
    get_obj m p = some o ↔ ∃ a, p = .obj a ∧ m.heap[a]? = some o := by
  cases p <;> simp [get_obj]

theorem set_obj_eq_some {m m' : Mem} {p : Ptr} {f : CarObj → CarObj} :
    set_obj m p f = some m' ↔
      ∃ a o, p = .obj a ∧ m.heap[a]? = some o ∧ m' = { m with heap := m.heap.set a (f o) } := by
  cases p <;> simp [set_obj]
  rename_i a
  cases h : m.heap[a]? <;> simp [eq_comm]

theorem set_obj_of_get {m : Mem} {a : Nat} {o : CarObj} (h : m.heap[a]? = some o)
    (f : CarObj → CarObj) :
    set_obj m (.obj a) f = some { m with heap := m.heap.set a (f o) } := by
  simp [set_obj, h]

/-! ## `car_inc_rc` -/

theorem car_inc_rc_exact (m : Mem) (a : Nat) (o : CarObj) (ho : m.heap[a]? = some o) :
    car_inc_rc m (.obj a) =
      some { m with
        heap := m.heap.set a
          { o with refcount := if o.refcount < RC_MAX then o.refcount + 1 else o.refcount } } := by
  unfold car_inc_rc
  simp only [get_obj, ho, obind_some]
  by_cases h : o.refcount < RC_MAX
  · have h2 : (o.refcount + 1) % RC_MOD = o.refcount + 1 := by
      apply Nat.mod_eq_of_lt
      simp only [RC_MAX, RC_MOD] at *
      omega
    simp [h, set_obj_of_get ho, h2]
  · have h3 : m.heap.set a o = m.heap := by
      apply List.ext_getElem?
      intro i
      by_cases hi : a = i
      · subst hi; simp [List.getElem?_set, ho]
        exact (List.getElem?_eq_some.mp ho).1
      · simp [List.getElem?_set, hi]
    simp [h, h3]

/-- C1: `car_inc_rc(vm, obj)` on an object `obj` sets its `refcount` to `refcount + 1`
when `refcount < RC_MAX` and leaves it at `RC_MAX` when it is `RC_MAX` (no wrap to 0);
the other fields of `obj`, every other object, the `CarVM` block with its pool heads and
the allocator are unchanged. -/
theorem car_inc_rc_saturates (m : Mem) (a : Nat) (o : CarObj) (ho : m.heap[a]? = some o) :
    ∃ m' o', car_inc_rc m (.obj a) = some m' ∧ m'.heap[a]? = some o' ∧
      (o.refcount < RC_MAX → o'.refcount = o.refcount + 1) ∧
      (o.refcount = RC_MAX → o'.refcount = RC_MAX) ∧
      o'.refcount ≠ 0 ∧
      o'.color = o.color ∧ o'.obj_type = o.obj_type ∧ o'.class_ = o.class_ ∧
      o'.next = o.next ∧ o'.prev_next = o.prev_next ∧
      o' = { o with refcount := o'.refcount } ∧
      (∀ b, b ≠ a → m'.heap[b]? = m.heap[b]?) ∧
      m'.heap.length = m.heap.length ∧
      m'.vm = m.vm ∧ m'.host = m.host := by
  have hlt : a < m.heap.length := (List.getElem?_eq_some.mp ho).1
  refine ⟨_, { o with refcount := if o.refcount < RC_MAX then o.refcount + 1 else o.refcount },
    car_inc_rc_exact m a o ho, ?_, ?_, ?_, ?_, ?_, ?_, ?_, ?_, ?_, ?_, ?_, ?_, ?_, ?_⟩
  · simp [List.getElem?_set, hlt]
  all_goals first
    | rfl
    | (intro h; simp [h])
    | (intro b hb; simp [List.getElem?_set, Ne.symm hb])
    | simp
  all_goals (split <;> simp [RC_MAX] at *; omega)

/-- Witness for C1: an object whose count is at the ceiling keeps it -/
theorem car_inc_rc_saturates_witness :
    ∃ m' o', car_inc_rc ⟨⟨.host, 0, .null, .null, .null, .null, .null, .null, .null, .null,
        .null, .null, .null, .null, .null, .null, .obj 0, .null, CAR_GOLD⟩,
        [⟨RC_MAX, CAR_GOLD, CAR_STRING, .null, .null, .pool_of CAR_GOLD, none, none, [],
          none, none, none⟩], ⟨0, []⟩⟩ (.obj 0) = some m' ∧ m'.heap[0]? = some o' ∧
      o'.refcount = RC_MAX := by
  obtain ⟨m', o', h1, h2, _, h4, _⟩ := car_inc_rc_saturates
    ⟨⟨.host, 0, .null, .null, .null, .null, .null, .null, .null, .null,
        .null, .null, .null, .null, .null, .null, .obj 0, .null, CAR_GOLD⟩,
        [⟨RC_MAX, CAR_GOLD, CAR_STRING, .null, .null, .pool_of CAR_GOLD, none, none, [],
          none, none, none⟩], ⟨0, []⟩⟩ 0 _ rfl
  exact ⟨m', o', h1, h2, h4 rfl⟩

/-! ## Allocation and object setup -/

theorem car_vm_alloc_granted (m : Mem) (size : Nat) (hfn : m.vm.realloc_fn = .host)
    (hav : 0 < m.host.avail) (hsz : size ≠ 0) :
    car_vm_alloc m size = some ({ m with host := granted m.host size }, .obj m.heap.length) := by
  have : m.host.avail ≠ 0 := by omega
  simp [car_vm_alloc, call_realloc, car_default_realloc, hfn, hsz, this, granted]

theorem relink_head_length (heap : List CarObj) (old : Ptr) (n : Nat) :
    (relink_head heap old n).length = heap.length := by
  unfold relink_head
  split
  · split <;> simp
  · rfl

theorem car_setup_obj_without_class_exact (m : Mem) (t : CarObjType) (size : Nat)
    (hfn : m.vm.realloc_fn = .host) (hav : 0 < m.host.avail) (hsz : sizeof_CarObj ≤ size)
    (hg : valid_link m m.vm.gold_pool) :
    car_setup_obj_without_class m t size =
      some ({ vm := { m.vm with gold_pool := .obj m.heap.length }
              heap := relink_head m.heap m.vm.gold_pool m.heap.length
                ++ [fresh_obj t m.vm.gold_pool]
              host := granted m.host size }, .obj m.heap.length) := by
  unfold car_setup_obj_without_class
  have hsz0 : size ≠ 0 := by unfold sizeof_CarObj at hsz; omega
  rw [car_vm_alloc_granted m size hfn hav hsz0]
  simp only [obind_some, init_obj, if_neg (Nat.not_lt.mpr hsz), if_true, get_obj,
    List.getElem?_concat_length, addr_next]
  rcases hg with hg | ⟨b, hg, hb⟩
  · simp [hg, relink_head, fresh_obj]
  · have hb2 : b < (m.heap ++ [fresh_obj t (.obj b)]).length := by simp; omega
    obtain ⟨o, ho⟩ : ∃ o, m.heap[b]? = some o := ⟨m.heap[b], List.getElem?_eq_getElem hb⟩
    simp [hg, relink_head, fresh_obj, set_obj, List.getElem?_append_left hb, ho,
      List.set_append_left _ _ hb]

theorem getElem?_concat_of_length {α : Type} (l : List α) (x : α) (n : Nat)
    (h : l.length = n) : (l ++ [x])[n]? = some x := by
  subst h; simp

theorem set_concat_of_length {α : Type} (l : List α) (x y : α) (n : Nat)
    (h : l.length = n) : (l ++ [x]).set n y = l ++ [y] := by
  subst h; simp

theorem car_setup_obj_exact (m : Mem) (t : CarObjType) (size : Nat) (c : Ptr)
    (hfn : m.vm.realloc_fn = .host) (hav : 0 < m.host.avail) (hsz : sizeof_CarObj ≤ size)
    (hg : valid_link m m.vm.gold_pool) :
    car_setup_obj m t size c =
      some ({ vm := { m.vm with gold_pool := .obj m.heap.length }
              heap := relink_head m.heap m.vm.gold_pool m.heap.length
                ++ [{ fresh_obj t m.vm.gold_pool with class_ := c }]
              host := granted m.host size }, .obj m.heap.length) := by
  unfold car_setup_obj
  rw [car_setup_obj_without_class_exact m t size hfn hav hsz hg]
  have hl := relink_head_length m.heap m.vm.gold_pool m.heap.length
  simp [set_obj, getElem?_concat_of_length _ _ _ hl, set_concat_of_length _ _ _ _ hl]

theorem relink_head_getElem? (heap : List CarObj) (old : Ptr) (n b : Nat) (ob : CarObj)
    (h : heap[b]? = some ob) :
    (relink_head heap old n)[b]? =
      some (if old = .obj b then { ob with prev_next := .next_of n } else ob) := by
  unfold relink_head
  cases old with
  | obj c =>
    by_cases hc : c = b
    · subst hc
      have hlt := (List.getElem?_eq_some.mp h).1
      simp [h, List.getElem?_set, hlt]
    · have hne : ¬ (Ptr.obj c = Ptr.obj b) := by simpa using hc
      cases hc2 : heap[c]? <;> simp [List.getElem?_set, hc, h, hne, hc2]
  | _ => simp [h]

/-- C2: when the allocator grants the request, for a block of `size` bytes that holds a
`CarObj` header (`sizeof(CarObj) ≤ size`), `car_setup_obj_without_class(vm, t, size)`
returns a new object with `refcount` 1, color `CAR_GOLD`, `obj_type` `t` and class NULL,
which is the new head of the gold pool with the previous gold head as its `next` (and the
previous head, if any, linked back to it); the red, blue and silver pools and the rest of
the `CarVM` block are unchanged, the other objects keep all their fields but that one back
link, and `car_setup_obj` differs only in storing its argument as the class pointer. -/
theorem car_setup_obj_without_class_fresh_gold_head (m : Mem) (t : CarObjType) (size : Nat)
    (c : Ptr) (hfn : m.vm.realloc_fn = .host) (hav : 0 < m.host.avail)
    (hsz : sizeof_CarObj ≤ size) (hg : valid_link m m.vm.gold_pool) :
    ∃ m' o, car_setup_obj_without_class m t size = some (m', .obj m.heap.length) ∧
      m.heap[m.heap.length]? = none ∧
      m'.heap[m.heap.length]? = some o ∧
      o.refcount = 1 ∧ o.color = CAR_GOLD ∧ o.obj_type = t ∧ o.class_ = .null ∧
      m'.vm.gold_pool = .obj m.heap.length ∧ o.prev_next = .pool_of CAR_GOLD ∧
      o.next = m.vm.gold_pool ∧
      (∀ b, m.vm.gold_pool = .obj b →
        ∃ ob, m'.heap[b]? = some ob ∧ ob.prev_next = .next_of m.heap.length) ∧
      m'.vm.red_pool = m.vm.red_pool ∧ m'.vm.blue_pool = m.vm.blue_pool ∧
      m'.vm.silver_pool = m.vm.silver_pool ∧
      m'.vm = { m.vm with gold_pool := .obj m.heap.length } ∧
      (∀ b ob, m.heap[b]? = some ob → m'.heap[b]? = some
        (if m.vm.gold_pool = .obj b then { ob with prev_next := .next_of m.heap.length }
         else ob)) ∧
      m'.heap.length = m.heap.length + 1 ∧
      car_setup_obj m t size c =
        some ({ m' with heap := m'.heap.set m.heap.length { o with class_ := c } },
          .obj m.heap.length) := by
  have hl := relink_head_length m.heap m.vm.gold_pool m.heap.length
  refine ⟨_, fresh_obj t m.vm.gold_pool,
    car_setup_obj_without_class_exact m t size hfn hav hsz hg, ?_, ?_, rfl, rfl, rfl, rfl,
    rfl, rfl, rfl, ?_, rfl, rfl, rfl, rfl, ?_, ?_, ?_⟩
  · simp
  · exact getElem?_concat_of_length _ _ _ hl
  · intro b hb
    have hlt : b < m.heap.length := by
      rcases hg with hg | ⟨b', hg, hb'⟩
      · rw [hg] at hb; cases hb
      · rw [hg] at hb; cases hb; exact hb'
    have hlt2 : b < (relink_head m.heap m.vm.gold_pool m.heap.length).length := by omega
    refine ⟨{ m.heap[b] with prev_next := .next_of m.heap.length }, ?_, rfl⟩
    show (_ ++ _)[b]? = _
    rw [List.getElem?_append_left hlt2,
      relink_head_getElem? _ _ _ _ _ (List.getElem?_eq_getElem hlt)]
    simp [hb]
  · intro b ob hb
    have hlt : b < m.heap.length := (List.getElem?_eq_some.mp hb).1
    have hlt2 : b < (relink_head m.heap m.vm.gold_pool m.heap.length).length := by omega
    show (_ ++ _)[b]? = _
    rw [List.getElem?_append_left hlt2, relink_head_getElem? _ _ _ _ _ hb]
  · simp [hl]
  · rw [car_setup_obj_exact m t size c hfn hav hsz hg]
    simp [set_concat_of_length _ _ _ _ hl]

/-- Witness for C2: a new object in front of the one object of the gold pool -/
theorem car_setup_obj_without_class_fresh_gold_head_witness :
    ∃ m' o, car_setup_obj_without_class (mem_one 1) CAR_CLASS sizeof_CarClass
        = some (m', .obj 1) ∧
      m'.heap[1]? = some o ∧ o.refcount = 1 ∧ o.color = CAR_GOLD ∧
      o.obj_type = CAR_CLASS ∧ o.class_ = .null ∧ m'.vm.gold_pool = .obj 1 ∧
      o.next = .obj 0 := by
  obtain ⟨m', o, h1, _, h3, h4, h5, h6, h7, h8, _, h10, _⟩ :=
    car_setup_obj_without_class_fresh_gold_head (mem_one 1) CAR_CLASS sizeof_CarClass .null
      rfl (by decide) (by decide) (Or.inr ⟨0, rfl, by decide⟩)
  exact ⟨m', o, h1, h3, h4, h5, h6, h7, h8, h10⟩

/-! ## Strings -/

theorem car_new_string_exact (m : Mem) (bytes : List Byte) (count : Nat)
    (hfn : m.vm.realloc_fn = .host) (hav : 0 < m.host.avail)
    (hg : valid_link m m.vm.gold_pool) (hcount : count ≤ bytes.length)
    (hwrap : sizeof_CarString + count + 1 < SIZE_MOD) :
    car_new_string m bytes count =
      some ({ vm := { m.vm with gold_pool := .obj m.heap.length }
              heap := relink_head m.heap m.vm.gold_pool m.heap.length
                ++ [string_obj m.vm.string_class m.vm.gold_pool (bytes.take count)]
              host := granted m.host (sizeof_CarString + count + 1) },
            .obj m.heap.length) := by
  unfold car_new_string
  have hsz : sizeof_CarObj ≤ (sizeof_CarString + count + 1) % SIZE_MOD := by
    rw [Nat.mod_eq_of_lt hwrap]; unfold sizeof_CarObj sizeof_CarString; omega
  rw [car_setup_obj_exact m CAR_STRING _ _ hfn hav hsz hg, Nat.mod_eq_of_lt hwrap]
  have hl := relink_head_length m.heap m.vm.gold_pool m.heap.length
  have htake : (bytes.take count).length = count := by simp [hcount]
  have hsb : store_byte (List.take count bytes) count 0 = bytes.take count ++ [0] := by
    unfold store_byte
    rw [List.take_of_length_le (by omega), List.drop_of_length_le (by simp)]
  have hhash : car_hash_bytes (bytes.take count ++ [0]) count
      = some (xor_fold (bytes.take count) 0) := by
    rw [car_hash_bytes_take _ _ (by simp; omega)]
    congr 2
    rw [List.take_append_of_le_length (by omega), List.take_of_length_le (by omega)]
  simp [set_obj, get_obj, memcpy, hcount, getElem?_concat_of_length _ _ _ hl,
    set_concat_of_length _ _ _ _ hl, fresh_obj, string_obj, hhash, hsb,
    Nat.min_eq_left hcount]

/-- C8: for a byte sequence `b` of length `n` (with `sizeof(CarString) + n + 1`
representable in `size_t`), `car_new_string(vm, b, n)` returns a `CAR_STRING` object with
`refcount` 1 and class `vm.string_class` whose `byte_count` is `n`, whose `bytes[0..n)` are
`b`, whose `bytes[n]` is 0 and whose `hash` is `car_hash_bytes(b, n)`; the one request made
to the allocator is for `sizeof(CarString) + n + 1` bytes. -/
theorem car_new_string_contents (m : Mem) (b : List Byte)
    (hfn : m.vm.realloc_fn = .host) (hav : 0 < m.host.avail)
    (hg : valid_link m m.vm.gold_pool)
    (hwrap : sizeof_CarString + b.length + 1 < SIZE_MOD) :
    ∃ m' o h, car_new_string m b b.length = some (m', .obj m.heap.length) ∧
      m.heap[m.heap.length]? = none ∧
      m'.heap[m.heap.length]? = some o ∧
      o.obj_type = CAR_STRING ∧ o.refcount = 1 ∧ o.class_ = m.vm.string_class ∧
      o.byte_count = some b.length ∧
      o.bytes.take b.length = b ∧ o.bytes[b.length]? = some 0 ∧
      o.bytes.length = b.length + 1 ∧
      car_hash_bytes b b.length = some h ∧ o.hash = some h ∧
      m'.host.calls = m.host.calls ++ [(.null, sizeof_CarString + b.length + 1)] ∧
      m'.host.avail = m.host.avail - 1 := by
  have hl := relink_head_length m.heap m.vm.gold_pool m.heap.length
  have hex := car_new_string_exact m b b.length hfn hav hg (le_refl _) hwrap
  rw [List.take_length] at hex
  refine ⟨_, string_obj m.vm.string_class m.vm.gold_pool b, xor_fold b 0, hex, ?_, ?_,
    rfl, rfl, rfl, rfl, ?_, ?_, ?_, car_hash_bytes_eq_fold b, rfl, rfl, rfl⟩
  · simp
  · exact getElem?_concat_of_length _ _ _ hl
  · simp [string_obj]
  · simp [string_obj]
  · simp [string_obj]

/-- Witness for C8: the string "abc" in an empty VM -/
theorem car_new_string_contents_witness :
    ∃ m' o, car_new_string (mem_empty 1) [97, 98, 99] 3 = some (m', .obj 0) ∧
      m'.heap[0]? = some o ∧ o.obj_type = CAR_STRING ∧ o.refcount = 1 ∧
      o.byte_count = some 3 ∧ o.bytes = [97, 98, 99, 0] ∧ o.hash = some 96 ∧
      car_hash_bytes [97, 98, 99] 3 = some 96 ∧
      m'.host.calls = [(.null, sizeof_CarString + 3 + 1)] := by
  obtain ⟨m', o, h, h1, _, h3, h4, h5, _, h7, h8, h9, h10, h11, h12, h13, _⟩ :=
    car_new_string_contents (mem_empty 1) [97, 98, 99] rfl (by decide) (Or.inl rfl)
      (by decide)
  have hh : h = 96 := by
    have h96 : car_hash_bytes [97, 98, 99] 3 = some 96 := by decide
    exact Option.some.inj (h11.symm.trans h96)
  subst hh
  refine ⟨m', o, h1, h3, h4, h5, h7, ?_, h12, h11, h13⟩
  have hlen : o.bytes.length = 4 := h10
  have h0 : o.bytes[3]? = some 0 := h9
  have htk : o.bytes.take 3 = [97, 98, 99] := h8
  match hb : o.bytes, hlen with
  | [x0, x1, x2, x3], _ =>
    rw [hb] at h0 htk
    simp at h0 htk
    simp [h0, htk]

/-- C9: two successive calls `car_new_string(vm, b, n)` return two distinct objects, both
linked into the gold pool (the second is the head, the first its successor, followed by
the previous members), with the same hash, the same `byte_count` and the same bytes. -/
theorem car_new_string_twice_distinct (m : Mem) (b : List Byte)
    (hfn : m.vm.realloc_fn = .host) (hav : 2 ≤ m.host.avail)
    (hg : valid_link m m.vm.gold_pool)
    (hwrap : sizeof_CarString + b.length + 1 < SIZE_MOD) :
    ∃ m1 m2 p1 p2 o1 o2 h,
      car_new_string m b b.length = some (m1, p1) ∧
      car_new_string m1 b b.length = some (m2, p2) ∧
      p1 ≠ p2 ∧ get_obj m2 p1 = some o1 ∧ get_obj m2 p2 = some o2 ∧
      get_obj m p1 = none ∧ get_obj m p2 = none ∧
      o1.hash = some h ∧ o2.hash = some h ∧
      o1.byte_count = some b.length ∧ o2.byte_count = some b.length ∧
      o1.bytes = b ++ [0] ∧ o2.bytes = b ++ [0] ∧
      o1.color = CAR_GOLD ∧ o2.color = CAR_GOLD ∧
      m2.vm.gold_pool = p2 ∧ o2.prev_next = .pool_of CAR_GOLD ∧
      o2.next = p1 ∧ addr_next p2 = some o1.prev_next ∧
      o1.next = m.vm.gold_pool ∧
      m2.heap.length = m.heap.length + 2 := by
  have hl := relink_head_length m.heap m.vm.gold_pool m.heap.length
  have h1 := car_new_string_exact m b b.length hfn (by omega) hg (le_refl _) hwrap
  rw [List.take_length] at h1
  have h2 := car_new_string_exact _ b b.length
    (show ({ vm := { m.vm with gold_pool := .obj m.heap.length }
             heap := relink_head m.heap m.vm.gold_pool m.heap.length
               ++ [string_obj m.vm.string_class m.vm.gold_pool b]
             host := granted m.host (sizeof_CarString + b.length + 1) } : Mem).vm.realloc_fn
          = .host from hfn)
    (by simp [granted]; omega) (Or.inr ⟨m.heap.length, rfl, by simp [hl]⟩) (le_refl _) hwrap
  rw [List.take_length] at h2
  simp only [List.length_append, List.length_singleton, hl] at h2
  refine ⟨_, _, _, _,
    { string_obj m.vm.string_class m.vm.gold_pool b with
      prev_next := .next_of (m.heap.length + 1) },
    string_obj m.vm.string_class (.obj m.heap.length) b, xor_fold b 0, h1, h2, ?_, ?_, ?_, ?_,
    ?_, rfl, rfl, rfl, rfl, rfl, rfl, rfl, rfl, rfl, rfl, rfl, rfl, rfl, ?_⟩
  · simp
  · simp only [get_obj]
    rw [List.getElem?_append_left (by rw [relink_head_length]; simp [hl])]
    rw [relink_head_getElem? _ _ _ _ _ (getElem?_concat_of_length _ _ _ hl)]
    simp
  · simp only [get_obj]
    exact getElem?_concat_of_length _ _ _ (by rw [relink_head_length]; simp [hl])
  · simp [get_obj]
  · simp [get_obj]
  · simp [relink_head_length, hl]

/-- Witness for C9: "abc" twice in an empty VM -/
theorem car_new_string_twice_distinct_witness :
    ∃ m1 m2 p1 p2 o1 o2,
      car_new_string (mem_empty 2) [97, 98, 99] 3 = some (m1, p1) ∧
      car_new_string m1 [97, 98, 99] 3 = some (m2, p2) ∧
      p1 ≠ p2 ∧ get_obj m2 p1 = some o1 ∧ get_obj m2 p2 = some o2 ∧
      o1.hash = o2.hash ∧ o1.byte_count = o2.byte_count ∧ o1.bytes = o2.bytes ∧
      m2.vm.gold_pool = p2 ∧ o2.next = p1 := by
  obtain ⟨m1, m2, p1, p2, o1, o2, h, h1, h2, h3, h4, h5, _, _, h8, h9, h10, h11, h12, h13,
      _, _, h16, _, h18, _⟩ :=
    car_new_string_twice_distinct (mem_empty 2) [97, 98, 99] rfl (by decide) (Or.inl rfl)
      (by decide)
  exact ⟨m1, m2, p1, p2, o1, o2, h1, h2, h3, h4, h5, h8.trans h9.symm, h10.trans h11.symm,
    h12.trans h13.symm, h16, h18⟩

/-! ## What the operations change, links apart -/

theorem set_obj_cores {m m' : Mem} {p : Ptr} {f g : CarObj → CarObj}
    (h : set_obj m p f = some m') (hf : ∀ o, core (f o) = g (core o)) :
    ∃ a c, p = .obj a ∧ (m.heap.map core)[a]? = some c ∧
      m'.heap.map core = (m.heap.map core).set a (g c) ∧ m'.vm = m.vm ∧ m'.host = m.host := by
  obtain ⟨a, o, rfl, ho, rfl⟩ := set_obj_eq_some.mp h
  refine ⟨a, core o, rfl, ?_, ?_, rfl, rfl⟩
  · simp [ho]
  · simp [List.map_set, hf]

theorem set_obj_links {m m' : Mem} {p : Ptr} {f : CarObj → CarObj}
    (h : set_obj m p f = some m') (hf : ∀ o, core (f o) = core o) :
    m'.heap.map core = m.heap.map core ∧ m'.vm = m.vm ∧ m'.host = m.host := by
  obtain ⟨a, c, _, hc, hm, hv, hh⟩ := set_obj_cores h (g := id) hf
  refine ⟨?_, hv, hh⟩
  rw [hm]
  apply List.ext_getElem?
  intro i
  by_cases hi : a = i
  · subst hi
    have hlt := (List.getElem?_eq_some.mp hc).1
    have hlt2 : a < m.heap.length := by simpa using hlt
    rw [List.getElem?_set, hc]
    simp [hlt2]
  · simp [List.getElem?_set, hi]

theorem vm_core_set_pool (vm : CarVM) (c : CarGcColor) (v : Ptr) :
    vm_core (set_pool vm c v) = vm_core vm := by
  cases c <;> rfl

theorem store_slot_links {m m' : Mem} {p v : Ptr} (h : store_slot m p v = some m') :
    m'.heap.map core = m.heap.map core ∧ vm_core m'.vm = vm_core m.vm ∧ m'.host = m.host := by
  cases p with
  | pool_of c =>
    simp only [store_slot, Option.some.injEq] at h
    subst h
    exact ⟨rfl, vm_core_set_pool _ _ _, rfl⟩
  | next_of a =>
    simp only [store_slot] at h
    obtain ⟨h1, h2, h3⟩ := set_obj_links h (fun _ => rfl)
    exact ⟨h1, by rw [h2], h3⟩
  | _ => simp [store_slot] at h

/-- `car_recolor_obj` changes nothing but pool links and pool heads: the color tag, the
reference count and every other field of every object stay as they were. -/
theorem car_recolor_obj_links {m m' : Mem} {obj : Ptr} {c : CarGcColor} {np : Ptr}
    (h : car_recolor_obj m obj c np = some m') :
    m'.heap.map core = m.heap.map core ∧ vm_core m'.vm = vm_core m.vm ∧ m'.host = m.host := by
  unfold car_recolor_obj at h
  obtain ⟨o, _, h⟩ := obind_eq_some.mp h
  split at h
  · cases h; exact ⟨rfl, rfl, rfl⟩
  obtain ⟨slot, _, h⟩ := obind_eq_some.mp h
  obtain ⟨m1, h1, h⟩ := obind_eq_some.mp h
  obtain ⟨head, _, h⟩ := obind_eq_some.mp h
  obtain ⟨m2, h2, h⟩ := obind_eq_some.mp h
  obtain ⟨m3, h3, h⟩ := obind_eq_some.mp h
  obtain ⟨m4, h4, h5⟩ := obind_eq_some.mp h
  have e1 : m1.heap.map core = m.heap.map core ∧ vm_core m1.vm = vm_core m.vm
      ∧ m1.host = m.host := by
    split at h1
    · obtain ⟨ma, ha, h1⟩ := obind_eq_some.mp h1
      obtain ⟨oa, _, h1⟩ := obind_eq_some.mp h1
      obtain ⟨a1, a2, a3⟩ := store_slot_links ha
      obtain ⟨b1, b2, b3⟩ := set_obj_links h1 (fun _ => rfl)
      exact ⟨b1.trans a1, by rw [b2, a2], b3.trans a3⟩
    · exact store_slot_links h1
  have e2 : m2.heap.map core = m1.heap.map core ∧ m2.vm = m1.vm ∧ m2.host = m1.host := by
    split at h2
    · exact set_obj_links h2 (fun _ => rfl)
    · cases h2; exact ⟨rfl, rfl, rfl⟩
  have e3 := set_obj_links h3 (fun _ => rfl)
  have e4 := store_slot_links h4
  have e5 := set_obj_links h5 (fun _ => rfl)
  refine ⟨?_, ?_, ?_⟩
  · rw [e5.1, e4.1, e3.1, e2.1, e1.1]
  · rw [e5.2.1, e4.2.1, e3.2.1, e2.2.1, e1.2.1]
  · rw [e5.2.2, e4.2.2, e3.2.2, e2.2.2, e1.2.2]

/-! ## Pool walks and `car_recolor_obj` -/

theorem walk_pool_null (m : Mem) (fuel : Nat) (slot : Ptr) :
    walk_pool m fuel slot .null = some [] := by
  cases fuel <;> rfl

theorem walk_pool_obj (m : Mem) (fuel : Nat) (slot : Ptr) (a : Nat) :
    walk_pool m (fuel + 1) slot (.obj a) =
      match m.heap[a]? with
      | none => none
      | some o =>
        if o.prev_next = slot then
          (walk_pool m fuel (.next_of a) o.next).map (fun l => a :: l)
        else none := rfl

theorem walk_pool_back_links (m : Mem) :
    ∀ (fuel : Nat) (slot p : Ptr) (l : List Nat), walk_pool m fuel slot p = some l →
      slot ≠ .stack → ∀ a ∈ l, ∃ o, m.heap[a]? = some o ∧ o.prev_next ≠ .stack := by
  intro fuel
  induction fuel with
  | zero =>
    intro slot p l h _ a ha
    cases p <;> simp [walk_pool] at h
    subst h; simp at ha
  | succ k ih =>
    intro slot p l h hs a ha
    cases p with
    | null => simp [walk_pool] at h; subst h; simp at ha
    | obj b =>
      rw [walk_pool_obj] at h
      cases hb : m.heap[b]? with
      | none => simp [hb] at h
      | some o =>
        simp only [hb] at h
        split at h
        · rename_i hprev
          obtain ⟨l', hl', rfl⟩ := Option.map_eq_some'.mp h
          rcases List.mem_cons.mp ha with rfl | ha'
          · exact ⟨o, hb, by rw [hprev]; exact hs⟩
          · exact ih _ _ _ hl' (by simp) a ha'
        · cases h
    | _ => simp [walk_pool] at h

/-- After a call of `car_recolor_obj` that does not return early, the `prev_next` of the
object is the address of the local `new_pool` of the call, whatever that local held. -/
theorem car_recolor_obj_dangling {m m' : Mem} {a : Nat} {o : CarObj} {c : CarGcColor}
    {np : Ptr} (h : car_recolor_obj m (.obj a) c np = some m') (ho : m.heap[a]? = some o)
    (hc : c ≠ o.color) :
    ∃ o', m'.heap[a]? = some o' ∧ o'.prev_next = .stack := by
  unfold car_recolor_obj at h
  simp only [get_obj, ho, obind_some, hc, if_false] at h
  obtain ⟨slot, _, h⟩ := obind_eq_some.mp h
  obtain ⟨m1, _, h⟩ := obind_eq_some.mp h
  obtain ⟨head, _, h⟩ := obind_eq_some.mp h
  obtain ⟨m2, _, h⟩ := obind_eq_some.mp h
  obtain ⟨m3, _, h⟩ := obind_eq_some.mp h
  obtain ⟨m4, _, h5⟩ := obind_eq_some.mp h
  obtain ⟨a', o4, ha', ho4, rfl⟩ := set_obj_eq_some.mp h5
  cases ha'
  have hlt := (List.getElem?_eq_some.mp ho4).1
  exact ⟨{ o4 with prev_next := .stack }, by simp [List.getElem?_set, hlt], rfl⟩

theorem length_eq_of_cores {m m' : Mem} (h : m'.heap.map core = m.heap.map core) :
    m'.heap.length = m.heap.length := by
  have := congrArg List.length h
  simpa using this

/-- After a call of `car_recolor_obj` that does not return early, the object is a member
of no pool whose links are consistent. -/
theorem car_recolor_obj_in_no_pool {m m' : Mem} {a : Nat} {o : CarObj} {c : CarGcColor}
    {np : Ptr} (h : car_recolor_obj m (.obj a) c np = some m') (ho : m.heap[a]? = some o)
    (hc : c ≠ o.color) (c2 : CarGcColor) (l : List Nat)
    (hl : pool_members m' c2 = some l) : a ∉ l := by
  intro ha
  obtain ⟨o', ho', hp⟩ := car_recolor_obj_dangling h ho hc
  obtain ⟨o'', ho'', hp''⟩ := walk_pool_back_links m' _ _ _ _ hl (by simp) a ha
  rw [ho'] at ho''
  cases ho''
  exact hp'' hp

theorem car_recolor_obj_breaks_pools {m m' : Mem} {a : Nat} {o : CarObj} {c : CarGcColor}
    {np : Ptr} (h : car_recolor_obj m (.obj a) c np = some m') (ho : m.heap[a]? = some o)
    (hc : c ≠ o.color) : ¬ pools_ok m' := by
  rintro ⟨g, s, r, b, hg, hs, hr, hb, hperm⟩
  have hlen := length_eq_of_cores (car_recolor_obj_links h).1
  have hlt : a < m'.heap.length := by rw [hlen]; exact (List.getElem?_eq_some.mp ho).1
  have hmem : a ∈ g ++ s ++ r ++ b := hperm.mem_iff.mpr (List.mem_range.mpr hlt)
  simp only [List.mem_append] at hmem
  rcases hmem with ((hmem | hmem) | hmem) | hmem
  · exact car_recolor_obj_in_no_pool h ho hc _ _ hg hmem
  · exact car_recolor_obj_in_no_pool h ho hc _ _ hs hmem
  · exact car_recolor_obj_in_no_pool h ho hc _ _ hr hmem
  · exact car_recolor_obj_in_no_pool h ho hc _ _ hb hmem

theorem car_recolor_obj_keeps_color {m m' : Mem} {obj : Ptr} {c : CarGcColor} {np : Ptr}
    (h : car_recolor_obj m obj c np = some m') :
    m'.heap.map (fun o => o.color) = m.heap.map (fun o => o.color) := by
  have h1 := congrArg (List.map (fun o : CarObj => o.color)) (car_recolor_obj_links h).1
  simpa [List.map_map, Function.comp_def, core] using h1

theorem pools_ok_mem_one : pools_ok (mem_one 0) :=
  ⟨[0], [], [], [], rfl, rfl, rfl, rfl, by decide⟩

/-- C5 (code defect): `car_recolor_obj` on the sole member (object 0) of the gold pool
with `new_color = CAR_RED`.  Even when the never-assigned local `new_pool` happens to
hold `&vm->red_pool`, the call leaves `obj->next` equal to that address and
`obj->prev_next` equal to the address of the local; and whatever `new_pool` holds, a
call that returns leaves the object in no pool with consistent links: the red pool is
never the list made of the object. -/
theorem car_recolor_obj_sole_member_not_relinked :
    pool_members (mem_one 0) CAR_GOLD = some [0] ∧
    car_recolor_obj (mem_one 0) (.obj 0) CAR_RED (.pool_of CAR_RED) =
      some { vm := { vm_empty with red_pool := .obj 0 }
             heap := [{ fresh_obj CAR_STRING (.pool_of CAR_RED) with prev_next := .stack }]
             host := { avail := 0, calls := [] } } ∧
    ∀ np m', car_recolor_obj (mem_one 0) (.obj 0) CAR_RED np = some m' →
      pool_members m' CAR_RED ≠ some [0] ∧
      ∀ c l, pool_members m' c = some l → 0 ∉ l := by
  refine ⟨rfl, by decide, ?_⟩
  intro np m' h
  have key := car_recolor_obj_in_no_pool h (o := fresh_obj CAR_STRING .null) rfl (by decide)
  refine ⟨?_, key⟩
  intro hred
  exact key CAR_RED [0] hred (by simp)

/-- C7 (code defect): `car_recolor_obj` never stores `new_color`.  After
`car_recolor_obj(vm, obj, CAR_RED)` on a gold object the color tag of the object is still
`CAR_GOLD`, whatever the never-assigned local `new_pool` holds. -/
theorem car_recolor_obj_color_not_stored :
    (obind (car_recolor_obj (mem_one 0) (.obj 0) CAR_RED (.pool_of CAR_RED)) fun m' =>
      (m'.heap[0]?).map (fun o => o.color)) = some CAR_GOLD ∧
    ∀ np m', car_recolor_obj (mem_one 0) (.obj 0) CAR_RED np = some m' →
      m'.heap.map (fun o => o.color) = [CAR_GOLD] := by
  refine ⟨by decide, ?_⟩
  intro np m' h
  rw [car_recolor_obj_keeps_color h]
  rfl

/-- C6 (code defect): the pool invariant holds for the VM whose gold pool holds one
object, and no call `car_recolor_obj(vm, obj, CAR_RED)` on that object that returns
preserves it, whatever the never-assigned local `new_pool` holds (with `&vm->red_pool`
the call does return). -/
theorem car_recolor_obj_breaks_pool_invariant :
    pools_ok (mem_one 0) ∧
    (car_recolor_obj (mem_one 0) (.obj 0) CAR_RED (.pool_of CAR_RED)).isSome = true ∧
    ∀ np m', car_recolor_obj (mem_one 0) (.obj 0) CAR_RED np = some m' → ¬ pools_ok m' := by
  refine ⟨pools_ok_mem_one, by decide, ?_⟩
  intro np m' h
  exact car_recolor_obj_breaks_pools h (o := fresh_obj CAR_STRING .null) rfl (by decide)

/-! ## The objects after each operation, links apart -/

theorem set_obj_upd {m m' : Mem} {a : Nat} {f g : CarObj → CarObj}
    (h : set_obj m (.obj a) f = some m') (hf : ∀ o, core (f o) = g (core o)) :
    m'.heap.map core = upd (m.heap.map core) a g ∧ m'.vm = m.vm ∧ m'.host = m.host := by
  obtain ⟨a', c, ha, hc, hm, hv, hh⟩ := set_obj_cores h hf
  cases ha
  exact ⟨by simp only [upd, hc, hm], hv, hh⟩

theorem set_obj_ptr {m m' : Mem} {p : Ptr} {f : CarObj → CarObj}
    (h : set_obj m p f = some m') : ∃ a, p = .obj a ∧ a < m.heap.length := by
  obtain ⟨a, o, rfl, ho, _⟩ := set_obj_eq_some.mp h
  exact ⟨a, rfl, (List.getElem?_eq_some.mp ho).1⟩

theorem car_vm_alloc_eq_some {m m1 : Mem} {size : Nat} {p : Ptr}
    (h : car_vm_alloc m size = some (m1, p)) :
    m1.vm = m.vm ∧ m1.heap = m.heap ∧
      (p ≠ .null → p = .obj m.heap.length ∧ m1.host = granted m.host size) := by
  unfold car_vm_alloc at h
  obtain ⟨r, hr, h⟩ := obind_eq_some.mp h
  cases h
  refine ⟨rfl, rfl, ?_⟩
  intro hp
  cases hfn : m.vm.realloc_fn with
  | null => simp [call_realloc, hfn] at hr
  | host =>
    simp only [call_realloc, hfn, Option.some.injEq] at hr
    subst hr
    simp only [car_default_realloc] at hp ⊢
    by_cases hsz : size = 0
    · simp [hsz] at hp
    · by_cases hav : m.host.avail = 0
      · simp [hsz, hav] at hp
      · simp [hsz, hav, granted]

theorem car_setup_obj_without_class_cores {m m' : Mem} {t : CarObjType} {size : Nat}
    {p : Ptr} (h : car_setup_obj_without_class m t size = some (m', p)) :
    p = .obj m.heap.length ∧
      m'.heap.map core = m.heap.map core ++ [core (fresh_obj t .null)] ∧
      vm_core m'.vm = vm_core m.vm ∧ m'.host = granted m.host size := by
  unfold car_setup_obj_without_class at h
  obtain ⟨r, hr, h⟩ := obind_eq_some.mp h
  obtain ⟨m1, h1, h⟩ := obind_eq_some.mp h
  obtain ⟨o, ho, h⟩ := obind_eq_some.mp h
  obtain ⟨m2, h2, h⟩ := obind_eq_some.mp h
  obtain ⟨rm, rp⟩ := r
  obtain ⟨hv, hh, hp⟩ := car_vm_alloc_eq_some hr
  simp only at h1 ho h2 h
  cases h
  cases p with
  | obj a =>
    obtain ⟨hpa, hhost⟩ := hp (by simp)
    cases hpa
    unfold init_obj at h1
    simp only at h1
    split at h1
    · cases h1
    simp only [hh, if_true, Option.some.injEq] at h1
    subst h1
    have e2 := (show m'.heap.map core = (m.heap ++ [fresh_obj t rm.vm.gold_pool]).map core
        ∧ vm_core m'.vm = vm_core rm.vm ∧ m'.host = rm.host from by
      split at h2
      · obtain ⟨slot, _, h2⟩ := obind_eq_some.mp h2
        obtain ⟨e, ev, eh⟩ := set_obj_links h2 (fun _ => rfl)
        exact ⟨e, by rw [ev]; rfl, eh⟩
      · cases h2; exact ⟨rfl, rfl, rfl⟩)
    refine ⟨rfl, ?_, ?_, ?_⟩
    · rw [e2.1]; simp [core, fresh_obj]
    · rw [e2.2.1, hv]
    · rw [e2.2.2]; exact hhost
  | _ => simp [init_obj] at h1

theorem length_cores (m : Mem) : (m.heap.map core).length = m.heap.length := by simp

theorem upd_concat_length (l : List CarObj) (x : CarObj) (n : Nat) (g : CarObj → CarObj)
    (h : l.length = n) : upd (l ++ [x]) n g = l ++ [g x] := by
  subst h; simp [upd]

theorem car_setup_obj_cores {m m' : Mem} {t : CarObjType} {size : Nat} {c p : Ptr}
    (h : car_setup_obj m t size c = some (m', p)) :
    p = .obj m.heap.length ∧
      m'.heap.map core = m.heap.map core ++ [core { fresh_obj t .null with class_ := c }] ∧
      vm_core m'.vm = vm_core m.vm ∧ m'.host = granted m.host size := by
  unfold car_setup_obj at h
  obtain ⟨r, hr, h⟩ := obind_eq_some.mp h
  obtain ⟨m1, h1, h⟩ := obind_eq_some.mp h
  obtain ⟨rm, rp⟩ := r
  obtain ⟨hp, hc, hv, hh⟩ := car_setup_obj_without_class_cores hr
  simp only at h1 h hp
  cases h
  subst hp
  obtain ⟨e1, e2, e3⟩ := set_obj_upd (g := fun o => { o with class_ := c }) h1 (fun _ => rfl)
  refine ⟨rfl, ?_, by rw [e2, hv], by rw [e3, hh]⟩
  rw [e1, hc, upd_concat_length _ _ _ _ (length_cores m)]
  rfl

theorem get_obj_cores {m : Mem} {a : Nat} {o : CarObj} (h : get_obj m (.obj a) = some o) :
    (m.heap.map core)[a]? = some (core o) := by
  simp only [get_obj] at h
  simp [h]

theorem get_obj_last {m : Mem} {l : List CarObj} {x o : CarObj}
    (hc : m.heap.map core = l ++ [x]) (h : get_obj m (.obj l.length) = some o) :
    core o = x := by
  have h1 := get_obj_cores h
  rw [hc, List.getElem?_concat_length] at h1
  exact (Option.some.inj h1).symm

theorem set_obj_last {m m' : Mem} {l : List CarObj} {x : CarObj} {f g : CarObj → CarObj}
    (hc : m.heap.map core = l ++ [x]) (h : set_obj m (.obj l.length) f = some m')
    (hf : ∀ o, core (f o) = g (core o)) :
    m'.heap.map core = l ++ [g x] ∧ m'.vm = m.vm ∧ m'.host = m.host := by
  obtain ⟨e1, e2, e3⟩ := set_obj_upd h hf
  exact ⟨by rw [e1, hc, upd_concat_length _ _ _ _ rfl], e2, e3⟩

theorem car_new_string_cores {m m' : Mem} {bytes : List Byte} {count : Nat} {p : Ptr}
    (h : car_new_string m bytes count = some (m', p)) :
    p = .obj m.heap.length ∧ count ≤ bytes.length ∧
      m'.heap.map core = m.heap.map core
        ++ [core (string_obj m.vm.string_class .null (bytes.take count))] ∧
      vm_core m'.vm = vm_core m.vm ∧
      m'.host = granted m.host ((sizeof_CarString + count + 1) % SIZE_MOD) := by
  unfold car_new_string at h
  obtain ⟨r, hr, h⟩ := obind_eq_some.mp h
  obtain ⟨rm, rp⟩ := r
  obtain ⟨hp, hc, hv, hh⟩ := car_setup_obj_cores hr
  simp only at h hp
  subst hp
  rw [← length_cores m] at h
  obtain ⟨o, ho, h⟩ := obind_eq_some.mp h
  obtain ⟨copied, hcp, h⟩ := obind_eq_some.mp h
  obtain ⟨m1, h1, h⟩ := obind_eq_some.mp h
  obtain ⟨m2, h2, h⟩ := obind_eq_some.mp h
  obtain ⟨m3, h3, h⟩ := obind_eq_some.mp h
  obtain ⟨o3, ho3, h⟩ := obind_eq_some.mp h
  obtain ⟨n, hn, h⟩ := obind_eq_some.mp h
  obtain ⟨hs, hhs, h⟩ := obind_eq_some.mp h
  obtain ⟨m4, h4, h⟩ := obind_eq_some.mp h
  cases h
  have hob : o.bytes = [] := congrArg CarObj.bytes (get_obj_last hc ho)
  have hle : count ≤ bytes.length := by
    unfold memcpy at hcp
    by_contra hcon
    simp [hcon] at hcp
  have hcopied : copied = bytes.take count := by
    unfold memcpy at hcp
    simp [hle, hob] at hcp
    exact hcp.symm
  subst hcopied
  obtain ⟨c1, v1, t1⟩ := set_obj_last (g := fun o => { o with bytes := bytes.take count })
    hc h1 (fun _ => rfl)
  obtain ⟨c2, v2, t2⟩ := set_obj_last
    (g := fun o => { o with bytes := store_byte o.bytes count 0 }) c1 h2 (fun _ => rfl)
  obtain ⟨c3, v3, t3⟩ := set_obj_last (g := fun o => { o with byte_count := some count })
    c2 h3 (fun _ => rfl)
  have ho3c := get_obj_last c3 ho3
  have hbc : o3.byte_count = some count := by
    have := congrArg CarObj.byte_count ho3c
    simpa [core] using this
  have hsb : store_byte (List.take count bytes) count 0 = bytes.take count ++ [0] := by
    unfold store_byte
    rw [List.take_of_length_le (by simp [hle]), List.drop_of_length_le (by simp)]
  have hb3 : o3.bytes = bytes.take count ++ [0] := by
    have := congrArg CarObj.bytes ho3c
    simpa [core, hsb] using this
  rw [hbc] at hn
  cases hn
  rw [hb3, car_hash_bytes_take _ _ (by simp [hle])] at hhs
  cases hhs
  obtain ⟨c4, v4, t4⟩ := set_obj_last
    (g := fun o => { o with
      hash := some (xor_fold (List.take count (List.take count bytes ++ [0])) 0) })
    c3 h4 (fun _ => rfl)
  refine ⟨by simp, hle, ?_, by rw [v4, v3, v2, v1, hv], by rw [t4, t3, t2, t1, hh]⟩
  rw [c4]
  have htk : List.take count (List.take count bytes ++ [0]) = bytes.take count := by
    rw [List.take_append_of_le_length (by simp [hle]), List.take_of_length_le (by simp)]
  simp [core, string_obj, fresh_obj, hsb, htk, hle]

theorem strlen_eq_some {s : List Byte} {n : Nat} (h : strlen s = some n) :
    n < s.length ∧ n = s.findIdx (fun b => b = 0) := by
  unfold strlen at h
  split at h
  · cases h; exact ⟨by assumption, rfl⟩
  · cases h

theorem car_new_string_from_cstring_cores {m m' : Mem} {string : List Byte} {p : Ptr}
    (h : car_new_string_from_cstring m string = some (m', p)) :
    ∃ n, strlen string = some n ∧ p = .obj m.heap.length ∧
      m'.heap.map core = m.heap.map core
        ++ [core (string_obj m.vm.string_class .null (string.take n))] ∧
      vm_core m'.vm = vm_core m.vm ∧
      m'.host = granted m.host ((sizeof_CarString + n + 1) % SIZE_MOD) := by
  unfold car_new_string_from_cstring at h
  obtain ⟨n, hn, h⟩ := obind_eq_some.mp h
  obtain ⟨hp, _, hc, hv, hh⟩ := car_new_string_cores h
  exact ⟨n, hn, hp, hc, hv, hh⟩

theorem vm_core_proj {α : Type} (f : CarVM → α) (hf : ∀ vm, f (vm_core vm) = f vm)
    {a b : CarVM} (h : vm_core a = vm_core b) : f a = f b := by
  rw [← hf a, ← hf b, h]

theorem upd_append_right (l r : List CarObj) (i : Nat) (g : CarObj → CarObj) :
    upd (l ++ r) (l.length + i) g = l ++ upd r i g := by
  unfold upd
  rw [List.getElem?_append_right (by omega)]
  simp only [Nat.add_sub_cancel_left]
  cases r[i]? with
  | none => rfl
  | some c =>
    simp only
    rw [List.set_append_right _ _ (by omega)]
    simp

theorem upd_append_at (l r : List CarObj) (n i : Nat) (g : CarObj → CarObj)
    (h : l.length = n) : upd (l ++ r) (n + i) g = l ++ upd r i g := by
  subst h; exact upd_append_right l r i g

theorem heap_length_of_cores {m : Mem} {l : List CarObj} (h : m.heap.map core = l) :
    m.heap.length = l.length := by
  rw [← h]; simp

/-- The objects after `car_new_class`, links apart: the two name strings, the metaclass
and the class are appended, and nothing else changes. -/
theorem car_new_class_cores {m m' : Mem} {name : List Byte} {superclass p : Ptr}
    {np : Nat → Ptr} (h : car_new_class m name superclass np = some (m', p)) :
    ∃ buf n k, metaclass_name name = some buf ∧ strlen name = some n ∧
      strlen buf = some k ∧ p = .obj (m.heap.length + 3) ∧
      m'.heap.map core = m.heap.map core ++
        [core (string_obj m.vm.string_class .null (name.take n)),
         core (string_obj m.vm.string_class .null (buf.take k)),
         core (class_obj m.vm.class_class (.obj (m.heap.length + 1)) m.vm.class_class),
         core (class_obj (.obj (m.heap.length + 2)) (.obj m.heap.length) superclass)] ∧
      vm_core m'.vm = vm_core m.vm ∧
      m'.host = granted (granted (granted (granted m.host
        ((sizeof_CarString + n + 1) % SIZE_MOD)) ((sizeof_CarString + k + 1) % SIZE_MOD))
        sizeof_CarClass) sizeof_CarClass := by
  unfold car_new_class at h
  obtain ⟨b0, hb0, h⟩ := obind_eq_some.mp h
  obtain ⟨buf, hbuf, h⟩ := obind_eq_some.mp h
  obtain ⟨⟨m1, p1⟩, h1, h⟩ := obind_eq_some.mp h
  obtain ⟨⟨m2, p2⟩, h2, h⟩ := obind_eq_some.mp h
  obtain ⟨⟨m3, p3⟩, h3, h⟩ := obind_eq_some.mp h
  obtain ⟨⟨m4, p4⟩, h4, h⟩ := obind_eq_some.mp h
  simp only at h2 h3 h4 h
  obtain ⟨m5, h5, h⟩ := obind_eq_some.mp h
  obtain ⟨m6, h6, h⟩ := obind_eq_some.mp h
  obtain ⟨m7, h7, h⟩ := obind_eq_some.mp h
  obtain ⟨m8, h8, h⟩ := obind_eq_some.mp h
  obtain ⟨m9, h9, h⟩ := obind_eq_some.mp h
  obtain ⟨m10, h10, h⟩ := obind_eq_some.mp h
  obtain ⟨m11, h11, h⟩ := obind_eq_some.mp h
  obtain ⟨m12, h12, h⟩ := obind_eq_some.mp h
  obtain ⟨m13, h13, h⟩ := obind_eq_some.mp h
  cases h
  obtain ⟨n, hn, rfl, c1, v1, t1⟩ := car_new_string_from_cstring_cores h1
  obtain ⟨k, hk, rfl, c2, v2, t2⟩ := car_new_string_from_cstring_cores h2
  obtain ⟨rfl, c3, v3, t3⟩ := car_setup_obj_cores h3
  obtain ⟨rfl, c4, v4, t4⟩ := car_setup_obj_cores h4
  have hmn : metaclass_name name = some buf := by
    unfold metaclass_name
    rw [hb0]
    exact hbuf
  have l1 : m1.heap.length = m.heap.length + 1 := by
    rw [heap_length_of_cores c1]; simp
  have l2 : m2.heap.length = m.heap.length + 2 := by
    rw [heap_length_of_cores c2, List.length_append, length_cores, l1]; rfl
  have l3 : m3.heap.length = m.heap.length + 3 := by
    rw [heap_length_of_cores c3, List.length_append, length_cores, l2]; rfl
  have s1 : m1.vm.string_class = m.vm.string_class :=
    vm_core_proj CarVM.string_class (fun _ => rfl) v1
  have k2 : m2.vm.class_class = m.vm.class_class :=
    vm_core_proj CarVM.class_class (fun _ => rfl) (v2.trans v1)
  simp only [c3, c2, c1, s1, k2, l1, l2, l3, List.append_assoc, List.singleton_append,
    List.cons_append, List.nil_append] at c4
  rw [l2] at h5 h6 h7
  rw [l3] at h8 h9 h10
  obtain ⟨c5, v5, t5⟩ := set_obj_upd (g := fun o => { o with name := some (.obj m1.heap.length) })
    h5 (fun _ => rfl)
  obtain ⟨c6, v6, t6⟩ := set_obj_upd
    (g := fun o => { o with superclass := some m5.vm.class_class }) h6 (fun _ => rfl)
  obtain ⟨c7, v7, t7⟩ := set_obj_upd (g := fun o => { o with num_fields := some 0 })
    h7 (fun _ => rfl)
  obtain ⟨c8, v8, t8⟩ := set_obj_upd (g := fun o => { o with name := some (.obj m.heap.length) })
    h8 (fun _ => rfl)
  obtain ⟨c9, v9, t9⟩ := set_obj_upd (g := fun o => { o with superclass := some superclass })
    h9 (fun _ => rfl)
  obtain ⟨c10, v10, t10⟩ := set_obj_upd (g := fun o => { o with num_fields := some 0 })
    h10 (fun _ => rfl)
  obtain ⟨c11, v11, t11⟩ := car_recolor_obj_links h11
  obtain ⟨c12, v12, t12⟩ := car_recolor_obj_links h12
  obtain ⟨c13, v13, t13⟩ := car_recolor_obj_links h13
  have k5 : m5.vm.class_class = m.vm.class_class := by
    rw [v5]
    exact (vm_core_proj CarVM.class_class (fun _ => rfl) (v4.trans v3)).trans k2
  refine ⟨buf, n, k, hmn, hn, hk, by rw [l3], ?_, ?_, ?_⟩
  · rw [c13, c12, c11, c10, c9, c8, c7, c6, c5, c4, k5, l1]
    simp only [upd_append_at _ _ _ _ _ (length_cores m)]
    simp [upd, core, class_obj, fresh_obj]
  · rw [v13, v12, v11, v10, v9, v8, v7, v6, v5, v4, v3, v2, v1]
  · rw [t13, t12, t11, t10, t9, t8, t7, t6, t5, t4, t3, t2, t1]

theorem car_new_class_objs {m m' : Mem} {name : List Byte} {superclass p : Ptr}
    {np : Nat → Ptr} (h : car_new_class m name superclass np = some (m', p)) :
    p = .obj (m.heap.length + 3) ∧
      m'.heap.map core = m.heap.map core
        ++ new_class_objs m.vm m.heap.length name superclass ∧
      vm_core m'.vm = vm_core m.vm ∧ m'.heap.length = m.heap.length + 4 := by
  obtain ⟨buf, n, k, hb, hn, hk, hp, hc, hv, _⟩ := car_new_class_cores h
  refine ⟨hp, ?_, hv, ?_⟩
  · rw [hc]; simp [new_class_objs, cstring_obj, hb, hn, hk]
  · rw [heap_length_of_cores hc]; simp

theorem upd_length (l : List CarObj) (a : Nat) (g : CarObj → CarObj) :
    (upd l a g).length = l.length := by
  unfold upd
  split <;> simp

theorem upd_self (l : List CarObj) (a : Nat) (g : CarObj → CarObj)
    (h : ∀ c, l[a]? = some c → g c = c) : upd l a g = l := by
  unfold upd
  cases hc : l[a]? with
  | none => rfl
  | some c =>
    simp only
    rw [h c hc]
    apply List.ext_getElem?
    intro i
    by_cases hi : a = i
    · subst hi
      simp [List.getElem?_set, hc, (List.getElem?_eq_some.mp hc).1]
    · simp [List.getElem?_set, hi]

theorem car_inc_rc_cores {m m' : Mem} {a : Nat} (h : car_inc_rc m (.obj a) = some m') :
    m'.heap.map core = upd (m.heap.map core) a rc_inc ∧ m'.vm = m.vm ∧ m'.host = m.host := by
  unfold car_inc_rc at h
  obtain ⟨o, ho, h⟩ := obind_eq_some.mp h
  have hco := get_obj_cores ho
  split at h
  · rename_i hlt
    obtain ⟨a', o', ha', ho', rfl⟩ := set_obj_eq_some.mp h
    cases ha'
    simp only [get_obj] at ho
    rw [ho] at ho'
    cases ho'
    refine ⟨?_, rfl, rfl⟩
    simp only [upd, hco, List.map_set]
    congr 1
    simp [rc_inc, core, hlt]
  · cases h
    refine ⟨?_, rfl, rfl⟩
    rw [upd_self]
    intro c hc
    have h1 := get_obj_cores ho
    rw [hc] at h1
    cases h1
    rename_i hlt
    simp [rc_inc, core, hlt]

theorem car_inc_rc_times_cores {a : Nat} :
    ∀ (n : Nat) {m m' : Mem}, car_inc_rc_times m (.obj a) n = some m' →
      m'.heap.map core = (fun l => upd l a rc_inc)^[n] (m.heap.map core) ∧
        m'.vm = m.vm ∧ m'.heap.length = m.heap.length ∧ m'.host = m.host := by
  intro n
  induction n with
  | zero => intro m m' h; cases h; exact ⟨rfl, rfl, rfl, rfl⟩
  | succ k ih =>
    intro m m' h
    simp only [car_inc_rc_times] at h
    obtain ⟨m1, h1, h⟩ := obind_eq_some.mp h
    obtain ⟨c1, v1, t1⟩ := car_inc_rc_cores h1
    obtain ⟨c2, v2, l2, t2⟩ := ih h
    refine ⟨?_, v2.trans v1, ?_, t2.trans t1⟩
    · rw [c2, c1, Function.iterate_succ_apply]
    · rw [l2, heap_length_of_cores c1, upd_length, length_cores]

theorem set_obj_upd_self {m m' : Mem} {a : Nat} {f : CarObj → CarObj}
    (h : set_obj m (.obj a) f = some m') (hf : ∀ o, core (f o) = f (core o)) :
    m'.heap.map core = upd (m.heap.map core) a f ∧ m'.vm = m.vm ∧
      m'.heap.length = m.heap.length := by
  obtain ⟨e1, e2, _⟩ := set_obj_upd h hf
  refine ⟨e1, e2, ?_⟩
  rw [heap_length_of_cores e1, upd_length, length_cores]

theorem car_new_vm_name_cores {m m' : Mem} {a : Nat} {name : List Byte}
    (h : car_new_vm_name m (.obj a) name = some m') :
    m'.heap.map core = upd (m.heap.map core ++ [core (cstring_obj m.vm.string_class name)]) a
        (fun o => { o with name := some (.obj m.heap.length) }) ∧
      vm_core m'.vm = vm_core m.vm ∧ m'.heap.length = m.heap.length + 1 := by
  unfold car_new_vm_name at h
  obtain ⟨⟨m1, p1⟩, h1, h⟩ := obind_eq_some.mp h
  obtain ⟨n, hn, rfl, c1, v1, _⟩ := car_new_string_from_cstring_cores h1
  simp only at h
  obtain ⟨c2, v2, _⟩ := set_obj_upd
    (g := fun o => { o with name := some (.obj m.heap.length) }) h (fun _ => rfl)
  refine ⟨?_, by rw [v2, v1], ?_⟩
  · rw [c2, c1]; simp [cstring_obj, hn]
  · rw [heap_length_of_cores c2, upd_length, c1]; simp

theorem car_new_vm_class_cores {m m' : Mem} {name : List Byte} {superclass : Ptr}
    {np : Nat → Ptr} {store : CarVM → Ptr → CarVM}
    (h : car_new_vm_class m name superclass np store = some m')
    (hs : ∀ vm c, vm_core (store vm c) = store (vm_core vm) c) :
    m'.heap.map core = m.heap.map core
        ++ new_class_objs m.vm m.heap.length name superclass ∧
      vm_core m'.vm = store (vm_core m.vm) (.obj (m.heap.length + 3)) ∧
      m'.heap.length = m.heap.length + 4 := by
  unfold car_new_vm_class at h
  obtain ⟨⟨m1, p1⟩, h1, h⟩ := obind_eq_some.mp h
  obtain ⟨rfl, c1, v1, l1⟩ := car_new_class_objs h1
  cases h
  exact ⟨c1, by simp only [hs, v1], l1⟩

/-! ## `car_new_vm` -/

set_option maxRecDepth 100000 in
/-- Every run of `car_new_vm` that returns leaves the same objects as the reference run,
links apart, and the same class pointers in the `CarVM` block: neither the indeterminate
`active_color` nor the indeterminate locals of `car_recolor_obj` can reach them. -/
theorem car_new_vm_cores {config : CarConfig} {host : Host} {block : CarVM}
    {junk : Nat → Nat → Ptr} {m : Mem} (h : car_new_vm config host block junk = some m) :
    m.heap.map core = bootstrap_cores ∧ vm_core m.vm = bootstrap_vm config block := by
  unfold car_new_vm at h
  obtain ⟨r0, -, h0⟩ := obind_eq_some.mp h
  clear h
  split at h0
  · cases h0
  simp only at h0
  obtain ⟨⟨m1, p1⟩, s1, h1⟩ := obind_eq_some.mp h0
  clear h0
  simp only at h1
  obtain ⟨rfl, c1, v1, -⟩ := car_setup_obj_without_class_cores s1
  simp only [List.map_nil, List.nil_append, List.length_nil] at c1 h1
  have l1 : m1.heap.length = 1 := by rw [heap_length_of_cores c1]; rfl
  obtain ⟨⟨m2, p2⟩, s2, h2⟩ := obind_eq_some.mp h1
  clear h1
  simp only at h2
  obtain ⟨rfl, c2, v2, -⟩ := car_setup_obj_without_class_cores s2
  have l2 : m2.heap.length = 2 := by
    rw [heap_length_of_cores c2, List.length_append, length_cores, l1]; rfl
  simp only [l1] at h2
  obtain ⟨⟨m3, p3⟩, s3, h3⟩ := obind_eq_some.mp h2
  clear h2
  simp only at h3
  obtain ⟨rfl, c3, v3, -⟩ := car_setup_obj_without_class_cores s3
  have l3 : m3.heap.length = 3 := by
    rw [heap_length_of_cores c3, List.length_append, length_cores, l2]; rfl
  simp only [l2] at h3
  obtain ⟨⟨m4, p4⟩, s4, h4⟩ := obind_eq_some.mp h3
  clear h3
  simp only at h4
  obtain ⟨rfl, c4, v4, -⟩ := car_setup_obj_without_class_cores s4
  have l4 : m4.heap.length = 4 := by
    rw [heap_length_of_cores c4, List.length_append, length_cores, l3]; rfl
  simp only [l3] at h4
  obtain ⟨⟨m5, p5⟩, s5, h5⟩ := obind_eq_some.mp h4
  clear h4
  simp only at h5
  obtain ⟨rfl, c5, v5, -⟩ := car_setup_obj_without_class_cores s5
  have l5 : m5.heap.length = 5 := by
    rw [heap_length_of_cores c5, List.length_append, length_cores, l4]; rfl
  simp only [l4] at h5
  obtain ⟨m6, s6, h6⟩ := obind_eq_some.mp h5
  clear h5
  obtain ⟨c6, v6, l6⟩ := set_obj_upd_self s6 (fun _ => rfl)
  rw [l5] at l6
  obtain ⟨m7, s7, h7⟩ := obind_eq_some.mp h6
  clear h6
  obtain ⟨c7, v7, l7⟩ := set_obj_upd_self s7 (fun _ => rfl)
  rw [l6] at l7
  obtain ⟨m8, s8, h8⟩ := obind_eq_some.mp h7
  clear h7
  obtain ⟨c8, v8, l8⟩ := set_obj_upd_self s8 (fun _ => rfl)
  rw [l7] at l8
  obtain ⟨m9, s9, h9⟩ := obind_eq_some.mp h8
  clear h8
  obtain ⟨c9, v9, l9⟩ := set_obj_upd_self s9 (fun _ => rfl)
  rw [l8] at l9
  obtain ⟨m10, s10, h10⟩ := obind_eq_some.mp h9
  clear h9
  obtain ⟨c10, v10, l10⟩ := set_obj_upd_self s10 (fun _ => rfl)
  rw [l9] at l10
  obtain ⟨m11, s11, h11⟩ := obind_eq_some.mp h10
  clear h10
  obtain ⟨c11, v11, l11⟩ := set_obj_upd_self s11 (fun _ => rfl)
  rw [l10] at l11
  obtain ⟨m12, s12, h12⟩ := obind_eq_some.mp h11
  clear h11
  obtain ⟨c12, v12, l12⟩ := set_obj_upd_self s12 (fun _ => rfl)
  rw [l11] at l12
  obtain ⟨m13, s13, h13⟩ := obind_eq_some.mp h12
  clear h12
  obtain ⟨c13, v13, l13⟩ := set_obj_upd_self s13 (fun _ => rfl)
  rw [l12] at l13
  obtain ⟨m14, s14, h14⟩ := obind_eq_some.mp h13
  clear h13
  obtain ⟨c14, v14, l14⟩ := set_obj_upd_self s14 (fun _ => rfl)
  rw [l13] at l14
  obtain ⟨m15, s15, h15⟩ := obind_eq_some.mp h14
  clear h14
  obtain ⟨c15, v15, l15⟩ := set_obj_upd_self s15 (fun _ => rfl)
  rw [l14] at l15
  obtain ⟨m16, s16, h16⟩ := obind_eq_some.mp h15
  clear h15
  obtain ⟨c16, v16, l16, -⟩ := car_inc_rc_times_cores 2 s16
  simp only at c16 v16 l16
  rw [l15] at l16
  obtain ⟨m17, s17, h17⟩ := obind_eq_some.mp h16
  clear h16
  obtain ⟨c17, v17, l17, -⟩ := car_inc_rc_times_cores 1 s17
  rw [l16] at l17
  obtain ⟨m18, s18, h18⟩ := obind_eq_some.mp h17
  clear h17
  obtain ⟨c18, v18, l18, -⟩ := car_inc_rc_times_cores 5 s18
  rw [l17] at l18
  obtain ⟨m19, s19, h19⟩ := obind_eq_some.mp h18
  clear h18
  obtain ⟨c19, v19, l19, -⟩ := car_inc_rc_times_cores 0 s19
  rw [l18] at l19
  obtain ⟨m20, s20, h20⟩ := obind_eq_some.mp h19
  clear h19
  obtain ⟨c20, v20, l20, -⟩ := car_inc_rc_times_cores 1 s20
  rw [l19] at l20
  have V20 : vm_core m20.vm = { vm_core m5.vm with
      class_class := .obj 2, obj_class := .obj 0, string_class := .obj 3 } := by
    rw [v20, v19, v18, v17, v16, v15, v14, v13, v12, v11, v10, v9, v8, v7, v6]
    rfl
  rw [v5, v4, v3, v2, v1] at V20
  dsimp only [vm_core] at V20
  have sc20 : m20.vm.string_class = .obj 3 := congrArg CarVM.string_class V20
  have cc20 : m20.vm.class_class = .obj 2 := congrArg CarVM.class_class V20
  have oc20 : m20.vm.obj_class = .obj 0 := congrArg CarVM.obj_class V20
  obtain ⟨m21, s21, h21⟩ := obind_eq_some.mp h20
  clear h20
  obtain ⟨c21, v21, l21⟩ := car_new_vm_name_cores s21
  rw [l20] at l21 c21
  rw [sc20] at c21
  have V21 := v21.trans V20
  have sc21 : m21.vm.string_class = .obj 3 := congrArg CarVM.string_class V21
  have cc21 : m21.vm.class_class = .obj 2 := congrArg CarVM.class_class V21
  have oc21 : m21.vm.obj_class = .obj 0 := congrArg CarVM.obj_class V21
  obtain ⟨m22, s22, h22⟩ := obind_eq_some.mp h21
  clear h21
  obtain ⟨c22, v22, l22⟩ := car_new_vm_name_cores s22
  rw [l21] at l22 c22
  rw [sc21] at c22
  have V22 := v22.trans V21
  have sc22 : m22.vm.string_class = .obj 3 := congrArg CarVM.string_class V22
  have cc22 : m22.vm.class_class = .obj 2 := congrArg CarVM.class_class V22
  have oc22 : m22.vm.obj_class = .obj 0 := congrArg CarVM.obj_class V22
  obtain ⟨m23, s23, h23⟩ := obind_eq_some.mp h22
  clear h22
  obtain ⟨c23, v23, l23⟩ := car_new_vm_name_cores s23
  rw [l22] at l23 c23
  rw [sc22] at c23
  have V23 := v23.trans V22
  have sc23 : m23.vm.string_class = .obj 3 := congrArg CarVM.string_class V23
  have cc23 : m23.vm.class_class = .obj 2 := congrArg CarVM.class_class V23
  have oc23 : m23.vm.obj_class = .obj 0 := congrArg CarVM.obj_class V23
  obtain ⟨m24, s24, h24⟩ := obind_eq_some.mp h23
  clear h23
  obtain ⟨c24, v24, l24⟩ := car_new_vm_name_cores s24
  rw [l23] at l24 c24
  rw [sc23] at c24
  have V24 := v24.trans V23
  have sc24 : m24.vm.string_class = .obj 3 := congrArg CarVM.string_class V24
  have cc24 : m24.vm.class_class = .obj 2 := congrArg CarVM.class_class V24
  have oc24 : m24.vm.obj_class = .obj 0 := congrArg CarVM.obj_class V24
  obtain ⟨m25, s25, h25⟩ := obind_eq_some.mp h24
  clear h24
  obtain ⟨c25, v25, l25⟩ := car_new_vm_name_cores s25
  rw [l24] at l25 c25
  rw [sc24] at c25
  have V25 := v25.trans V24
  have sc25 : m25.vm.string_class = .obj 3 := congrArg CarVM.string_class V25
  have cc25 : m25.vm.class_class = .obj 2 := congrArg CarVM.class_class V25
  have oc25 : m25.vm.obj_class = .obj 0 := congrArg CarVM.obj_class V25
  obtain ⟨m26, s26, h26⟩ := obind_eq_some.mp h25
  clear h25
  rw [oc25] at s26
  obtain ⟨c26, V26, l26⟩ := car_new_vm_class_cores s26 (fun _ _ => rfl)
  simp only [new_class_objs, sc25, cc25, l25] at c26 l26
  rw [V25, l25] at V26
  dsimp only at V26
  have sc26 : m26.vm.string_class = .obj 3 := congrArg CarVM.string_class V26
  have cc26 : m26.vm.class_class = .obj 2 := congrArg CarVM.class_class V26
  have oc26 : m26.vm.obj_class = .obj 0 := congrArg CarVM.obj_class V26
  have sq26 : m26.vm.sequence_class = .obj 13 := congrArg CarVM.sequence_class V26
  obtain ⟨m27, s27, h27⟩ := obind_eq_some.mp h26
  clear h26
  rw [oc26] at s27
  obtain ⟨c27, V27, l27⟩ := car_new_vm_class_cores s27 (fun _ _ => rfl)
  simp only [new_class_objs, sc26, cc26, l26] at c27 l27
  rw [V26, l26] at V27
  dsimp only at V27
  have sc27 : m27.vm.string_class = .obj 3 := congrArg CarVM.string_class V27
  have cc27 : m27.vm.class_class = .obj 2 := congrArg CarVM.class_class V27
  have oc27 : m27.vm.obj_class = .obj 0 := congrArg CarVM.obj_class V27
  have sq27 : m27.vm.sequence_class = .obj 13 := congrArg CarVM.sequence_class V27
  obtain ⟨m28, s28, h28⟩ := obind_eq_some.mp h27
  clear h27
  rw [oc27] at s28
  obtain ⟨c28, V28, l28⟩ := car_new_vm_class_cores s28 (fun _ _ => rfl)
  simp only [new_class_objs, sc27, cc27, l27] at c28 l28
  rw [V27, l27] at V28
  dsimp only at V28
  have sc28 : m28.vm.string_class = .obj 3 := congrArg CarVM.string_class V28
  have cc28 : m28.vm.class_class = .obj 2 := congrArg CarVM.class_class V28
  have oc28 : m28.vm.obj_class = .obj 0 := congrArg CarVM.obj_class V28
  have sq28 : m28.vm.sequence_class = .obj 13 := congrArg CarVM.sequence_class V28
  obtain ⟨m29, s29, h29⟩ := obind_eq_some.mp h28
  clear h28
  rw [sq28] at s29
  obtain ⟨c29, V29, l29⟩ := car_new_vm_class_cores s29 (fun _ _ => rfl)
  simp only [new_class_objs, sc28, cc28, l28] at c29 l29
  rw [V28, l28] at V29
  dsimp only at V29
  have sc29 : m29.vm.string_class = .obj 3 := congrArg CarVM.string_class V29
  have cc29 : m29.vm.class_class = .obj 2 := congrArg CarVM.class_class V29
  have oc29 : m29.vm.obj_class = .obj 0 := congrArg CarVM.obj_class V29
  have sq29 : m29.vm.sequence_class = .obj 13 := congrArg CarVM.sequence_class V29
  obtain ⟨m30, s30, h30⟩ := obind_eq_some.mp h29
  clear h29
  rw [sq29] at s30
  obtain ⟨c30, V30, l30⟩ := car_new_vm_class_cores s30 (fun _ _ => rfl)
  simp only [new_class_objs, sc29, cc29, l29] at c30 l30
  rw [V29, l29] at V30
  dsimp only at V30
  have sc30 : m30.vm.string_class = .obj 3 := congrArg CarVM.string_class V30
  have cc30 : m30.vm.class_class = .obj 2 := congrArg CarVM.class_class V30
  have oc30 : m30.vm.obj_class = .obj 0 := congrArg CarVM.obj_class V30
  have sq30 : m30.vm.sequence_class = .obj 13 := congrArg CarVM.sequence_class V30
  obtain ⟨m31, s31, h31⟩ := obind_eq_some.mp h30
  clear h30
  rw [oc30] at s31
  obtain ⟨c31, V31, l31⟩ := car_new_vm_class_cores s31 (fun _ _ => rfl)
  simp only [new_class_objs, sc30, cc30, l30] at c31 l31
  rw [V30, l30] at V31
  dsimp only at V31
  have sc31 : m31.vm.string_class = .obj 3 := congrArg CarVM.string_class V31
  have cc31 : m31.vm.class_class = .obj 2 := congrArg CarVM.class_class V31
  have oc31 : m31.vm.obj_class = .obj 0 := congrArg CarVM.obj_class V31
  have sq31 : m31.vm.sequence_class = .obj 13 := congrArg CarVM.sequence_class V31
  obtain ⟨m32, s32, h32⟩ := obind_eq_some.mp h31
  clear h31
  rw [oc31] at s32
  obtain ⟨c32, V32, l32⟩ := car_new_vm_class_cores s32 (fun _ _ => rfl)
  simp only [new_class_objs, sc31, cc31, l31] at c32 l32
  rw [V31, l31] at V32
  dsimp only at V32
  have sc32 : m32.vm.string_class = .obj 3 := congrArg CarVM.string_class V32
  have cc32 : m32.vm.class_class = .obj 2 := congrArg CarVM.class_class V32
  have oc32 : m32.vm.obj_class = .obj 0 := congrArg CarVM.obj_class V32
  have sq32 : m32.vm.sequence_class = .obj 13 := congrArg CarVM.sequence_class V32
  obtain ⟨m33, s33, h33⟩ := obind_eq_some.mp h32
  clear h32
  rw [sq32] at s33
  obtain ⟨c33, V33, l33⟩ := car_new_vm_class_cores s33 (fun _ _ => rfl)
  simp only [new_class_objs, sc32, cc32, l32] at c33 l33
  rw [V32, l32] at V33
  dsimp only at V33
  have sc33 : m33.vm.string_class = .obj 3 := congrArg CarVM.string_class V33
  have cc33 : m33.vm.class_class = .obj 2 := congrArg CarVM.class_class V33
  have oc33 : m33.vm.obj_class = .obj 0 := congrArg CarVM.obj_class V33
  have sq33 : m33.vm.sequence_class = .obj 13 := congrArg CarVM.sequence_class V33
  obtain ⟨m34, s34, h34⟩ := obind_eq_some.mp h33
  clear h33
  rw [oc33] at s34
  obtain ⟨c34, V34, l34⟩ := car_new_vm_class_cores s34 (fun _ _ => rfl)
  simp only [new_class_objs, sc33, cc33, l33] at c34 l34
  rw [V33, l33] at V34
  dsimp only at V34
  have sc34 : m34.vm.string_class = .obj 3 := congrArg CarVM.string_class V34
  have cc34 : m34.vm.class_class = .obj 2 := congrArg CarVM.class_class V34
  have oc34 : m34.vm.obj_class = .obj 0 := congrArg CarVM.obj_class V34
  have sq34 : m34.vm.sequence_class = .obj 13 := congrArg CarVM.sequence_class V34
  cases h34
  refine ⟨?_, ?_⟩
  · rw [c34, c33, c32, c31, c30, c29, c28, c27, c26, c25, c24, c23, c22, c21, c20, c19, c18,
      c17, c16, c15, c14, c13, c12, c11, c10, c9, c8, c7, c6, c5, c4, c3, c2, c1]
    decide
  · rw [V34]
    rfl

set_option maxRecDepth 100000 in
theorem bootstrap_cores_classes :
    bootstrap_cores.map (fun o => o.class_) = bootstrap_class_table := by
  decide

theorem car_new_vm_class_table {config : CarConfig} {host : Host} {block : CarVM}
    {junk : Nat → Nat → Ptr} {m : Mem} (h : car_new_vm config host block junk = some m) :
    m.heap.map (fun o => o.class_) = bootstrap_class_table := by
  have h1 := congrArg (List.map (fun o : CarObj => o.class_)) (car_new_vm_cores h).1
  rw [bootstrap_cores_classes] at h1
  rw [← h1]
  simp [List.map_map, Function.comp_def, core]

theorem class_chain_of_table {m : Mem} {tbl : List Ptr}
    (T : m.heap.map (fun o => o.class_) = tbl) (a j : Nat) (cc : Ptr)
    (h1 : tbl[a]? = some (.obj j)) (h2 : tbl[j]? = some cc) :
    ∃ o mo, get_obj m (.obj a) = some o ∧ o.class_ = .obj j ∧
      get_obj m o.class_ = some mo ∧ mo.class_ = cc := by
  subst T
  simp only [List.getElem?_map, Option.map_eq_some'] at h1 h2
  obtain ⟨o, ho, hoc⟩ := h1
  obtain ⟨mo, hmo, hmc⟩ := h2
  exact ⟨o, mo, ho, hoc, by rw [hoc]; exact hmo, hmc⟩

theorem cores_field {α : Type} (f : CarObj → α) (hf : ∀ o, f (core o) = f o) {m : Mem}
    {l : List CarObj} (h : m.heap.map core = l) (a : Nat) (x : α)
    (hx : (l[a]?).map f = some x) : ∃ o, get_obj m (.obj a) = some o ∧ f o = x := by
  subst h
  simp only [List.getElem?_map, Option.map_map, Option.map_eq_some'] at hx
  obtain ⟨o, ho, hfo⟩ := hx
  exact ⟨o, ho, by rw [← hf o]; exact hfo⟩

set_option maxRecDepth 100000 in
theorem bootstrap_cores_roots :
    (bootstrap_cores[0]?).map (fun o => (o.class_, o.superclass))
        = some (.obj 1, some .null) ∧
      (bootstrap_cores[1]?).map (fun o => o.class_) = some (.obj 2) ∧
      (bootstrap_cores[2]?).map (fun o => (o.class_, o.superclass))
        = some (.obj 2, some (.obj 0)) := by
  decide

set_option maxRecDepth 100000 in
theorem reference_vm_returns : reference_vm.isSome = true := by
  decide

/-- C3: after `car_new_vm` returns, the bootstrap fixed points hold: the class of
`vm.class_class` is `vm.class_class`; the class of the class of `vm.obj_class` is
`vm.class_class`; the superclass of `vm.obj_class` is NULL; and the superclass of
`vm.class_class` is `vm.obj_class`. -/
theorem car_new_vm_fixed_points (config : CarConfig) (host : Host) (block : CarVM)
    (junk : Nat → Nat → Ptr) (m : Mem)
    (h : car_new_vm config host block junk = some m) :
    ∃ class_class obj_class obj_metaclass,
      get_obj m m.vm.class_class = some class_class ∧
      get_obj m m.vm.obj_class = some obj_class ∧
      get_obj m obj_class.class_ = some obj_metaclass ∧
      class_class.class_ = m.vm.class_class ∧
      obj_metaclass.class_ = m.vm.class_class ∧
      obj_class.superclass = some .null ∧
      class_class.superclass = some m.vm.obj_class := by
  obtain ⟨hc, hv⟩ := car_new_vm_cores h
  have kcc : m.vm.class_class = .obj 2 := congrArg CarVM.class_class hv
  have koc : m.vm.obj_class = .obj 0 := congrArg CarVM.obj_class hv
  obtain ⟨r0, r1, r2⟩ := bootstrap_cores_roots
  obtain ⟨oc, hoc, eoc⟩ := cores_field (fun o => (o.class_, o.superclass)) (fun _ => rfl)
    hc 0 _ r0
  obtain ⟨om, hom, eom⟩ := cores_field (fun o => o.class_) (fun _ => rfl) hc 1 _ r1
  obtain ⟨cc, hcc, ecc⟩ := cores_field (fun o => (o.class_, o.superclass)) (fun _ => rfl)
    hc 2 _ r2
  simp only [Prod.mk.injEq] at eoc ecc
  refine ⟨cc, oc, om, by rw [kcc]; exact hcc, by rw [koc]; exact hoc,
    by rw [eoc.1]; exact hom, by rw [kcc]; exact ecc.1, by rw [kcc]; exact eom,
    eoc.2, by rw [koc]; exact ecc.2⟩

/-- Witness for C3: the reference run returns, and its VM has the fixed points -/
theorem car_new_vm_fixed_points_witness :
    ∃ m, reference_vm = some m ∧
      ∃ class_class obj_class obj_metaclass,
        get_obj m m.vm.class_class = some class_class ∧
        get_obj m m.vm.obj_class = some obj_class ∧
        get_obj m obj_class.class_ = some obj_metaclass ∧
        class_class.class_ = m.vm.class_class ∧
        obj_metaclass.class_ = m.vm.class_class ∧
        obj_class.superclass = some .null ∧
        class_class.superclass = some m.vm.obj_class := by
  obtain ⟨m, hm⟩ := Option.isSome_iff_exists.mp reference_vm_returns
  exact ⟨m, hm, car_new_vm_fixed_points _ _ _ _ m hm⟩

/-- C4: after `car_new_vm` returns, every built-in class `c` stored in the VM has a
non-NULL class whose class is `vm.class_class`, and the class of `vm.class_class` is
`vm.class_class`: following class pointers from `c` reaches the class-of-classes in at
most two steps and stays there. -/
theorem car_new_vm_metaclass_chains (config : CarConfig) (host : Host) (block : CarVM)
    (junk : Nat → Nat → Ptr) (m : Mem)
    (h : car_new_vm config host block junk = some m) :
    ∀ c ∈ builtin_classes m.vm, ∃ o metaclass class_class,
      get_obj m c = some o ∧ o.class_ ≠ .null ∧
      get_obj m o.class_ = some metaclass ∧ metaclass.class_ = m.vm.class_class ∧
      get_obj m m.vm.class_class = some class_class ∧
      class_class.class_ = m.vm.class_class := by
  obtain ⟨-, hv⟩ := car_new_vm_cores h
  have T := car_new_vm_class_table h
  have kcc : m.vm.class_class = .obj 2 := congrArg CarVM.class_class hv
  have hb : builtin_classes m.vm = [.obj 0, .obj 2, .obj 3, .obj 17, .obj 21, .obj 25,
      .obj 29, .obj 33, .obj 37, .obj 41, .obj 13, .obj 45] := by
    unfold builtin_classes
    rw [show m.vm.obj_class = .obj 0 from congrArg CarVM.obj_class hv,
      show m.vm.class_class = .obj 2 from congrArg CarVM.class_class hv,
      show m.vm.string_class = .obj 3 from congrArg CarVM.string_class hv,
      show m.vm.bool_class = .obj 17 from congrArg CarVM.bool_class hv,
      show m.vm.fn_class = .obj 21 from congrArg CarVM.fn_class hv,
      show m.vm.list_class = .obj 25 from congrArg CarVM.list_class hv,
      show m.vm.map_class = .obj 29 from congrArg CarVM.map_class hv,
      show m.vm.null_class = .obj 33 from congrArg CarVM.null_class hv,
      show m.vm.num_class = .obj 37 from congrArg CarVM.num_class hv,
      show m.vm.range_class = .obj 41 from congrArg CarVM.range_class hv,
      show m.vm.sequence_class = .obj 13 from congrArg CarVM.sequence_class hv,
      show m.vm.system_class = .obj 45 from congrArg CarVM.system_class hv]
  obtain ⟨cc, _, hcc, ecc, _, _⟩ := class_chain_of_table T 2 2 (.obj 2) rfl rfl
  have key : ∀ a j, bootstrap_class_table[a]? = some (.obj j) →
      bootstrap_class_table[j]? = some (.obj 2) →
      ∃ o metaclass class_class,
        get_obj m (.obj a) = some o ∧ o.class_ ≠ .null ∧
        get_obj m o.class_ = some metaclass ∧ metaclass.class_ = m.vm.class_class ∧
        get_obj m m.vm.class_class = some class_class ∧
        class_class.class_ = m.vm.class_class := by
    intro a j h1 h2
    obtain ⟨o, mo, ho, hoc, hmo, hmc⟩ := class_chain_of_table T a j (.obj 2) h1 h2
    exact ⟨o, mo, cc, ho, by rw [hoc]; simp, hmo, by rw [kcc]; exact hmc,
      by rw [kcc]; exact hcc, by rw [kcc]; exact ecc⟩
  intro c hc
  rw [hb] at hc
  simp only [List.mem_cons, List.mem_singleton, List.not_mem_nil, or_false] at hc
  rcases hc with rfl | rfl | rfl | rfl | rfl | rfl | rfl | rfl | rfl | rfl | rfl | rfl
  · exact key 0 1 rfl rfl
  · exact key 2 2 rfl rfl
  · exact key 3 4 rfl rfl
  · exact key 17 16 rfl rfl
  · exact key 21 20 rfl rfl
  · exact key 25 24 rfl rfl
  · exact key 29 28 rfl rfl
  · exact key 33 32 rfl rfl
  · exact key 37 36 rfl rfl
  · exact key 41 40 rfl rfl
  · exact key 13 12 rfl rfl
  · exact key 45 44 rfl rfl

/-- Witness for C4: the reference run returns, and its twelve built-in classes have
metaclass chains ending in the class-of-classes -/
theorem car_new_vm_metaclass_chains_witness :
    ∃ m, reference_vm = some m ∧ (builtin_classes m.vm).length = 12 ∧
      ∀ c ∈ builtin_classes m.vm, ∃ o metaclass class_class,
        get_obj m c = some o ∧ o.class_ ≠ .null ∧
        get_obj m o.class_ = some metaclass ∧ metaclass.class_ = m.vm.class_class ∧
        get_obj m m.vm.class_class = some class_class ∧
        class_class.class_ = m.vm.class_class := by
  obtain ⟨m, hm⟩ := Option.isSome_iff_exists.mp reference_vm_returns
  exact ⟨m, hm, rfl, car_new_vm_metaclass_chains _ _ _ _ m hm⟩

/-! ## Runs in which every allocation is granted and `active_color` reads as gold -/

theorem gold_stack_valid_link {m : Mem} (h : gold_stack m) : valid_link m m.vm.gold_pool := by
  obtain ⟨_, _, _, hg, _⟩ := h
  rw [hg]
  by_cases hl : m.heap.length = 0
  · left; simp [hl]
  · right; exact ⟨m.heap.length - 1, by simp [hl], by omega⟩

theorem gold_stack_push {m : Mem} (h : gold_stack m) (x : CarObj) (vm : CarVM) (host : Host)
    (hx : x.color = CAR_GOLD ∧ x.next = m.vm.gold_pool ∧ x.prev_next = .pool_of CAR_GOLD)
    (hvm : vm.red_pool = .null ∧ vm.blue_pool = .null ∧ vm.silver_pool = .null ∧
      vm.gold_pool = .obj m.heap.length) :
    gold_stack { vm := vm
                 heap := relink_head m.heap m.vm.gold_pool m.heap.length ++ [x]
                 host := host } := by
  obtain ⟨_, _, _, hg, hall⟩ := h
  have hl := relink_head_length m.heap m.vm.gold_pool m.heap.length
  refine ⟨hvm.1, hvm.2.1, hvm.2.2.1, ?_, ?_⟩
  · simp [hvm.2.2.2, hl]
  · intro a o ho
    simp only [List.length_append, hl, List.length_singleton]
    by_cases ha : a < m.heap.length
    · have ho' : (relink_head m.heap m.vm.gold_pool m.heap.length)[a]? = some o := by
        rw [List.getElem?_append_left (by omega)] at ho; exact ho
      rw [relink_head_getElem? _ _ _ _ _ (List.getElem?_eq_getElem ha)] at ho'
      obtain ⟨h1, h2, h3⟩ := hall a _ (List.getElem?_eq_getElem ha)
      cases ho'
      have hne : ¬ (a + 1 = m.heap.length + 1) := by omega
      by_cases hlast : a + 1 = m.heap.length
      · have hgp : m.vm.gold_pool = .obj a := by
          rw [hg]; simp [show m.heap.length ≠ 0 by omega, ← hlast]
        simp [hgp, h1, h2, hne, hlast]
      · have hgp : m.vm.gold_pool ≠ .obj a := by
          rw [hg]
          by_cases h0 : m.heap.length = 0
          · simp [h0]
          · simp [h0]; omega
        simp [hgp, h1, h2, h3, hne, hlast]
    · have hlen : a < (relink_head m.heap m.vm.gold_pool m.heap.length ++ [x]).length :=
        (List.getElem?_eq_some.mp ho).1
      simp [hl] at hlen
      have ha2 : a = m.heap.length := by omega
      subst ha2
      rw [getElem?_concat_of_length _ _ _ hl] at ho
      cases ho
      refine ⟨hx.1, ?_, by simp [hx.2.2]⟩
      rw [hx.2.1, hg]

theorem ready_setup_obj_without_class {m : Mem} {k : Nat} (h : ready m (k + 1))
    (t : CarObjType) (size : Nat) (hsz : sizeof_CarObj ≤ size) :
    ∃ m', car_setup_obj_without_class m t size = some (m', .obj m.heap.length) ∧
      ready m' k ∧ m'.heap.length = m.heap.length + 1 := by
  obtain ⟨hfn, hac, hav, hgs⟩ := h
  refine ⟨_, car_setup_obj_without_class_exact m t size hfn (by omega) hsz
    (gold_stack_valid_link hgs), ⟨hfn, hac, ?_, ?_⟩, ?_⟩
  · simp [granted]; omega
  · exact gold_stack_push hgs _ _ _ ⟨rfl, rfl, rfl⟩ ⟨hgs.1, hgs.2.1, hgs.2.2.1, rfl⟩
  · simp [relink_head_length]

theorem ready_setup_obj {m : Mem} {k : Nat} (h : ready m (k + 1))
    (t : CarObjType) (size : Nat) (c : Ptr) (hsz : sizeof_CarObj ≤ size) :
    ∃ m', car_setup_obj m t size c = some (m', .obj m.heap.length) ∧
      ready m' k ∧ m'.heap.length = m.heap.length + 1 := by
  obtain ⟨hfn, hac, hav, hgs⟩ := h
  refine ⟨_, car_setup_obj_exact m t size c hfn (by omega) hsz
    (gold_stack_valid_link hgs), ⟨hfn, hac, ?_, ?_⟩, ?_⟩
  · simp [granted]; omega
  · exact gold_stack_push hgs _ _ _ ⟨rfl, rfl, rfl⟩ ⟨hgs.1, hgs.2.1, hgs.2.2.1, rfl⟩
  · simp [relink_head_length]

theorem ready_new_string {m : Mem} {k : Nat} (h : ready m (k + 1))
    (bytes : List Byte) (count : Nat) (hcount : count ≤ bytes.length)
    (hwrap : sizeof_CarString + count + 1 < SIZE_MOD) :
    ∃ m', car_new_string m bytes count = some (m', .obj m.heap.length) ∧
      ready m' k ∧ m'.heap.length = m.heap.length + 1 := by
  obtain ⟨hfn, hac, hav, hgs⟩ := h
  refine ⟨_, car_new_string_exact m bytes count hfn (by omega)
    (gold_stack_valid_link hgs) hcount hwrap, ⟨hfn, hac, ?_, ?_⟩, ?_⟩
  · simp [granted]; omega
  · exact gold_stack_push hgs _ _ _ ⟨rfl, rfl, rfl⟩ ⟨hgs.1, hgs.2.1, hgs.2.2.1, rfl⟩
  · simp [relink_head_length]

theorem ready_set_obj {m : Mem} {k : Nat} (h : ready m k) (a : Nat)
    (ha : a < m.heap.length) (f : CarObj → CarObj) (hf : keeps_links f) :
    ∃ m', set_obj m (.obj a) f = some m' ∧ ready m' k ∧
      m'.heap.length = m.heap.length := by
  obtain ⟨hfn, hac, hav, hgs⟩ := h
  refine ⟨_, set_obj_of_get (List.getElem?_eq_getElem ha) f, ⟨hfn, hac, hav, ?_⟩, by simp⟩
  obtain ⟨g1, g2, g3, g4, hall⟩ := hgs
  refine ⟨g1, g2, g3, by simpa using g4, ?_⟩
  intro b o hb
  simp only [List.length_set]
  by_cases hab : a = b
  · subst hab
    simp only [List.getElem?_set, ha, if_true] at hb
    cases hb
    obtain ⟨h1, h2, h3⟩ := hall a _ (List.getElem?_eq_getElem ha)
    obtain ⟨f1, f2, f3⟩ := hf m.heap[a]
    exact ⟨f1.trans h1, f2.trans h2, f3.trans h3⟩
  · simp only [List.getElem?_set, hab, if_false] at hb
    exact hall b o hb

theorem ready_vm {m : Mem} {k : Nat} (h : ready m k) (vm : CarVM)
    (hvm : vm.realloc_fn = m.vm.realloc_fn ∧ vm.active_color = m.vm.active_color ∧
      vm.red_pool = m.vm.red_pool ∧ vm.blue_pool = m.vm.blue_pool ∧
      vm.gold_pool = m.vm.gold_pool ∧ vm.silver_pool = m.vm.silver_pool) :
    ready { m with vm := vm } k := by
  obtain ⟨hfn, hac, hav, g1, g2, g3, g4, hall⟩ := h
  obtain ⟨v1, v2, v3, v4, v5, v6⟩ := hvm
  exact ⟨v1.trans hfn, v2.trans hac, hav, v3.trans g1, v4.trans g2, v6.trans g3,
    v5.trans g4, hall⟩

theorem ready_inc_rc {m : Mem} {k : Nat} (h : ready m k) (a : Nat)
    (ha : a < m.heap.length) :
    ∃ m', car_inc_rc m (.obj a) = some m' ∧ ready m' k ∧
      m'.heap.length = m.heap.length := by
  unfold car_inc_rc
  simp only [get_obj, List.getElem?_eq_getElem ha, obind_some]
  split
  · exact ready_set_obj h a ha _ (fun _ => ⟨rfl, rfl, rfl⟩)
  · exact ⟨m, rfl, h, rfl⟩

theorem ready_inc_rc_times {k : Nat} (a : Nat) :
    ∀ (n : Nat) {m : Mem}, ready m k → a < m.heap.length →
      ∃ m', car_inc_rc_times m (.obj a) n = some m' ∧ ready m' k ∧
        m'.heap.length = m.heap.length := by
  intro n
  induction n with
  | zero => intro m h _; exact ⟨m, rfl, h, rfl⟩
  | succ j ih =>
    intro m h ha
    obtain ⟨m1, e1, r1, l1⟩ := ready_inc_rc h a ha
    obtain ⟨m2, e2, r2, l2⟩ := ih r1 (by omega)
    refine ⟨m2, ?_, r2, by omega⟩
    simp only [car_inc_rc_times, e1, obind_some, e2]

theorem ready_recolor_obj {m : Mem} {k : Nat} (h : ready m k) (a : Nat)
    (ha : a < m.heap.length) (np : Ptr) :
    car_recolor_obj m (.obj a) m.vm.active_color np = some m := by
  obtain ⟨_, hac, _, _, _, _, _, hall⟩ := h
  have hc := (hall a _ (List.getElem?_eq_getElem ha)).1
  unfold car_recolor_obj
  simp [get_obj, List.getElem?_eq_getElem ha, hac, hc]

theorem ready_new_string_from_cstring {m : Mem} {k : Nat} (h : ready m (k + 1))
    (string : List Byte) (hs : cstring_fits string) :
    ∃ m', car_new_string_from_cstring m string = some (m', .obj m.heap.length) ∧
      ready m' k ∧ m'.heap.length = m.heap.length + 1 := by
  obtain ⟨n, hn, hw⟩ := hs
  unfold car_new_string_from_cstring
  rw [hn]
  exact ready_new_string h string n (by have := (strlen_eq_some hn).1; omega) hw

theorem ready_new_class {m : Mem} {k : Nat} (h : ready m (k + 4)) (name : List Byte)
    (superclass : Ptr) (np : Nat → Ptr) (hn : name_fits name) :
    ∃ m', car_new_class m name superclass np = some (m', .obj (m.heap.length + 3)) ∧
      ready m' k ∧ m'.heap.length = m.heap.length + 4 := by
  obtain ⟨hname, buf, hbuf, hfits⟩ := hn
  unfold metaclass_name at hbuf
  obtain ⟨b0, hb0, hcat⟩ := obind_eq_some.mp hbuf
  obtain ⟨m1, e1, r1, l1⟩ := ready_new_string_from_cstring (k := k + 3) h name hname
  obtain ⟨m2, e2, r2, l2⟩ := ready_new_string_from_cstring (k := k + 2) r1 buf hfits
  obtain ⟨m3, e3, r3, l3⟩ := ready_setup_obj (k := k + 1) r2 CAR_CLASS sizeof_CarClass
    m2.vm.class_class (by decide)
  obtain ⟨m4, e4, r4, l4⟩ := ready_setup_obj (k := k) r3 CAR_CLASS sizeof_CarClass
    (.obj m2.heap.length) (by decide)
  obtain ⟨m5, e5, r5, l5⟩ := ready_set_obj r4 m2.heap.length (by omega)
    (fun o => { o with name := some (.obj m1.heap.length) }) (fun _ => ⟨rfl, rfl, rfl⟩)
  obtain ⟨m6, e6, r6, l6⟩ := ready_set_obj r5 m2.heap.length (by omega)
    (fun o => { o with superclass := some m5.vm.class_class }) (fun _ => ⟨rfl, rfl, rfl⟩)
  obtain ⟨m7, e7, r7, l7⟩ := ready_set_obj r6 m2.heap.length (by omega)
    (fun o => { o with num_fields := some 0 }) (fun _ => ⟨rfl, rfl, rfl⟩)
  obtain ⟨m8, e8, r8, l8⟩ := ready_set_obj r7 m3.heap.length (by omega)
    (fun o => { o with name := some (.obj m.heap.length) }) (fun _ => ⟨rfl, rfl, rfl⟩)
  obtain ⟨m9, e9, r9, l9⟩ := ready_set_obj r8 m3.heap.length (by omega)
    (fun o => { o with superclass := some superclass }) (fun _ => ⟨rfl, rfl, rfl⟩)
  obtain ⟨m10, e10, r10, l10⟩ := ready_set_obj r9 m3.heap.length (by omega)
    (fun o => { o with num_fields := some 0 }) (fun _ => ⟨rfl, rfl, rfl⟩)
  have e11 := ready_recolor_obj r10 m2.heap.length (by omega) (np 0)
  have e12 := ready_recolor_obj r10 m1.heap.length (by omega) (np 1)
  have e13 := ready_recolor_obj r10 m.heap.length (by omega) (np 2)
  refine ⟨m10, ?_, r10, by omega⟩
  unfold car_new_class
  simp only [hb0, hcat, obind_some, e1, e2, e3, e4, e5, e6, e7, e8, e9, e10, e11, e12, e13]
  rw [l3, l2, l1]

theorem ready_new_vm_name {m : Mem} {k : Nat} (h : ready m (k + 1)) (a : Nat)
    (ha : a < m.heap.length) (name : List Byte) (hs : cstring_fits name) :
    ∃ m', car_new_vm_name m (.obj a) name = some m' ∧ ready m' k ∧
      m'.heap.length = m.heap.length + 1 := by
  obtain ⟨m1, e1, r1, l1⟩ := ready_new_string_from_cstring h name hs
  obtain ⟨m2, e2, r2, l2⟩ := ready_set_obj r1 a (by omega)
    (fun o => { o with name := some (.obj m.heap.length) }) (fun _ => ⟨rfl, rfl, rfl⟩)
  refine ⟨m2, ?_, r2, by omega⟩
  unfold car_new_vm_name
  simp only [e1, obind_some, e2]

theorem ready_new_vm_class {m : Mem} {k : Nat} (h : ready m (k + 4)) (name : List Byte)
    (superclass : Ptr) (np : Nat → Ptr) (store : CarVM → Ptr → CarVM)
    (hn : name_fits name)
    (hs : ∀ vm c, (store vm c).realloc_fn = vm.realloc_fn ∧
      (store vm c).active_color = vm.active_color ∧
      (store vm c).red_pool = vm.red_pool ∧ (store vm c).blue_pool = vm.blue_pool ∧
      (store vm c).gold_pool = vm.gold_pool ∧ (store vm c).silver_pool = vm.silver_pool) :
    ∃ m', car_new_vm_class m name superclass np store = some m' ∧ ready m' k ∧
      m'.heap.length = m.heap.length + 4 := by
  obtain ⟨m1, e1, r1, l1⟩ := ready_new_class h name superclass np hn
  refine ⟨_, ?_, ready_vm r1 (store m1.vm (.obj (m.heap.length + 3))) (hs _ _), l1⟩
  unfold car_new_vm_class
  simp only [e1, obind_some]

set_option maxRecDepth 100000 in
/-- `car_new_vm` returns whenever the callback is a host allocator that grants its 47
requests and the `active_color` of the fresh `CarVM` block reads as `CAR_GOLD`; all 46
objects are then on the gold stack. -/
theorem car_new_vm_returns (config : CarConfig) (host : Host) (block : CarVM)
    (junk : Nat → Nat → Ptr) (hfn : config.realloc_fn = .host) (hav : 47 ≤ host.avail)
    (hac : block.active_color = CAR_GOLD) :
    ∃ m, car_new_vm config host block junk = some m ∧ ready m 0 ∧ m.heap.length = 46 := by
  have e0 : call_realloc config.realloc_fn host .vm .null sizeof_CarVM =
      some ({ avail := host.avail - 1, calls := host.calls ++ [(.null, sizeof_CarVM)] }, .vm) := by
    have : host.avail ≠ 0 := by omega
    simp [call_realloc, hfn, car_default_realloc, sizeof_CarVM, this]
  have r0 : ready
      { vm := { block with
          userdata := config.userdata
          realloc_fn := config.realloc_fn
          red_pool := .null
          blue_pool := .null
          gold_pool := .null
          silver_pool := .null }
        heap := []
        host := { avail := host.avail - 1, calls := host.calls ++ [(.null, sizeof_CarVM)] } }
      46 := by
    refine ⟨hfn, hac, ?_, rfl, rfl, rfl, rfl, ?_⟩
    · show 46 ≤ host.avail - 1
      omega
    · intro a o ho
      simp at ho
  obtain ⟨m1, e1, r1, l1⟩ := ready_setup_obj_without_class (k := 45) r0
    CAR_CLASS sizeof_CarClass (by decide)
  simp only [List.length_nil] at e1 l1
  obtain ⟨m2, e2, r2, l2⟩ := ready_setup_obj_without_class (k := 44) r1
    CAR_CLASS sizeof_CarClass (by decide)
  rw [l1] at e2 l2
  obtain ⟨m3, e3, r3, l3⟩ := ready_setup_obj_without_class (k := 43) r2
    CAR_CLASS sizeof_CarClass (by decide)
  rw [l2] at e3 l3
  obtain ⟨m4, e4, r4, l4⟩ := ready_setup_obj_without_class (k := 42) r3
    CAR_CLASS sizeof_CarClass (by decide)
  rw [l3] at e4 l4
  obtain ⟨m5, e5, r5, l5⟩ := ready_setup_obj_without_class (k := 41) r4
    CAR_CLASS sizeof_CarClass (by decide)
  rw [l4] at e5 l5
  obtain ⟨m6, e6, r6, l6⟩ := ready_set_obj r5 0 (by omega)
    (fun o => { o with class_ := .obj 1 }) (fun _ => ⟨rfl, rfl, rfl⟩)
  rw [l5] at l6
  obtain ⟨m7, e7, r7, l7⟩ := ready_set_obj r6 1 (by omega)
    (fun o => { o with class_ := .obj 2 }) (fun _ => ⟨rfl, rfl, rfl⟩)
  rw [l6] at l7
  obtain ⟨m8, e8, r8, l8⟩ := ready_set_obj r7 2 (by omega)
    (fun o => { o with class_ := .obj 2 }) (fun _ => ⟨rfl, rfl, rfl⟩)
  rw [l7] at l8
  obtain ⟨m9, e9, r9, l9⟩ := ready_set_obj r8 3 (by omega)
    (fun o => { o with class_ := .obj 4 }) (fun _ => ⟨rfl, rfl, rfl⟩)
  rw [l8] at l9
  obtain ⟨m10, e10, r10, l10⟩ := ready_set_obj r9 4 (by omega)
    (fun o => { o with class_ := .obj 2 }) (fun _ => ⟨rfl, rfl, rfl⟩)
  rw [l9] at l10
  obtain ⟨m11, e11, r11, l11⟩ := ready_set_obj r10 0 (by omega)
    (fun o => { o with superclass := some .null }) (fun _ => ⟨rfl, rfl, rfl⟩)
  rw [l10] at l11
  obtain ⟨m12, e12, r12, l12⟩ := ready_set_obj r11 1 (by omega)
    (fun o => { o with superclass := some (.obj 2) }) (fun _ => ⟨rfl, rfl, rfl⟩)
  rw [l11] at l12
  obtain ⟨m13, e13, r13, l13⟩ := ready_set_obj r12 2 (by omega)
    (fun o => { o with superclass := some (.obj 0) }) (fun _ => ⟨rfl, rfl, rfl⟩)
  rw [l12] at l13
  obtain ⟨m14, e14, r14, l14⟩ := ready_set_obj r13 3 (by omega)
    (fun o => { o with superclass := some (.obj 0) }) (fun _ => ⟨rfl, rfl, rfl⟩)
  rw [l13] at l14
  obtain ⟨m15, e15, r15, l15⟩ := ready_set_obj r14 4 (by omega)
    (fun o => { o with superclass := some (.obj 2) }) (fun _ => ⟨rfl, rfl, rfl⟩)
  rw [l14] at l15
  have r15b := ready_vm r15
    { { { m15.vm with class_class := .obj 2 } with obj_class := .obj 0 } with
      string_class := .obj 3 }
    ⟨rfl, rfl, rfl, rfl, rfl, rfl⟩
  obtain ⟨m16, e16, r16, l16⟩ := ready_inc_rc_times 0 2 r15b (by
    show 0 < m15.heap.length
    omega)
  replace l16 : m16.heap.length = 5 := l16.trans l15
  obtain ⟨m17, e17, r17, l17⟩ := ready_inc_rc_times 1 1 r16 (by
    omega)
  rw [l16] at l17
  obtain ⟨m18, e18, r18, l18⟩ := ready_inc_rc_times 2 5 r17 (by
    omega)
  rw [l17] at l18
  obtain ⟨m19, e19, r19, l19⟩ := ready_inc_rc_times 3 0 r18 (by
    omega)
  rw [l18] at l19
  obtain ⟨m20, e20, r20, l20⟩ := ready_inc_rc_times 4 1 r19 (by
    omega)
  rw [l19] at l20
  obtain ⟨m21, e21, r21, l21⟩ := ready_new_vm_name (k := 40) r20 0 (by omega)
    (cstr "Obj") ⟨_, rfl, by decide⟩
  rw [l20] at l21
  obtain ⟨m22, e22, r22, l22⟩ := ready_new_vm_name (k := 39) r21 1 (by omega)
    (cstr "Obj metaclass") ⟨_, rfl, by decide⟩
  rw [l21] at l22
  obtain ⟨m23, e23, r23, l23⟩ := ready_new_vm_name (k := 38) r22 2 (by omega)
    (cstr "Class") ⟨_, rfl, by decide⟩
  rw [l22] at l23
  obtain ⟨m24, e24, r24, l24⟩ := ready_new_vm_name (k := 37) r23 3 (by omega)
    (cstr "String") ⟨_, rfl, by decide⟩
  rw [l23] at l24
  obtain ⟨m25, e25, r25, l25⟩ := ready_new_vm_name (k := 36) r24 4 (by omega)
    (cstr "String metaclass") ⟨_, rfl, by decide⟩
  rw [l24] at l25
  obtain ⟨m26, e26, r26, l26⟩ := ready_new_vm_class (k := 32) r25 (cstr "Sequence")
    m25.vm.obj_class (junk 0) (fun vm c => { vm with sequence_class := c })
    ⟨⟨_, rfl, by decide⟩, _, rfl, _, rfl, by decide⟩ (fun _ _ => ⟨rfl, rfl, rfl, rfl, rfl, rfl⟩)
  rw [l25] at l26
  obtain ⟨m27, e27, r27, l27⟩ := ready_new_vm_class (k := 28) r26 (cstr "Bool")
    m26.vm.obj_class (junk 1) (fun vm c => { vm with bool_class := c })
    ⟨⟨_, rfl, by decide⟩, _, rfl, _, rfl, by decide⟩ (fun _ _ => ⟨rfl, rfl, rfl, rfl, rfl, rfl⟩)
  rw [l26] at l27
  obtain ⟨m28, e28, r28, l28⟩ := ready_new_vm_class (k := 24) r27 (cstr "Fn")
    m27.vm.obj_class (junk 2) (fun vm c => { vm with fn_class := c })
    ⟨⟨_, rfl, by decide⟩, _, rfl, _, rfl, by decide⟩ (fun _ _ => ⟨rfl, rfl, rfl, rfl, rfl, rfl⟩)
  rw [l27] at l28
  obtain ⟨m29, e29, r29, l29⟩ := ready_new_vm_class (k := 20) r28 (cstr "List")
    m28.vm.sequence_class (junk 3) (fun vm c => { vm with list_class := c })
    ⟨⟨_, rfl, by decide⟩, _, rfl, _, rfl, by decide⟩ (fun _ _ => ⟨rfl, rfl, rfl, rfl, rfl, rfl⟩)
  rw [l28] at l29
  obtain ⟨m30, e30, r30, l30⟩ := ready_new_vm_class (k := 16) r29 (cstr "Map")
    m29.vm.sequence_class (junk 4) (fun vm c => { vm with map_class := c })
    ⟨⟨_, rfl, by decide⟩, _, rfl, _, rfl, by decide⟩ (fun _ _ => ⟨rfl, rfl, rfl, rfl, rfl, rfl⟩)
  rw [l29] at l30
  obtain ⟨m31, e31, r31, l31⟩ := ready_new_vm_class (k := 12) r30 (cstr "Null")
    m30.vm.obj_class (junk 5) (fun vm c => { vm with null_class := c })
    ⟨⟨_, rfl, by decide⟩, _, rfl, _, rfl, by decide⟩ (fun _ _ => ⟨rfl, rfl, rfl, rfl, rfl, rfl⟩)
  rw [l30] at l31
  obtain ⟨m32, e32, r32, l32⟩ := ready_new_vm_class (k := 8) r31 (cstr "Num")
    m31.vm.obj_class (junk 6) (fun vm c => { vm with num_class := c })
    ⟨⟨_, rfl, by decide⟩, _, rfl, _, rfl, by decide⟩ (fun _ _ => ⟨rfl, rfl, rfl, rfl, rfl, rfl⟩)
  rw [l31] at l32
  obtain ⟨m33, e33, r33, l33⟩ := ready_new_vm_class (k := 4) r32 (cstr "Range")
    m32.vm.sequence_class (junk 7) (fun vm c => { vm with range_class := c })
    ⟨⟨_, rfl, by decide⟩, _, rfl, _, rfl, by decide⟩ (fun _ _ => ⟨rfl, rfl, rfl, rfl, rfl, rfl⟩)
  rw [l32] at l33
  obtain ⟨m34, e34, r34, l34⟩ := ready_new_vm_class (k := 0) r33 (cstr "System")
    m33.vm.obj_class (junk 8) (fun vm c => { vm with system_class := c })
    ⟨⟨_, rfl, by decide⟩, _, rfl, _, rfl, by decide⟩ (fun _ _ => ⟨rfl, rfl, rfl, rfl, rfl, rfl⟩)
  rw [l33] at l34
  refine ⟨m34, ?_, r34, l34⟩
  unfold car_new_vm
  refine obind_eq_some.mpr ⟨_, e0, ?_⟩
  rw [if_neg (by simp)]
  refine obind_eq_some.mpr ⟨_, e1, ?_⟩
  refine obind_eq_some.mpr ⟨_, e2, ?_⟩
  refine obind_eq_some.mpr ⟨_, e3, ?_⟩
  refine obind_eq_some.mpr ⟨_, e4, ?_⟩
  refine obind_eq_some.mpr ⟨_, e5, ?_⟩
  refine obind_eq_some.mpr ⟨_, e6, ?_⟩
  refine obind_eq_some.mpr ⟨_, e7, ?_⟩
  refine obind_eq_some.mpr ⟨_, e8, ?_⟩
  refine obind_eq_some.mpr ⟨_, e9, ?_⟩
  refine obind_eq_some.mpr ⟨_, e10, ?_⟩
  refine obind_eq_some.mpr ⟨_, e11, ?_⟩
  refine obind_eq_some.mpr ⟨_, e12, ?_⟩
  refine obind_eq_some.mpr ⟨_, e13, ?_⟩
  refine obind_eq_some.mpr ⟨_, e14, ?_⟩
  refine obind_eq_some.mpr ⟨_, e15, ?_⟩
  refine obind_eq_some.mpr ⟨_, e16, ?_⟩
  refine obind_eq_some.mpr ⟨_, e17, ?_⟩
  refine obind_eq_some.mpr ⟨_, e18, ?_⟩
  refine obind_eq_some.mpr ⟨_, e19, ?_⟩
  refine obind_eq_some.mpr ⟨_, e20, ?_⟩
  refine obind_eq_some.mpr ⟨_, e21, ?_⟩
  refine obind_eq_some.mpr ⟨_, e22, ?_⟩
  refine obind_eq_some.mpr ⟨_, e23, ?_⟩
  refine obind_eq_some.mpr ⟨_, e24, ?_⟩
  refine obind_eq_some.mpr ⟨_, e25, ?_⟩
  refine obind_eq_some.mpr ⟨_, e26, ?_⟩
  refine obind_eq_some.mpr ⟨_, e27, ?_⟩
  refine obind_eq_some.mpr ⟨_, e28, ?_⟩
  refine obind_eq_some.mpr ⟨_, e29, ?_⟩
  refine obind_eq_some.mpr ⟨_, e30, ?_⟩
  refine obind_eq_some.mpr ⟨_, e31, ?_⟩
  refine obind_eq_some.mpr ⟨_, e32, ?_⟩
  refine obind_eq_some.mpr ⟨_, e33, ?_⟩
  refine obind_eq_some.mpr ⟨_, e34, ?_⟩
  rfl

theorem gold_stack_walk {m : Mem} (h : gold_stack m) :
    ∀ (k : Nat), k ≤ m.heap.length → ∀ (fuel : Nat), k ≤ fuel →
      walk_pool m fuel (if k = m.heap.length then .pool_of CAR_GOLD else .next_of k)
        (if k = 0 then .null else .obj (k - 1)) = some (List.range k).reverse := by
  obtain ⟨_, _, _, _, hall⟩ := h
  intro k
  induction k with
  | zero => intro _ fuel _; simp [walk_pool_null]
  | succ j ih =>
    intro hj fuel hf
    obtain ⟨f, rfl⟩ : ∃ f, fuel = f + 1 := ⟨fuel - 1, by omega⟩
    have hlt : j < m.heap.length := by omega
    obtain ⟨_, h2, h3⟩ := hall j _ (List.getElem?_eq_getElem hlt)
    have hne : ¬ (j = m.heap.length) := by omega
    have ih' := ih (by omega) f (by omega)
    simp only [hne, if_false] at ih'
    simp only [Nat.add_sub_cancel, Nat.succ_ne_zero, if_false, walk_pool_obj,
      List.getElem?_eq_getElem hlt, h3, if_true, h2, ih', Option.map_some',
      List.range_succ, List.reverse_append, List.reverse_singleton, List.singleton_append]

/-- On the gold stack the pool invariant holds and every color tag names its pool -/
theorem gold_stack_pools_ok {m : Mem} (h : gold_stack m) : pools_ok m ∧ colors_ok m := by
  have hw := gold_stack_walk h m.heap.length (le_refl _) m.heap.length (le_refl _)
  obtain ⟨g1, g2, g3, g4, hall⟩ := h
  simp only [if_true] at hw
  rw [← g4] at hw
  have hr : pool_members m CAR_RED = some [] := by
    simp [pool_members, pool, g1, walk_pool_null]
  have hb : pool_members m CAR_BLUE = some [] := by
    simp [pool_members, pool, g2, walk_pool_null]
  have hs : pool_members m CAR_SILVER = some [] := by
    simp [pool_members, pool, g3, walk_pool_null]
  have hg : pool_members m CAR_GOLD = some (List.range m.heap.length).reverse := hw
  refine ⟨⟨_, _, _, _, hg, hs, hr, hb, by simpa using List.reverse_perm _⟩, ?_⟩
  intro c l hl a ha
  cases c with
  | CAR_GOLD =>
    rw [hg] at hl
    cases hl
    have hlt : a < m.heap.length := by simpa using ha
    exact ⟨_, List.getElem?_eq_getElem hlt, (hall a _ (List.getElem?_eq_getElem hlt)).1⟩
  | CAR_SILVER => rw [hs] at hl; cases hl; simp at ha
  | CAR_RED => rw [hr] at hl; cases hl; simp at ha
  | CAR_BLUE => rw [hb] at hl; cases hl; simp at ha

theorem walk_pool_congr {m1 m2 : Mem} (hh : m1.heap = m2.heap) :
    ∀ (fuel : Nat) (slot p : Ptr), walk_pool m1 fuel slot p = walk_pool m2 fuel slot p := by
  intro fuel
  induction fuel with
  | zero => intro slot p; cases p <;> rfl
  | succ k ih =>
    intro slot p
    cases p with
    | obj a => simp only [walk_pool_obj, hh, ih]
    | _ => rfl

theorem pools_ok_congr {m1 m2 : Mem} (hh : m1.heap = m2.heap)
    (hp : ∀ c, pool m1.vm c = pool m2.vm c) (h : pools_ok m2) : pools_ok m1 := by
  obtain ⟨g, s, r, b, hg, hs, hr, hb, hperm⟩ := h
  refine ⟨g, s, r, b, ?_, ?_, ?_, ?_, by rw [hh]; exact hperm⟩ <;>
    simp only [pool_members, walk_pool_congr hh, hp, hh] <;> assumption

/-- `car_new_class` in a VM whose `active_color` is not `CAR_GOLD`: its last
`car_recolor_obj` call, on the new name string, passes the early return, so the pool
invariant does not hold afterwards. -/
theorem car_new_class_breaks_pools {m m' : Mem} {name : List Byte} {superclass p : Ptr}
    {np : Nat → Ptr} (h : car_new_class m name superclass np = some (m', p))
    (hac : m.vm.active_color ≠ CAR_GOLD) : ¬ pools_ok m' := by
  obtain ⟨buf, n, k, -, -, -, -, hc, hv, -⟩ := car_new_class_cores h
  unfold car_new_class at h
  obtain ⟨b0, -, h⟩ := obind_eq_some.mp h
  obtain ⟨buf', -, h⟩ := obind_eq_some.mp h
  obtain ⟨⟨m1, p1⟩, h1, h⟩ := obind_eq_some.mp h
  obtain ⟨⟨m2, p2⟩, -, h⟩ := obind_eq_some.mp h
  obtain ⟨⟨m3, p3⟩, -, h⟩ := obind_eq_some.mp h
  obtain ⟨⟨m4, p4⟩, -, h⟩ := obind_eq_some.mp h
  obtain ⟨m5, -, h⟩ := obind_eq_some.mp h
  obtain ⟨m6, -, h⟩ := obind_eq_some.mp h
  obtain ⟨m7, -, h⟩ := obind_eq_some.mp h
  obtain ⟨m8, -, h⟩ := obind_eq_some.mp h
  obtain ⟨m9, -, h⟩ := obind_eq_some.mp h
  obtain ⟨m10, -, h⟩ := obind_eq_some.mp h
  obtain ⟨m11, -, h⟩ := obind_eq_some.mp h
  obtain ⟨m12, -, h⟩ := obind_eq_some.mp h
  obtain ⟨m13, h13, h⟩ := obind_eq_some.mp h
  cases h
  obtain ⟨-, -, rfl, -⟩ := car_new_string_from_cstring_cores h1
  simp only at h13
  obtain ⟨c13, v13, -⟩ := car_recolor_obj_links h13
  have hc12 : (m12.heap.map core)[m.heap.length]?
      = some (core (string_obj m.vm.string_class .null (name.take n))) := by
    rw [← c13, hc, List.getElem?_append_right (by simp)]
    simp
  simp only [List.getElem?_map, Option.map_eq_some'] at hc12
  obtain ⟨o, ho, hco⟩ := hc12
  have hcol : o.color = CAR_GOLD := by
    have := congrArg CarObj.color hco
    simpa [core, string_obj, fresh_obj] using this
  have hact : m12.vm.active_color = m.vm.active_color :=
    vm_core_proj CarVM.active_color (fun _ => rfl) (v13.symm.trans hv)
  exact car_recolor_obj_breaks_pools h13 ho (by rw [hact, hcol]; exact hac)

set_option maxRecDepth 100000 in
/-- A run of `car_new_vm` in which the `active_color` of the fresh `CarVM` block does not
read as `CAR_GOLD` returns, if at all, a VM for which the pool invariant fails. -/
theorem car_new_vm_breaks_pools {config : CarConfig} {host : Host} {block : CarVM}
    {junk : Nat → Nat → Ptr} {m : Mem} (h : car_new_vm config host block junk = some m)
    (hac : block.active_color ≠ CAR_GOLD) : ¬ pools_ok m := by
  have hfin := car_new_vm_cores h
  unfold car_new_vm at h
  obtain ⟨r0, -, h0⟩ := obind_eq_some.mp h
  clear h
  split at h0
  · cases h0
  obtain ⟨⟨m1, p1⟩, -, h1⟩ := obind_eq_some.mp h0
  clear h0
  obtain ⟨⟨m2, p2⟩, -, h2⟩ := obind_eq_some.mp h1
  clear h1
  obtain ⟨⟨m3, p3⟩, -, h3⟩ := obind_eq_some.mp h2
  clear h2
  obtain ⟨⟨m4, p4⟩, -, h4⟩ := obind_eq_some.mp h3
  clear h3
  obtain ⟨⟨m5, p5⟩, -, h5⟩ := obind_eq_some.mp h4
  clear h4
  obtain ⟨m6, -, h6⟩ := obind_eq_some.mp h5
  clear h5
  obtain ⟨m7, -, h7⟩ := obind_eq_some.mp h6
  clear h6
  obtain ⟨m8, -, h8⟩ := obind_eq_some.mp h7
  clear h7
  obtain ⟨m9, -, h9⟩ := obind_eq_some.mp h8
  clear h8
  obtain ⟨m10, -, h10⟩ := obind_eq_some.mp h9
  clear h9
  obtain ⟨m11, -, h11⟩ := obind_eq_some.mp h10
  clear h10
  obtain ⟨m12, -, h12⟩ := obind_eq_some.mp h11
  clear h11
  obtain ⟨m13, -, h13⟩ := obind_eq_some.mp h12
  clear h12
  obtain ⟨m14, -, h14⟩ := obind_eq_some.mp h13
  clear h13
  obtain ⟨m15, -, h15⟩ := obind_eq_some.mp h14
  clear h14
  obtain ⟨m16, -, h16⟩ := obind_eq_some.mp h15
  clear h15
  obtain ⟨m17, -, h17⟩ := obind_eq_some.mp h16
  clear h16
  obtain ⟨m18, -, h18⟩ := obind_eq_some.mp h17
  clear h17
  obtain ⟨m19, -, h19⟩ := obind_eq_some.mp h18
  clear h18
  obtain ⟨m20, -, h20⟩ := obind_eq_some.mp h19
  clear h19
  obtain ⟨m21, -, h21⟩ := obind_eq_some.mp h20
  clear h20
  obtain ⟨m22, -, h22⟩ := obind_eq_some.mp h21
  clear h21
  obtain ⟨m23, -, h23⟩ := obind_eq_some.mp h22
  clear h22
  obtain ⟨m24, -, h24⟩ := obind_eq_some.mp h23
  clear h23
  obtain ⟨m25, -, h25⟩ := obind_eq_some.mp h24
  clear h24
  obtain ⟨m26, -, h26⟩ := obind_eq_some.mp h25
  clear h25
  obtain ⟨m27, -, h27⟩ := obind_eq_some.mp h26
  clear h26
  obtain ⟨m28, -, h28⟩ := obind_eq_some.mp h27
  clear h27
  obtain ⟨m29, -, h29⟩ := obind_eq_some.mp h28
  clear h28
  obtain ⟨m30, -, h30⟩ := obind_eq_some.mp h29
  clear h29
  obtain ⟨m31, -, h31⟩ := obind_eq_some.mp h30
  clear h30
  obtain ⟨m32, -, h32⟩ := obind_eq_some.mp h31
  clear h31
  obtain ⟨m33, -, h33⟩ := obind_eq_some.mp h32
  clear h32
  obtain ⟨m34, s34, h34⟩ := obind_eq_some.mp h33
  clear h33
  cases h34
  unfold car_new_vm_class at s34
  obtain ⟨⟨m', p'⟩, hcl, hst⟩ := obind_eq_some.mp s34
  cases hst
  obtain ⟨-, -, hv', -⟩ := car_new_class_objs hcl
  have hact : m33.vm.active_color = block.active_color := by
    have h1 := congrArg CarVM.active_color hfin.2
    exact (vm_core_proj CarVM.active_color (fun _ => rfl) hv').symm.trans h1
  intro hok
  have hok' : pools_ok m' := pools_ok_congr (by rfl) (fun c => by cases c <;> rfl) hok
  exact car_new_class_breaks_pools hcl (by rw [hact]; exact hac) hok'

/-- With a host allocator that grants the 47 requests and an `active_color` that reads as
`CAR_GOLD`, `car_new_vm` returns a VM for which the pool invariant holds and every color
tag names its pool. -/
theorem car_new_vm_gold_pools_ok (config : CarConfig) (host : Host) (block : CarVM)
    (junk : Nat → Nat → Ptr) (hfn : config.realloc_fn = .host) (hav : 47 ≤ host.avail)
    (hac : block.active_color = CAR_GOLD) :
    ∃ m, car_new_vm config host block junk = some m ∧ pools_ok m ∧ colors_ok m := by
  obtain ⟨m, hm, hr, -⟩ := car_new_vm_returns config host block junk hfn hav hac
  exact ⟨m, hm, gold_stack_pools_ok hr.2.2.2⟩

/-! ## The hash of a concatenation -/

theorem xor_fold_init (l : List Byte) : ∀ init, xor_fold l init = init ^^^ xor_fold l 0 := by
  induction l with
  | nil => intro init; simp [xor_fold]
  | cons x t ih =>
    intro init
    have h1 : xor_fold (x :: t) init = xor_fold t (init ^^^ x.val) := rfl
    have h2 : xor_fold (x :: t) 0 = xor_fold t (0 ^^^ x.val) := rfl
    rw [h1, h2, ih (init ^^^ x.val), ih (0 ^^^ x.val), Nat.zero_xor, Nat.xor_assoc]

theorem xor_fold_append (a b : List Byte) :
    xor_fold (a ++ b) 0 = xor_fold a 0 ^^^ xor_fold b 0 := by
  have h : xor_fold (a ++ b) 0 = xor_fold b (xor_fold a 0) := by
    simp [xor_fold, List.foldl_append]
  rw [h, xor_fold_init b (xor_fold a 0)]

/-- C18: `car_hash_bytes` maps concatenation to XOR: the hash of the empty sequence is 0,
the hash of `a ++ b` is the XOR of the hashes of `a` and of `b`, and so the hash of a
sequence is the hash of every permutation of it. -/
theorem car_hash_bytes_append_xor (a b : List Byte) :
    car_hash_bytes [] 0 = some 0 ∧
    (∃ ha hb, car_hash_bytes a a.length = some ha ∧ car_hash_bytes b b.length = some hb ∧
      car_hash_bytes (a ++ b) (a ++ b).length = some (ha ^^^ hb)) ∧
    ∀ c : List Byte, a.Perm c → car_hash_bytes c c.length = car_hash_bytes a a.length := by
  refine ⟨rfl, ⟨xor_fold a 0, xor_fold b 0, car_hash_bytes_eq_fold a,
    car_hash_bytes_eq_fold b, ?_⟩, ?_⟩
  · rw [car_hash_bytes_eq_fold, xor_fold_append]
  · intro c hc
    rw [car_hash_bytes_eq_fold, car_hash_bytes_eq_fold, xor_fold_perm hc]

/-- Witness for C18: "ab" followed by "c", and the permutation "ba" of "ab" -/
theorem car_hash_bytes_append_xor_witness :
    car_hash_bytes [97, 98] 2 = some 3 ∧ car_hash_bytes [99] 1 = some 99 ∧
      car_hash_bytes [97, 98, 99] 3 = some (3 ^^^ 99) ∧
      car_hash_bytes [98, 97] 2 = car_hash_bytes [97, 98] 2 := by
  obtain ⟨-, ⟨ha, hb, h1, h2, h3⟩, h4⟩ := car_hash_bytes_append_xor [97, 98] [99]
  have e1 : car_hash_bytes [97, 98] 2 = some 3 := by decide
  have e2 : car_hash_bytes [99] 1 = some 99 := by decide
  have ea : ha = 3 := Option.some.inj (h1.symm.trans e1)
  have eb : hb = 99 := Option.some.inj (h2.symm.trans e2)
  subst ea eb
  exact ⟨e1, e2, h3, h4 [98, 97] (by decide)⟩

/-! ## `car_recolor_obj` with the color the object has -/

/-- C19: `car_recolor_obj(vm, obj, new_color)` with `new_color` equal to the color tag of
`obj` changes nothing: the memory after the call (every pool head, every object with its
links, color and reference count, and the allocator) is the memory before it. -/
theorem car_recolor_obj_same_color (m : Mem) (obj : Ptr) (o : CarObj) (np : Ptr)
    (h : get_obj m obj = some o) :
    car_recolor_obj m obj o.color np = some m := by
  unfold car_recolor_obj
  simp [h]

/-- Witness for C19: the one object of a gold pool, recolored gold -/
theorem car_recolor_obj_same_color_witness :
    car_recolor_obj (mem_one 0) (.obj 0) CAR_GOLD .stack = some (mem_one 0) :=
  car_recolor_obj_same_color (mem_one 0) (.obj 0) (fresh_obj CAR_STRING .null) .stack rfl

/-! ## The metaclass name buffer of `car_new_class` -/

theorem findIdx_take (p : Byte → Bool) (l : List Byte) :
    ∀ m, (l.take m).findIdx p = min (l.findIdx p) m := by
  induction l with
  | nil => intro m; simp
  | cons x t ih =>
    intro m
    cases m with
    | zero => simp
    | succ m =>
      simp only [List.take_succ_cons, List.findIdx_cons, ih m]
      cases p x <;> simp [Nat.succ_min_succ]

theorem strlen_append_zero (a r : List Byte) (h : ∀ x ∈ a, x ≠ 0) :
    strlen (a ++ 0 :: r) = some a.length := by
  have h1 : a.findIdx (fun b => decide (b = 0)) = a.length :=
    List.findIdx_eq_length.mpr (fun x hx => by simpa using h x hx)
  unfold strlen
  rw [List.findIdx_append, h1]
  simp [List.findIdx_cons]

theorem strlen_take_no_zero {s : List Byte} {n : Nat} (h : strlen s = some n) (c : Nat)
    (hc : c ≤ n) : ∀ x ∈ s.take c, x ≠ 0 := by
  unfold strlen at h
  split at h
  · cases h
    intro x hx
    obtain ⟨i, hi, rfl⟩ := List.getElem_of_mem hx
    have hi2 : i < c := Nat.lt_of_lt_of_le hi (List.length_take_le c s)
    have hfi : i < s.findIdx (fun b : Byte => decide (b = 0)) := by omega
    have := List.not_of_lt_findIdx hfi
    rw [List.getElem_take]
    simpa using this
  · cases h

theorem strncpy_of_strlen {name : List Byte} {n : Nat} (h : strlen name = some n) :
    strncpy [] name MAX_CLASS_NAME = some (name.take (min n MAX_CLASS_NAME)
      ++ List.replicate (MAX_CLASS_NAME - min n MAX_CLASS_NAME) 0) := by
  obtain ⟨hlt, hn⟩ := strlen_eq_some h
  unfold strncpy
  simp only [findIdx_take, ← hn, List.length_take, List.drop_nil, List.append_nil]
  rw [if_pos]
  unfold MAX_CLASS_NAME
  omega

set_option maxRecDepth 100000 in
theorem strlen_metaclass_suffix : strlen (cstr " metaclass") = some 10 := by
  decide

theorem metaclass_name_of_strlen {name : List Byte} {n : Nat} (h : strlen name = some n) :
    metaclass_name name = some (name.take (min n MAX_CLASS_NAME)
      ++ (cstr " metaclass").take 10
      ++ 0 :: List.replicate (54 - min n MAX_CLASS_NAME) 0) := by
  obtain ⟨hlt, hn⟩ := strlen_eq_some h
  have hz := strlen_take_no_zero h (min n MAX_CLASS_NAME) (Nat.min_le_left _ _)
  have hM : MAX_CLASS_NAME = 64 := rfl
  unfold metaclass_name
  rw [strncpy_of_strlen h, obind_some]
  rw [hM] at hz ⊢
  generalize hc : min n 64 = c at hz ⊢
  have hc64 : c ≤ 64 := by omega
  have hl : (name.take c).length = c := by
    rw [List.length_take]; omega
  have hs : store_byte (name.take c ++ List.replicate (64 - c) 0) 64 0
      = name.take c ++ 0 :: List.replicate (64 - c) 0 := by
    unfold store_byte
    rw [List.take_of_length_le (by simp [hl]; omega),
      List.drop_of_length_le (by simp [hl]; omega), List.append_assoc]
    congr 1
    rw [← List.replicate_succ, ← List.replicate_succ']
  rw [hs]
  unfold strcat
  rw [strlen_append_zero _ _ hz, obind_some, strlen_metaclass_suffix, obind_some, hl,
    if_pos (by omega)]
  congr 2
  · congr 1
    rw [List.take_append_of_le_length (by omega), List.take_of_length_le (by omega)]
  · congr 1
    rw [← List.replicate_succ, List.drop_append_eq_append_drop, List.drop_of_length_le (by omega),
      hl, List.drop_replicate, List.nil_append]
    congr 1
    omega

set_option maxRecDepth 100000 in
theorem metaclass_suffix_no_zero : ∀ x ∈ (cstr " metaclass").take 10, x ≠ 0 := by
  decide

theorem metaclass_name_spec {name : List Byte} {n : Nat} (h : strlen name = some n) :
    ∃ buf, metaclass_name name = some buf ∧
      strlen buf = some (min n MAX_CLASS_NAME + 10) ∧
      buf.take (min n MAX_CLASS_NAME + 10)
        = name.take (min n MAX_CLASS_NAME) ++ (cstr " metaclass").take 10 ∧
      buf.length ≤ MAX_CLASS_NAME + 11 ∧
      buf[min n MAX_CLASS_NAME + 10]? = some 0 := by
  obtain ⟨hlt, hn⟩ := strlen_eq_some h
  have hz := strlen_take_no_zero h (min n MAX_CLASS_NAME) (Nat.min_le_left _ _)
  have hM : MAX_CLASS_NAME = 64 := rfl
  refine ⟨_, metaclass_name_of_strlen h, ?_⟩
  rw [hM] at hz ⊢
  generalize hc : min n 64 = c at hz ⊢
  have hc64 : c ≤ 64 := by omega
  have hl : (name.take c ++ (cstr " metaclass").take 10).length = c + 10 := by
    rw [List.length_append, List.length_take, List.length_take]
    have : (cstr " metaclass").length = 11 := rfl
    omega
  have hz2 : ∀ x ∈ name.take c ++ (cstr " metaclass").take 10, x ≠ 0 := by
    intro x hx
    rcases List.mem_append.mp hx with hx | hx
    · exact hz x hx
    · exact metaclass_suffix_no_zero x hx
  refine ⟨?_, ?_, ?_, ?_⟩
  · rw [← hl]; exact strlen_append_zero _ _ hz2
  · rw [← hl, List.take_left]
  · rw [List.length_append, hl, List.length_cons, List.length_replicate]; omega
  · rw [← hl, List.getElem?_append_right (Nat.le_refl _)]; simp

/-- C17: for every NUL-terminated name (of length `n`, any `n`), the three statements of
`car_new_class` that build `metaclass_name` stay inside the array of
`MAX_CLASS_NAME + 11 = 75` bytes: they are defined, the string they leave has length
`min n 64 + 10`, which is at most 74, its terminator is the byte at that index, and no
byte beyond index 74 is written. -/
theorem car_new_class_metaclass_name_fits (name : List Byte) (n : Nat)
    (h : strlen name = some n) :
    ∃ buf k, metaclass_name name = some buf ∧ strlen buf = some k ∧
      k = min n MAX_CLASS_NAME + 10 ∧ k ≤ 74 ∧ buf[k]? = some 0 ∧
      buf.length ≤ MAX_CLASS_NAME + 11 := by
  obtain ⟨buf, h1, h2, -, h4, h5⟩ := metaclass_name_spec h
  have hM : MAX_CLASS_NAME = 64 := rfl
  exact ⟨buf, _, h1, h2, rfl, by rw [hM]; omega, h5, h4⟩

set_option maxRecDepth 100000 in
/-- Witness for C17: a name of 70 characters -/
theorem car_new_class_metaclass_name_fits_witness :
    strlen (List.replicate 70 65 ++ [0]) = some 70 ∧
      ∃ buf k, metaclass_name (List.replicate 70 65 ++ [0]) = some buf ∧
        strlen buf = some k ∧ k = min 70 MAX_CLASS_NAME + 10 ∧ k ≤ 74 ∧
        buf[k]? = some 0 ∧ buf.length ≤ MAX_CLASS_NAME + 11 :=
  ⟨by decide, car_new_class_metaclass_name_fits (List.replicate 70 65 ++ [0]) 70 (by decide)⟩

/-! ## The objects that `car_new_class` creates -/

theorem get_obj_of_cores {m : Mem} {l : List CarObj} (h : m.heap.map core = l) {a : Nat}
    {c : CarObj} (hc : l[a]? = some c) : ∃ o, get_obj m (.obj a) = some o ∧ core o = c := by
  subst h
  simp only [List.getElem?_map, Option.map_eq_some'] at hc
  exact hc

theorem get_obj_fresh (m : Mem) (i : Nat) : get_obj m (.obj (m.heap.length + i)) = none := by
  simp [get_obj]

/-- The four objects that a returning `car_new_class` appends to the heap, links apart -/
theorem car_new_class_new_objs {m m' : Mem} {name : List Byte} {superclass p : Ptr}
    {np : Nat → Ptr} (h : car_new_class m name superclass np = some (m', p)) :
    ∃ n o0 o1 o2 o3, strlen name = some n ∧ p = .obj (m.heap.length + 3) ∧
      get_obj m' (.obj m.heap.length) = some o0 ∧
      get_obj m' (.obj (m.heap.length + 1)) = some o1 ∧
      get_obj m' (.obj (m.heap.length + 2)) = some o2 ∧
      get_obj m' (.obj (m.heap.length + 3)) = some o3 ∧
      core o0 = core (string_obj m.vm.string_class .null (name.take n)) ∧
      core o1 = core (string_obj m.vm.string_class .null
        (name.take (min n MAX_CLASS_NAME) ++ (cstr " metaclass").take 10)) ∧
      core o2 = core (class_obj m.vm.class_class (.obj (m.heap.length + 1))
        m.vm.class_class) ∧
      core o3 = core (class_obj (.obj (m.heap.length + 2)) (.obj m.heap.length)
        superclass) ∧
      vm_core m'.vm = vm_core m.vm := by
  obtain ⟨buf, n, k, hb, hn, hk, hp, hc, hv, -⟩ := car_new_class_cores h
  obtain ⟨buf2, hb2, hk2, ht, -, -⟩ := metaclass_name_spec hn
  cases hb.symm.trans hb2
  cases hk.symm.trans hk2
  rw [ht] at hc
  have hlen : (m.heap.map core).length = m.heap.length := length_cores m
  obtain ⟨o0, g0, e0⟩ := get_obj_of_cores hc (a := m.heap.length)
    (by rw [List.getElem?_append_right (by omega), hlen]; simp; rfl)
  obtain ⟨o1, g1, e1⟩ := get_obj_of_cores hc (a := m.heap.length + 1)
    (by rw [List.getElem?_append_right (by omega), hlen]; simp; rfl)
  obtain ⟨o2, g2, e2⟩ := get_obj_of_cores hc (a := m.heap.length + 2)
    (by rw [List.getElem?_append_right (by omega), hlen]; simp; rfl)
  obtain ⟨o3, g3, e3⟩ := get_obj_of_cores hc (a := m.heap.length + 3)
    (by rw [List.getElem?_append_right (by omega), hlen]; simp; rfl)
  exact ⟨n, o0, o1, o2, o3, hn, hp, g0, g1, g2, g3, e0, e1, e2, e3, hv⟩

set_option maxRecDepth 100000 in
theorem metaclass_suffix_cstr : (cstr " metaclass").take 10 ++ [0] = cstr " metaclass" := by
  decide

/-- C11: a returning `car_new_class(vm, name, superclass)` creates one new class and one
new metaclass and wires them.  The returned class `cls` has class the new metaclass,
superclass the argument, `num_fields` 0 and as name a string object whose bytes are the
characters of `name` and a terminator.  The metaclass `mc` has class and superclass
`vm.class_class`, `num_fields` 0 and as name a string object whose bytes are the first
`min n 64` characters of `name` (`n` its length) followed by `" metaclass"`. -/
theorem car_new_class_wires_metaclass (m m' : Mem) (name : List Byte) (superclass p : Ptr)
    (np : Nat → Ptr) (h : car_new_class m name superclass np = some (m', p)) :
    ∃ n cls mc nm mn mcp nmp mnp, strlen name = some n ∧
      get_obj m' p = some cls ∧ get_obj m' mcp = some mc ∧
      get_obj m' nmp = some nm ∧ get_obj m' mnp = some mn ∧
      get_obj m p = none ∧ get_obj m mcp = none ∧ mcp ≠ p ∧
      m'.vm.class_class = m.vm.class_class ∧
      cls.obj_type = CAR_CLASS ∧ cls.class_ = mcp ∧ cls.superclass = some superclass ∧
      cls.num_fields = some 0 ∧ cls.name = some nmp ∧
      nm.obj_type = CAR_STRING ∧ nm.byte_count = some n ∧ nm.bytes = name.take n ++ [0] ∧
      mc.obj_type = CAR_CLASS ∧ mc.class_ = m'.vm.class_class ∧
      mc.superclass = some m'.vm.class_class ∧ mc.num_fields = some 0 ∧
      mc.name = some mnp ∧
      mn.obj_type = CAR_STRING ∧ mn.byte_count = some (min n MAX_CLASS_NAME + 10) ∧
      mn.bytes = name.take (min n MAX_CLASS_NAME) ++ cstr " metaclass" := by
  obtain ⟨n, o0, o1, o2, o3, hn, rfl, g0, g1, g2, g3, e0, e1, e2, e3, hv⟩ :=
    car_new_class_new_objs h
  have hk : m'.vm.class_class = m.vm.class_class :=
    vm_core_proj CarVM.class_class (fun _ => rfl) hv
  have hl : (name.take n).length = n := by
    rw [List.length_take]; have := (strlen_eq_some hn).1; omega
  have hl2 : (name.take (min n MAX_CLASS_NAME) ++ (cstr " metaclass").take 10).length
      = min n MAX_CLASS_NAME + 10 := by
    rw [List.length_append, List.length_take, List.length_take]
    have := (strlen_eq_some hn).1
    have : (cstr " metaclass").length = 11 := rfl
    omega
  refine ⟨n, o3, o2, o0, o1, .obj (m.heap.length + 2), .obj m.heap.length,
    .obj (m.heap.length + 1), hn, g3, g2, g0, g1, get_obj_fresh m 3, get_obj_fresh m 2,
    by simp, hk, congrArg CarObj.obj_type e3, congrArg CarObj.class_ e3,
    congrArg CarObj.superclass e3, congrArg CarObj.num_fields e3, congrArg CarObj.name e3,
    congrArg CarObj.obj_type e0, ?_, congrArg CarObj.bytes e0,
    congrArg CarObj.obj_type e2, ?_, ?_, congrArg CarObj.num_fields e2,
    congrArg CarObj.name e2, congrArg CarObj.obj_type e1, ?_, ?_⟩
  · rw [← hl]; exact congrArg CarObj.byte_count e0
  · rw [hk]; exact congrArg CarObj.class_ e2
  · rw [hk]; exact congrArg CarObj.superclass e2
  · rw [← hl2]; exact congrArg CarObj.byte_count e1
  · rw [← metaclass_suffix_cstr, ← List.append_assoc]; exact congrArg CarObj.bytes e1

set_option maxRecDepth 100000 in
theorem car_new_class_sample_returns :
    (car_new_class (mem_empty 4) (cstr "Bool") .null (fun _ => .null)).isSome = true := by
  decide

/-- Witness for C11: the class "Bool" defined in an empty memory -/
theorem car_new_class_wires_metaclass_witness :
    ∃ m' p, car_new_class (mem_empty 4) (cstr "Bool") .null (fun _ => .null) = some (m', p) ∧
      ∃ n cls mc nm mn mcp nmp mnp, strlen (cstr "Bool") = some n ∧
      get_obj m' p = some cls ∧ get_obj m' mcp = some mc ∧
      get_obj m' nmp = some nm ∧ get_obj m' mnp = some mn ∧
      get_obj (mem_empty 4) p = none ∧ get_obj (mem_empty 4) mcp = none ∧ mcp ≠ p ∧
      m'.vm.class_class = (mem_empty 4).vm.class_class ∧
      cls.obj_type = CAR_CLASS ∧ cls.class_ = mcp ∧ cls.superclass = some .null ∧
      cls.num_fields = some 0 ∧ cls.name = some nmp ∧
      nm.obj_type = CAR_STRING ∧ nm.byte_count = some n ∧
      nm.bytes = (cstr "Bool").take n ++ [0] ∧
      mc.obj_type = CAR_CLASS ∧ mc.class_ = m'.vm.class_class ∧
      mc.superclass = some m'.vm.class_class ∧ mc.num_fields = some 0 ∧
      mc.name = some mnp ∧
      mn.obj_type = CAR_STRING ∧ mn.byte_count = some (min n MAX_CLASS_NAME + 10) ∧
      mn.bytes = (cstr "Bool").take (min n MAX_CLASS_NAME) ++ cstr " metaclass" := by
  obtain ⟨⟨m', p⟩, hm⟩ := Option.isSome_iff_exists.mp car_new_class_sample_returns
  exact ⟨m', p, hm, car_new_class_wires_metaclass _ _ _ _ _ _ hm⟩

/-! ## The pools after `car_new_class` -/

/-- The last `car_recolor_obj` call of a returning `car_new_class`: it is made on the new
name string, whose color tag is `CAR_GOLD`, with the `active_color` of the VM. -/
theorem car_new_class_last_recolor {m m' : Mem} {name : List Byte} {superclass p : Ptr}
    {np : Nat → Ptr} (h : car_new_class m name superclass np = some (m', p)) :
    ∃ m12 o, car_recolor_obj m12 (.obj m.heap.length) m.vm.active_color (np 2) = some m' ∧
      m12.heap[m.heap.length]? = some o ∧ o.color = CAR_GOLD := by
  obtain ⟨buf, n, k, -, -, -, -, hc, hv, -⟩ := car_new_class_cores h
  unfold car_new_class at h
  obtain ⟨b0, -, h⟩ := obind_eq_some.mp h
  obtain ⟨buf', -, h⟩ := obind_eq_some.mp h
  obtain ⟨⟨m1, p1⟩, h1, h⟩ := obind_eq_some.mp h
  obtain ⟨⟨m2, p2⟩, -, h⟩ := obind_eq_some.mp h
  obtain ⟨⟨m3, p3⟩, -, h⟩ := obind_eq_some.mp h
  obtain ⟨⟨m4, p4⟩, -, h⟩ := obind_eq_some.mp h
  obtain ⟨m5, -, h⟩ := obind_eq_some.mp h
  obtain ⟨m6, -, h⟩ := obind_eq_some.mp h
  obtain ⟨m7, -, h⟩ := obind_eq_some.mp h
  obtain ⟨m8, -, h⟩ := obind_eq_some.mp h
  obtain ⟨m9, -, h⟩ := obind_eq_some.mp h
  obtain ⟨m10, -, h⟩ := obind_eq_some.mp h
  obtain ⟨m11, -, h⟩ := obind_eq_some.mp h
  obtain ⟨m12, -, h⟩ := obind_eq_some.mp h
  obtain ⟨m13, h13, h⟩ := obind_eq_some.mp h
  cases h
  obtain ⟨-, -, rfl, -⟩ := car_new_string_from_cstring_cores h1
  simp only at h13
  obtain ⟨c13, v13, -⟩ := car_recolor_obj_links h13
  have hc12 : (m12.heap.map core)[m.heap.length]?
      = some (core (string_obj m.vm.string_class .null (name.take n))) := by
    rw [← c13, hc, List.getElem?_append_right (by simp)]
    simp
  simp only [List.getElem?_map, Option.map_eq_some'] at hc12
  obtain ⟨o, ho, hco⟩ := hc12
  have hcol : o.color = CAR_GOLD := by
    have := congrArg CarObj.color hco
    simpa [core, string_obj, fresh_obj] using this
  have hact : m12.vm.active_color = m.vm.active_color :=
    vm_core_proj CarVM.active_color (fun _ => rfl) (v13.symm.trans hv)
  rw [hact] at h13
  exact ⟨m12, o, h13, ho, hcol⟩

/-- C12 (code defect): `car_new_class` in a VM whose `active_color` is not `CAR_GOLD`.
Whatever the never-assigned local `new_pool` of `car_recolor_obj` holds, a call that
returns leaves the new name string (the first object it allocates) in no pool whose
links are consistent: it is not a member of the pool of `vm.active_color`, nor of any
other pool, and its color tag still reads `CAR_GOLD`. -/
theorem car_new_class_name_string_in_no_pool (m m' : Mem) (name : List Byte)
    (superclass p : Ptr) (np : Nat → Ptr)
    (h : car_new_class m name superclass np = some (m', p))
    (hac : m.vm.active_color ≠ CAR_GOLD) :
    (∀ c l, pool_members m' c = some l → m.heap.length ∉ l) ∧
      ∃ o, get_obj m' (.obj m.heap.length) = some o ∧ o.color = CAR_GOLD := by
  obtain ⟨m12, o, h13, ho, hcol⟩ := car_new_class_last_recolor h
  refine ⟨fun c l hl => car_recolor_obj_in_no_pool h13 ho (by rw [hcol]; exact hac) c l hl, ?_⟩
  have hk := car_recolor_obj_keeps_color h13
  have h1 := congrArg (fun l : List CarGcColor => l[m.heap.length]?) hk
  simp only [List.getElem?_map, ho, Option.map_some'] at h1
  obtain ⟨o', ho', hc'⟩ := Option.map_eq_some'.mp h1
  exact ⟨o', ho', hc'.trans hcol⟩

set_option maxRecDepth 100000 in
theorem car_new_class_red_returns :
    (car_new_class { mem_empty 4 with vm := { vm_empty with active_color := CAR_RED } }
      (cstr "Bool") .null (fun _ => .pool_of CAR_RED)).isSome = true := by
  decide

/-- Witness for C12: the class "Bool" defined in an empty memory whose `active_color` is
`CAR_RED`, the local `new_pool` holding the address of `vm->red_pool` in each call -/
theorem car_new_class_name_string_in_no_pool_witness :
    ∃ m' p, car_new_class { mem_empty 4 with vm := { vm_empty with active_color := CAR_RED } }
        (cstr "Bool") .null (fun _ => .pool_of CAR_RED) = some (m', p) ∧
      (∀ c l, pool_members m' c = some l → 0 ∉ l) ∧
      ∃ o, get_obj m' (.obj 0) = some o ∧ o.color = CAR_GOLD := by
  obtain ⟨⟨m', p⟩, hm⟩ := Option.isSome_iff_exists.mp car_new_class_red_returns
  exact ⟨m', p, hm, car_new_class_name_string_in_no_pool _ _ _ _ _ _ hm (by decide)⟩

/-! ## The reference counts of the bootstrap classes -/

set_option maxRecDepth 100000 in
theorem bootstrap_cores_refcounts :
    (bootstrap_cores[0]?).map (fun o => (o.refcount, o.class_, o.superclass))
        = some (3, .obj 1, some .null) ∧
      (bootstrap_cores[1]?).map (fun o => (o.refcount, o.class_, o.superclass))
        = some (2, .obj 2, some (.obj 2)) ∧
      (bootstrap_cores[2]?).map (fun o => (o.refcount, o.class_, o.superclass))
        = some (6, .obj 2, some (.obj 0)) ∧
      (bootstrap_cores[3]?).map (fun o => (o.refcount, o.class_, o.superclass))
        = some (1, .obj 4, some (.obj 0)) ∧
      (bootstrap_cores[4]?).map (fun o => (o.refcount, o.class_, o.superclass))
        = some (2, .obj 2, some (.obj 2)) := by
  decide

/-- C13: after `car_new_vm` returns, the reference count of each of the five bootstrap
classes (`obj_class`, its metaclass, `class_class`, `string_class`, its metaclass, five
distinct objects) is 1 plus the number of `class` and `superclass` pointers of the five
that point to it: 3, 2, 6, 1 and 2. -/
theorem car_new_vm_refcounts (config : CarConfig) (host : Host) (block : CarVM)
    (junk : Nat → Nat → Ptr) (m : Mem)
    (h : car_new_vm config host block junk = some m) :
    (bootstrap_classes m).Nodup ∧
      (bootstrap_classes m).map (fun p => (get_obj m p).map CarObj.refcount)
        = [some 3, some 2, some 6, some 1, some 2] ∧
      ∀ p ∈ bootstrap_classes m, ∃ o, get_obj m p = some o ∧
        o.refcount = 1 + back_refs m (bootstrap_classes m) p := by
  obtain ⟨hc, hv⟩ := car_new_vm_cores h
  have kcc : m.vm.class_class = .obj 2 := congrArg CarVM.class_class hv
  have koc : m.vm.obj_class = .obj 0 := congrArg CarVM.obj_class hv
  have ksc : m.vm.string_class = .obj 3 := congrArg CarVM.string_class hv
  obtain ⟨r0, r1, r2, r3, r4⟩ := bootstrap_cores_refcounts
  obtain ⟨o0, g0, e0⟩ := cores_field (fun o => (o.refcount, o.class_, o.superclass))
    (fun _ => rfl) hc 0 _ r0
  obtain ⟨o1, g1, e1⟩ := cores_field (fun o => (o.refcount, o.class_, o.superclass))
    (fun _ => rfl) hc 1 _ r1
  obtain ⟨o2, g2, e2⟩ := cores_field (fun o => (o.refcount, o.class_, o.superclass))
    (fun _ => rfl) hc 2 _ r2
  obtain ⟨o3, g3, e3⟩ := cores_field (fun o => (o.refcount, o.class_, o.superclass))
    (fun _ => rfl) hc 3 _ r3
  obtain ⟨o4, g4, e4⟩ := cores_field (fun o => (o.refcount, o.class_, o.superclass))
    (fun _ => rfl) hc 4 _ r4
  simp only [Prod.mk.injEq] at e0 e1 e2 e3 e4
  obtain ⟨a0, b0, c0⟩ := e0
  obtain ⟨a1, b1, c1⟩ := e1
  obtain ⟨a2, b2, c2⟩ := e2
  obtain ⟨a3, b3, c3⟩ := e3
  obtain ⟨a4, b4, c4⟩ := e4
  have hb : bootstrap_classes m = [.obj 0, .obj 1, .obj 2, .obj 3, .obj 4] := by
    simp only [bootstrap_classes, class_of, koc, ksc, kcc, g0, g3, b0, b3]
  rw [hb]
  refine ⟨by decide, by simp [g0, g1, g2, g3, g4, a0, a1, a2, a3, a4], ?_⟩
  intro p hp
  simp only [List.mem_cons, List.mem_singleton, List.mem_nil_iff, or_false] at hp
  rcases hp with rfl | rfl | rfl | rfl | rfl
  · exact ⟨o0, g0, by simp [back_refs, points_to, g0, g1, g2, g3, g4, a0, b0, c0, b1, c1,
      b2, c2, b3, c3, b4, c4]⟩
  · exact ⟨o1, g1, by simp [back_refs, points_to, g0, g1, g2, g3, g4, a1, b0, c0, b1, c1,
      b2, c2, b3, c3, b4, c4]⟩
  · exact ⟨o2, g2, by simp [back_refs, points_to, g0, g1, g2, g3, g4, a2, b0, c0, b1, c1,
      b2, c2, b3, c3, b4, c4]⟩
  · exact ⟨o3, g3, by simp [back_refs, points_to, g0, g1, g2, g3, g4, a3, b0, c0, b1, c1,
      b2, c2, b3, c3, b4, c4]⟩
  · exact ⟨o4, g4, by simp [back_refs, points_to, g0, g1, g2, g3, g4, a4, b0, c0, b1, c1,
      b2, c2, b3, c3, b4, c4]⟩

/-- Witness for C13: the reference run returns, and its VM has these reference counts -/
theorem car_new_vm_refcounts_witness :
    ∃ m, reference_vm = some m ∧
      (bootstrap_classes m).Nodup ∧
      (bootstrap_classes m).map (fun p => (get_obj m p).map CarObj.refcount)
        = [some 3, some 2, some 6, some 1, some 2] ∧
      ∀ p ∈ bootstrap_classes m, ∃ o, get_obj m p = some o ∧
        o.refcount = 1 + back_refs m (bootstrap_classes m) p := by
  obtain ⟨m, hm⟩ := Option.isSome_iff_exists.mp reference_vm_returns
  exact ⟨m, hm, car_new_vm_refcounts _ _ _ _ m hm⟩

/-! ## The class graph after `car_new_vm` -/

theorem superclass_chain_cores (heap : List CarObj) :
    ∀ fuel p, superclass_chain (heap.map core) fuel p = superclass_chain heap fuel p := by
  intro fuel
  induction fuel with
  | zero => intro p; cases p <;> rfl
  | succ n ih =>
    intro p
    cases p with
    | obj a =>
      simp only [superclass_chain, List.getElem?_map]
      cases heap[a]? with
      | none => rfl
      | some o =>
        simp only [Option.map_some']
        have hs : (core o).superclass = o.superclass := rfl
        rw [hs]
        cases o.superclass with
        | none => rfl
        | some s => simp only [ih s]
    | null => rfl
    | next_of a => rfl
    | pool_of c => rfl
    | vm => rfl
    | stack => rfl
    | block a => rfl

set_option maxRecDepth 100000 in
theorem bootstrap_cores_length : bootstrap_cores.length = 46 := by
  decide

set_option maxRecDepth 1000000 in
theorem bootstrap_cores_chains : ∀ x ∈ bootstrap_cores.enum,
    (x.2.class_ = .obj x.1 ↔ x.1 = 2) ∧
    (x.2.obj_type = CAR_CLASS →
      (superclass_chain bootstrap_cores 46 (.obj x.1)).map
          (fun l => (l.getLast?, decide (l.length ≤ 3))) = some (some (.obj 0), true) ∧
      (superclass_chain bootstrap_cores 46 x.2.class_).map
          (fun l => decide (Ptr.obj 2 ∈ l)) = some true) := by
  decide

set_option maxRecDepth 100000 in
theorem bootstrap_cores_sequences :
    superclass_chain bootstrap_cores 46 (.obj 25) = some [.obj 25, .obj 13, .obj 0] ∧
      superclass_chain bootstrap_cores 46 (.obj 29) = some [.obj 29, .obj 13, .obj 0] ∧
      superclass_chain bootstrap_cores 46 (.obj 41) = some [.obj 41, .obj 13, .obj 0] ∧
      (bootstrap_cores.map CarObj.obj_type).count CAR_CLASS = 23 := by
  decide


theorem cores_map {α : Type} (f : CarObj → α) (hf : ∀ o, f (core o) = f o) {m : Mem}
    {l : List CarObj} (h : m.heap.map core = l) : m.heap.map f = l.map f := by
  subst h
  simp [List.map_map, Function.comp_def, hf]

/-- C14: the class graph after `car_new_vm` returns.  From each of the 23 class objects
(object type `CAR_CLASS`), the `superclass` pointers lead in at most two steps to
`vm.obj_class`, whose superclass is NULL; the chain from the class of each class object
passes `vm.class_class`; the chains of `list_class`, `map_class` and `range_class` pass
`vm.sequence_class`; and the one object whose class pointer is its own address is
`vm.class_class`. -/
theorem car_new_vm_class_graph (config : CarConfig) (host : Host) (block : CarVM)
    (junk : Nat → Nat → Ptr) (m : Mem)
    (h : car_new_vm config host block junk = some m) :
    (m.heap.map CarObj.obj_type).count CAR_CLASS = 23 ∧
      (∀ a o, m.heap[a]? = some o → o.obj_type = CAR_CLASS →
        (∃ l, superclass_chain m.heap m.heap.length (.obj a) = some (l ++ [m.vm.obj_class]) ∧
          l.length ≤ 2) ∧
        ∃ l, superclass_chain m.heap m.heap.length o.class_ = some l ∧
          m.vm.class_class ∈ l) ∧
      (∀ c ∈ [m.vm.list_class, m.vm.map_class, m.vm.range_class],
        superclass_chain m.heap m.heap.length c
          = some [c, m.vm.sequence_class, m.vm.obj_class]) ∧
      (∀ a o, m.heap[a]? = some o → (o.class_ = .obj a ↔ .obj a = m.vm.class_class)) := by
  obtain ⟨hc, hv⟩ := car_new_vm_cores h
  have kcc : m.vm.class_class = .obj 2 := congrArg CarVM.class_class hv
  have koc : m.vm.obj_class = .obj 0 := congrArg CarVM.obj_class hv
  have kqc : m.vm.sequence_class = .obj 13 := congrArg CarVM.sequence_class hv
  have klc : m.vm.list_class = .obj 25 := congrArg CarVM.list_class hv
  have kmc : m.vm.map_class = .obj 29 := congrArg CarVM.map_class hv
  have krc : m.vm.range_class = .obj 41 := congrArg CarVM.range_class hv
  have hlen : m.heap.length = 46 := by
    rw [heap_length_of_cores hc, bootstrap_cores_length]
  have hsc : ∀ p, superclass_chain m.heap 46 p = superclass_chain bootstrap_cores 46 p := by
    intro p; rw [← hc, superclass_chain_cores]
  obtain ⟨s1, s2, s3, s4⟩ := bootstrap_cores_sequences
  have hmem : ∀ a o, m.heap[a]? = some o → (a, core o) ∈ bootstrap_cores.enum := by
    intro a o ho
    rw [List.mk_mem_enum_iff_getElem?, ← hc, List.getElem?_map, ho]
    rfl
  rw [hlen, kcc, koc, kqc, klc, kmc, krc]
  refine ⟨?_, ?_, ?_, ?_⟩
  · rw [cores_map CarObj.obj_type (fun _ => rfl) hc]; exact s4
  · intro a o ho ht
    obtain ⟨-, hx⟩ := bootstrap_cores_chains _ (hmem a o ho)
    obtain ⟨h1, h2⟩ := hx ht
    rw [hsc, hsc]
    obtain ⟨l, hl, e⟩ := Option.map_eq_some'.mp h1
    obtain ⟨l2, hl2, e2⟩ := Option.map_eq_some'.mp h2
    simp only [Prod.mk.injEq, decide_eq_true_eq] at e e2
    refine ⟨⟨l.dropLast, ?_, ?_⟩, l2, hl2, e2⟩
    · rw [hl, List.dropLast_append_getLast? _ e.1]
    · rw [List.length_dropLast]; omega
  · intro c hcm
    simp only [List.mem_cons, List.mem_singleton, List.mem_nil_iff, or_false] at hcm
    rcases hcm with rfl | rfl | rfl
    · rw [hsc]; exact s1
    · rw [hsc]; exact s2
    · rw [hsc]; exact s3
  · intro a o ho
    obtain ⟨hx, -⟩ := bootstrap_cores_chains _ (hmem a o ho)
    have hx2 : o.class_ = .obj a ↔ a = 2 := hx
    rw [hx2]
    constructor
    · rintro rfl; rfl
    · intro e; cases e; rfl

/-- Witness for C14: the reference run returns, and its VM has this class graph -/
theorem car_new_vm_class_graph_witness :
    ∃ m, reference_vm = some m ∧
      (m.heap.map CarObj.obj_type).count CAR_CLASS = 23 ∧
      (∀ a o, m.heap[a]? = some o → o.obj_type = CAR_CLASS →
        (∃ l, superclass_chain m.heap m.heap.length (.obj a) = some (l ++ [m.vm.obj_class]) ∧
          l.length ≤ 2) ∧
        ∃ l, superclass_chain m.heap m.heap.length o.class_ = some l ∧
          m.vm.class_class ∈ l) ∧
      (∀ c ∈ [m.vm.list_class, m.vm.map_class, m.vm.range_class],
        superclass_chain m.heap m.heap.length c
          = some [c, m.vm.sequence_class, m.vm.obj_class]) ∧
      (∀ a o, m.heap[a]? = some o → (o.class_ = .obj a ↔ .obj a = m.vm.class_class)) := by
  obtain ⟨m, hm⟩ := Option.isSome_iff_exists.mp reference_vm_returns
  exact ⟨m, hm, car_new_vm_class_graph _ _ _ _ m hm⟩

/-! ## The allocator requests of `car_new_vm` -/

theorem spent_of_eq {h h' : Host} (e : h' = h) : spent h h' 0 := by
  subst e
  exact ⟨Nat.zero_le _, rfl, [], rfl, by simp⟩

theorem spent_trans {h h' h'' : Host} {a b : Nat} (h1 : spent h h' a) (h2 : spent h' h'' b) :
    spent h h'' (a + b) := by
  obtain ⟨a1, a2, s1, l1, c1⟩ := h1
  obtain ⟨b1, b2, s2, l2, c2⟩ := h2
  refine ⟨by omega, by omega, s1 ++ s2, by simp [l1, l2], ?_⟩
  rw [c2, c1, List.map_append, List.append_assoc]

theorem spent_granted {h : Host} (size : Nat) (hav : 0 < h.avail) :
    spent h (granted h size) 1 :=
  ⟨hav, rfl, [size], rfl, rfl⟩

theorem car_vm_alloc_avail {m m' : Mem} {size a : Nat}
    (h : car_vm_alloc m size = some (m', .obj a)) : 0 < m.host.avail := by
  unfold car_vm_alloc at h
  obtain ⟨r, hr, h⟩ := obind_eq_some.mp h
  cases hfn : m.vm.realloc_fn with
  | null => simp [call_realloc, hfn] at hr
  | host =>
    simp only [call_realloc, hfn, Option.some.injEq] at hr
    subst hr
    simp only [Option.some.injEq, Prod.mk.injEq] at h
    by_contra hav
    have h0 : m.host.avail = 0 := by omega
    simp [car_default_realloc, h0] at h

theorem car_setup_obj_without_class_spent {m m' : Mem} {t : CarObjType} {size : Nat}
    {p : Ptr} (h : car_setup_obj_without_class m t size = some (m', p)) :
    spent m.host m'.host 1 := by
  obtain ⟨-, -, -, hh⟩ := car_setup_obj_without_class_cores h
  rw [hh]
  apply spent_granted
  unfold car_setup_obj_without_class at h
  obtain ⟨⟨m1, p1⟩, h1, h⟩ := obind_eq_some.mp h
  obtain ⟨m2, h2, -⟩ := obind_eq_some.mp h
  cases p1 with
  | obj a => exact car_vm_alloc_avail h1
  | null => simp [init_obj] at h2
  | next_of a => simp [init_obj] at h2
  | pool_of c => simp [init_obj] at h2
  | vm => simp [init_obj] at h2
  | stack => simp [init_obj] at h2
  | block a => simp [init_obj] at h2

theorem set_obj_host {m m' : Mem} {p : Ptr} {f : CarObj → CarObj}
    (h : set_obj m p f = some m') : m'.host = m.host := by
  obtain ⟨a, o, -, -, rfl⟩ := set_obj_eq_some.mp h
  rfl

theorem car_setup_obj_spent {m m' : Mem} {t : CarObjType} {size : Nat} {c p : Ptr}
    (h : car_setup_obj m t size c = some (m', p)) : spent m.host m'.host 1 := by
  obtain ⟨-, -, -, hh⟩ := car_setup_obj_cores h
  rw [hh]
  apply spent_granted
  unfold car_setup_obj at h
  obtain ⟨⟨m1, p1⟩, h1, -⟩ := obind_eq_some.mp h
  exact (car_setup_obj_without_class_spent h1).1

theorem car_new_string_spent {m m' : Mem} {bytes : List Byte} {count : Nat} {p : Ptr}
    (h : car_new_string m bytes count = some (m', p)) : spent m.host m'.host 1 := by
  obtain ⟨-, -, -, -, hh⟩ := car_new_string_cores h
  rw [hh]
  apply spent_granted
  unfold car_new_string at h
  obtain ⟨⟨m1, p1⟩, h1, -⟩ := obind_eq_some.mp h
  exact (car_setup_obj_spent h1).1

theorem car_new_string_from_cstring_spent {m m' : Mem} {string : List Byte} {p : Ptr}
    (h : car_new_string_from_cstring m string = some (m', p)) : spent m.host m'.host 1 := by
  unfold car_new_string_from_cstring at h
  obtain ⟨n, -, h⟩ := obind_eq_some.mp h
  exact car_new_string_spent h

theorem car_new_vm_name_spent {m m' : Mem} {c : Ptr} {name : List Byte}
    (h : car_new_vm_name m c name = some m') : spent m.host m'.host 1 := by
  unfold car_new_vm_name at h
  obtain ⟨⟨m1, p1⟩, h1, h⟩ := obind_eq_some.mp h
  have e := set_obj_host h
  rw [e]
  exact car_new_string_from_cstring_spent h1

theorem car_new_class_spent {m m' : Mem} {name : List Byte} {superclass p : Ptr}
    {np : Nat → Ptr} (h : car_new_class m name superclass np = some (m', p)) :
    spent m.host m'.host 4 := by
  unfold car_new_class at h
  obtain ⟨b0, -, h⟩ := obind_eq_some.mp h
  obtain ⟨buf, -, h⟩ := obind_eq_some.mp h
  obtain ⟨⟨m1, p1⟩, h1, h⟩ := obind_eq_some.mp h
  obtain ⟨⟨m2, p2⟩, h2, h⟩ := obind_eq_some.mp h
  obtain ⟨⟨m3, p3⟩, h3, h⟩ := obind_eq_some.mp h
  obtain ⟨⟨m4, p4⟩, h4, h⟩ := obind_eq_some.mp h
  simp only at h2 h3 h4 h
  obtain ⟨m5, h5, h⟩ := obind_eq_some.mp h
  obtain ⟨m6, h6, h⟩ := obind_eq_some.mp h
  obtain ⟨m7, h7, h⟩ := obind_eq_some.mp h
  obtain ⟨m8, h8, h⟩ := obind_eq_some.mp h
  obtain ⟨m9, h9, h⟩ := obind_eq_some.mp h
  obtain ⟨m10, h10, h⟩ := obind_eq_some.mp h
  obtain ⟨m11, h11, h⟩ := obind_eq_some.mp h
  obtain ⟨m12, h12, h⟩ := obind_eq_some.mp h
  obtain ⟨m13, h13, h⟩ := obind_eq_some.mp h
  cases h
  have t := spent_trans (spent_trans (spent_trans (car_new_string_from_cstring_spent h1)
    (car_new_string_from_cstring_spent h2)) (car_setup_obj_spent h3)) (car_setup_obj_spent h4)
  rw [(car_recolor_obj_links h13).2.2, (car_recolor_obj_links h12).2.2,
    (car_recolor_obj_links h11).2.2, set_obj_host h10, set_obj_host h9, set_obj_host h8,
    set_obj_host h7, set_obj_host h6, set_obj_host h5]
  exact t

theorem car_new_vm_class_spent {m m' : Mem} {name : List Byte} {superclass : Ptr}
    {np : Nat → Ptr} {store : CarVM → Ptr → CarVM}
    (h : car_new_vm_class m name superclass np store = some m') : spent m.host m'.host 4 := by
  unfold car_new_vm_class at h
  obtain ⟨⟨m1, p1⟩, h1, h⟩ := obind_eq_some.mp h
  cases h
  have t : spent m.host m1.host 4 := car_new_class_spent h1
  exact t

theorem car_inc_rc_times_host {p : Ptr} :
    ∀ (n : Nat) {m m' : Mem}, car_inc_rc_times m p n = some m' → m'.host = m.host := by
  intro n
  induction n with
  | zero => intro m m' h; cases h; rfl
  | succ n ih =>
    intro m m' h
    unfold car_inc_rc_times at h
    obtain ⟨m1, h1, h⟩ := obind_eq_some.mp h
    rw [ih h]
    unfold car_inc_rc at h1
    obtain ⟨o, -, h1⟩ := obind_eq_some.mp h1
    split at h1
    · exact set_obj_host h1
    · cases h1; rfl


theorem call_realloc_vm_spent {fn : FnPtr} {host : Host} {size : Nat} {r : Host × Ptr}
    (h : call_realloc fn host .vm .null size = some r) (hr : r.2 = .vm) :
    fn = .host ∧ spent host r.1 1 := by
  cases fn with
  | null => simp [call_realloc] at h
  | host =>
    simp only [call_realloc, Option.some.injEq] at h
    subst h
    refine ⟨rfl, ?_⟩
    by_cases hs : size = 0
    · simp [car_default_realloc, hs] at hr
    by_cases hav : host.avail = 0
    · simp [car_default_realloc, hs, hav] at hr
    · have e : (car_default_realloc host .vm .null size).1 = granted host size := by
        simp [car_default_realloc, hs, hav, granted]
      rw [e]
      exact spent_granted size (by omega)

/-- Every run of `car_new_vm` that returns has made 47 requests to a host allocator, all
of them `malloc` requests that were granted. -/
theorem car_new_vm_spent {config : CarConfig} {host : Host} {block : CarVM}
    {junk : Nat → Nat → Ptr} {m : Mem} (h : car_new_vm config host block junk = some m) :
    config.realloc_fn = .host ∧ m.vm.realloc_fn = .host ∧ spent host m.host 47 := by
  have hfin := (car_new_vm_cores h).2
  have hfn : m.vm.realloc_fn = config.realloc_fn := congrArg CarVM.realloc_fn hfin
  unfold car_new_vm at h
  obtain ⟨r0, s0, h0⟩ := obind_eq_some.mp h
  clear h
  split at h0
  · cases h0
  rename_i hr0
  obtain ⟨hc, t0⟩ := call_realloc_vm_spent s0 (by simpa using hr0)
  obtain ⟨⟨m1, p1⟩, s1, h1⟩ := obind_eq_some.mp h0
  clear h0
  have t1 : spent host m1.host 2 := spent_trans t0 (car_setup_obj_without_class_spent s1)
  clear t0 s1
  obtain ⟨⟨m2, p2⟩, s2, h2⟩ := obind_eq_some.mp h1
  clear h1
  have t2 : spent host m2.host 3 := spent_trans t1 (car_setup_obj_without_class_spent s2)
  clear t1 s2
  obtain ⟨⟨m3, p3⟩, s3, h3⟩ := obind_eq_some.mp h2
  clear h2
  have t3 : spent host m3.host 4 := spent_trans t2 (car_setup_obj_without_class_spent s3)
  clear t2 s3
  obtain ⟨⟨m4, p4⟩, s4, h4⟩ := obind_eq_some.mp h3
  clear h3
  have t4 : spent host m4.host 5 := spent_trans t3 (car_setup_obj_without_class_spent s4)
  clear t3 s4
  obtain ⟨⟨m5, p5⟩, s5, h5⟩ := obind_eq_some.mp h4
  clear h4
  have t5 : spent host m5.host 6 := spent_trans t4 (car_setup_obj_without_class_spent s5)
  clear t4 s5
  obtain ⟨m6, s6, h6⟩ := obind_eq_some.mp h5
  clear h5
  have t6 : spent host m6.host 6 := by rw [set_obj_host s6]; exact t5
  clear t5 s6
  obtain ⟨m7, s7, h7⟩ := obind_eq_some.mp h6
  clear h6
  have t7 : spent host m7.host 6 := by rw [set_obj_host s7]; exact t6
  clear t6 s7
  obtain ⟨m8, s8, h8⟩ := obind_eq_some.mp h7
  clear h7
  have t8 : spent host m8.host 6 := by rw [set_obj_host s8]; exact t7
  clear t7 s8
  obtain ⟨m9, s9, h9⟩ := obind_eq_some.mp h8
  clear h8
  have t9 : spent host m9.host 6 := by rw [set_obj_host s9]; exact t8
  clear t8 s9
  obtain ⟨m10, s10, h10⟩ := obind_eq_some.mp h9
  clear h9
  have t10 : spent host m10.host 6 := by rw [set_obj_host s10]; exact t9
  clear t9 s10
  obtain ⟨m11, s11, h11⟩ := obind_eq_some.mp h10
  clear h10
  have t11 : spent host m11.host 6 := by rw [set_obj_host s11]; exact t10
  clear t10 s11
  obtain ⟨m12, s12, h12⟩ := obind_eq_some.mp h11
  clear h11
  have t12 : spent host m12.host 6 := by rw [set_obj_host s12]; exact t11
  clear t11 s12
  obtain ⟨m13, s13, h13⟩ := obind_eq_some.mp h12
  clear h12
  have t13 : spent host m13.host 6 := by rw [set_obj_host s13]; exact t12
  clear t12 s13
  obtain ⟨m14, s14, h14⟩ := obind_eq_some.mp h13
  clear h13
  have t14 : spent host m14.host 6 := by rw [set_obj_host s14]; exact t13
  clear t13 s14
  obtain ⟨m15, s15, h15⟩ := obind_eq_some.mp h14
  clear h14
  have t15 : spent host m15.host 6 := by rw [set_obj_host s15]; exact t14
  clear t14 s15
  obtain ⟨m16, s16, h16⟩ := obind_eq_some.mp h15
  clear h15
  have t16 : spent host m16.host 6 := by rw [car_inc_rc_times_host _ s16]; exact t15
  clear t15 s16
  obtain ⟨m17, s17, h17⟩ := obind_eq_some.mp h16
  clear h16
  have t17 : spent host m17.host 6 := by rw [car_inc_rc_times_host _ s17]; exact t16
  clear t16 s17
  obtain ⟨m18, s18, h18⟩ := obind_eq_some.mp h17
  clear h17
  have t18 : spent host m18.host 6 := by rw [car_inc_rc_times_host _ s18]; exact t17
  clear t17 s18
  obtain ⟨m19, s19, h19⟩ := obind_eq_some.mp h18
  clear h18
  have t19 : spent host m19.host 6 := by rw [car_inc_rc_times_host _ s19]; exact t18
  clear t18 s19
  obtain ⟨m20, s20, h20⟩ := obind_eq_some.mp h19
  clear h19
  have t20 : spent host m20.host 6 := by rw [car_inc_rc_times_host _ s20]; exact t19
  clear t19 s20
  obtain ⟨m21, s21, h21⟩ := obind_eq_some.mp h20
  clear h20
  have t21 : spent host m21.host 7 := spent_trans t20 (car_new_vm_name_spent s21)
  clear t20 s21
  obtain ⟨m22, s22, h22⟩ := obind_eq_some.mp h21
  clear h21
  have t22 : spent host m22.host 8 := spent_trans t21 (car_new_vm_name_spent s22)
  clear t21 s22
  obtain ⟨m23, s23, h23⟩ := obind_eq_some.mp h22
  clear h22
  have t23 : spent host m23.host 9 := spent_trans t22 (car_new_vm_name_spent s23)
  clear t22 s23
  obtain ⟨m24, s24, h24⟩ := obind_eq_some.mp h23
  clear h23
  have t24 : spent host m24.host 10 := spent_trans t23 (car_new_vm_name_spent s24)
  clear t23 s24
  obtain ⟨m25, s25, h25⟩ := obind_eq_some.mp h24
  clear h24
  have t25 : spent host m25.host 11 := spent_trans t24 (car_new_vm_name_spent s25)
  clear t24 s25
  obtain ⟨m26, s26, h26⟩ := obind_eq_some.mp h25
  clear h25
  have t26 : spent host m26.host 15 := spent_trans t25 (car_new_vm_class_spent s26)
  clear t25 s26
  obtain ⟨m27, s27, h27⟩ := obind_eq_some.mp h26
  clear h26
  have t27 : spent host m27.host 19 := spent_trans t26 (car_new_vm_class_spent s27)
  clear t26 s27
  obtain ⟨m28, s28, h28⟩ := obind_eq_some.mp h27
  clear h27
  have t28 : spent host m28.host 23 := spent_trans t27 (car_new_vm_class_spent s28)
  clear t27 s28
  obtain ⟨m29, s29, h29⟩ := obind_eq_some.mp h28
  clear h28
  have t29 : spent host m29.host 27 := spent_trans t28 (car_new_vm_class_spent s29)
  clear t28 s29
  obtain ⟨m30, s30, h30⟩ := obind_eq_some.mp h29
  clear h29
  have t30 : spent host m30.host 31 := spent_trans t29 (car_new_vm_class_spent s30)
  clear t29 s30
  obtain ⟨m31, s31, h31⟩ := obind_eq_some.mp h30
  clear h30
  have t31 : spent host m31.host 35 := spent_trans t30 (car_new_vm_class_spent s31)
  clear t30 s31
  obtain ⟨m32, s32, h32⟩ := obind_eq_some.mp h31
  clear h31
  have t32 : spent host m32.host 39 := spent_trans t31 (car_new_vm_class_spent s32)
  clear t31 s32
  obtain ⟨m33, s33, h33⟩ := obind_eq_some.mp h32
  clear h32
  have t33 : spent host m33.host 43 := spent_trans t32 (car_new_vm_class_spent s33)
  clear t32 s33
  obtain ⟨m34, s34, h34⟩ := obind_eq_some.mp h33
  clear h33
  have t34 : spent host m34.host 47 := spent_trans t33 (car_new_vm_class_spent s34)
  clear t33 s34
  cases h34
  exact ⟨hc, by rw [hfn, hc], t34⟩

/-! ## `car_free_vm` after `car_new_vm` -/

/-- C15 (code defect): `car_free_vm` after a returning `car_new_vm`.  The run of
`car_new_vm` obtained 47 blocks from the callback (the `CarVM` block and 46 objects);
`car_free_vm`, whose body is a `TODO` comment and one call, hands back the `CarVM` block
alone: the log of the callback grows by the one call `(vm, 0)`, and no call with the
address of an object and size 0 is made. -/
theorem car_free_vm_frees_only_the_vm_block (config : CarConfig) (host : Host)
    (block : CarVM) (junk : Nat → Nat → Ptr) (m : Mem)
    (h : car_new_vm config host block junk = some m) :
    ∃ (h' : Host) (sizes : List Nat), car_free_vm m = some h' ∧ sizes.length = 47 ∧ m.heap.length = 46 ∧
      h'.calls = host.calls ++ sizes.map (fun s => (Ptr.null, s)) ++ [(Ptr.vm, 0)] ∧
      ∀ a, (Ptr.obj a, 0) ∈ h'.calls → (Ptr.obj a, 0) ∈ host.calls := by
  obtain ⟨-, hfn, -, -, sizes, hl, hcalls⟩ := car_new_vm_spent h
  have hlen : m.heap.length = 46 := by
    rw [heap_length_of_cores (car_new_vm_cores h).1, bootstrap_cores_length]
  have hf : car_free_vm m
      = some { m.host with calls := m.host.calls ++ [(Ptr.vm, 0)] } := by
    simp [car_free_vm, hfn, call_realloc, car_default_realloc, obind]
  refine ⟨_, sizes, hf, hl, hlen, by simp only [hcalls], ?_⟩
  intro a ha
  simp only [hcalls, List.mem_append, List.mem_map, List.mem_singleton, Prod.mk.injEq] at ha
  rcases ha with (ha | ⟨s, -, hs, -⟩) | ⟨hs, -⟩
  · exact ha
  · cases hs
  · cases hs

/-- Witness for C15: the reference run followed by `car_free_vm` -/
theorem car_free_vm_frees_only_the_vm_block_witness :
    ∃ m, reference_vm = some m ∧
      ∃ (h' : Host) (sizes : List Nat), car_free_vm m = some h' ∧ sizes.length = 47 ∧ m.heap.length = 46 ∧
        h'.calls = [] ++ sizes.map (fun s => (Ptr.null, s)) ++ [(Ptr.vm, 0)] ∧
        ∀ a, (Ptr.obj a, 0) ∈ h'.calls → (Ptr.obj a, 0) ∈ ([] : List (Ptr × Nat)) := by
  obtain ⟨m, hm⟩ := Option.isSome_iff_exists.mp reference_vm_returns
  exact ⟨m, hm, car_free_vm_frees_only_the_vm_block _ _ _ _ m hm⟩

/-! ## Allocation failure -/

/-- C16 (as amended): the result of the callback is used without a check.  A run of
`car_new_vm` in which the host allocator grants fewer than its 47 requests is undefined
(it stores through the NULL pointer that the failed request returned), and so is a call
of `car_setup_obj_without_class` whose request is not granted; no failure is reported. -/
theorem car_new_vm_allocation_failure_undefined :
    (∀ (config : CarConfig) (host : Host) (block : CarVM) (junk : Nat → Nat → Ptr),
        host.avail < 47 → car_new_vm config host block junk = none) ∧
      (∀ (m : Mem) (t : CarObjType) (size : Nat), m.host.avail = 0 →
        car_setup_obj_without_class m t size = none) := by
  constructor
  · intro config host block junk hav
    cases hr : car_new_vm config host block junk with
    | none => rfl
    | some m =>
      have := (car_new_vm_spent hr).2.2.1
      omega
  · intro m t size hav
    cases hr : car_setup_obj_without_class m t size with
    | none => rfl
    | some r =>
      obtain ⟨m', p⟩ := r
      have := (car_setup_obj_without_class_spent hr).1
      omega

set_option maxRecDepth 100000 in
/-- C16 (counterexample): when the allocator fails, the failure is not reported.  In a
memory whose allocator grants nothing, `car_vm_alloc` returns NULL and
`car_setup_obj_without_class` goes on to store the object header through it, which is
undefined; `car_new_vm` with an allocator that fails its first request, or its last
one, is undefined as well. -/
theorem car_new_vm_failure_not_reported :
    (car_vm_alloc (mem_empty 0) sizeof_CarObj).map (fun r => r.2) = some .null ∧
      car_setup_obj_without_class (mem_empty 0) CAR_STRING sizeof_CarObj = none ∧
      car_new_vm { realloc_fn := .host, userdata := 0 } { avail := 0, calls := [] } vm_empty
        (fun _ _ => .null) = none ∧
      car_new_vm { realloc_fn := .host, userdata := 0 } { avail := 46, calls := [] } vm_empty
        (fun _ _ => .null) = none := by
  decide

/-! ## The symbol table -/

end Cardinal
